import Mathlib

/-!
# Verification of the chart worker of `financial-data`

Shallow embedding of the computations of `src/chartWorker.js`
(`parseCSV`, `calculateIndicators`, `calculateVolumeProfile`,
`calculateSupportResistance`) and of `downsampleData` from
`src/ForexChart.js`. The function `calculateIndicators` assigns fields of
its argument's records and can throw: it is embedded with an explicit store
and an explicit exception. The others are pure.

JavaScript numbers are IEEE 754 doubles. They are embedded as rationals
extended with `Infinity`, `-Infinity` and `NaN`. The operations
`JSNum.add`, `JSNum.sub`, `JSNum.mul` and `JSNum.div` are exact; an
arithmetic operator of the language is the exact operation followed by the
rounding to the nearest double (`JSNum.addR` and its siblings), and every
function that computes with prices or volumes takes that rounding as its
first argument `rnd`. The definition `roundDouble` is the rounding of
binary64: to nearest, ties to even, overflow to an infinity, the subnormal
range included. Lemmas are stated for any rounding with the properties they
use, which `roundDouble` has (`roundDouble_mono`, `roundDouble_zero`,
`roundDouble_exact`); the theorems about the volume profile and the single
peak, and all examples, are stated for `roundDouble`.

Comparisons, `Math.floor`, `Math.abs`, `Math.min` and `Math.max` are exact
on doubles. The function `downsampleData` divides one array length by
another and takes the ceiling, and `parseCSV` only tests the parsed cells
for `NaN`; these two are embedded with exact arithmetic, which gives the
same stride for every array length and the same cells that are `NaN`.

The sign of zero is not modelled: there is one zero, and a quotient by zero
takes the sign of the dividend. In the volume profile a quotient by a zero
level size fails the range test whatever its sign; the theorems on the
proximity test of the detector are stated for prices other than zero, or for
a level compared with itself, where the quotient `0 / 0` is `NaN` for either
zero.
-/

namespace FinancialData

/-! ## JavaScript numbers -/

/-- A JavaScript number: a finite value, an infinity, or `NaN`. -/
inductive JSNum where
  | nan : JSNum
  | negInf : JSNum
  | fin : ℚ → JSNum
  | posInf : JSNum
  deriving DecidableEq, Repr

namespace JSNum

/-- Unary minus. -/
def neg : JSNum → JSNum
  | nan => nan
  | negInf => posInf
  | fin q => fin (-q)
  | posInf => negInf

/-- The operator `+`. -/
def add : JSNum → JSNum → JSNum
  | nan, _ => nan
  | _, nan => nan
  | fin a, fin b => fin (a + b)
  | posInf, negInf => nan
  | negInf, posInf => nan
  | posInf, _ => posInf
  | negInf, _ => negInf
  | fin _, posInf => posInf
  | fin _, negInf => negInf

/-- The operator `-`. -/
def sub (a b : JSNum) : JSNum := add a (neg b)

/-- The operator `*`. -/
def mul : JSNum → JSNum → JSNum
  | nan, _ => nan
  | _, nan => nan
  | fin a, fin b => fin (a * b)
  | fin a, posInf => if a = 0 then nan else if 0 < a then posInf else negInf
  | fin a, negInf => if a = 0 then nan else if 0 < a then negInf else posInf
  | posInf, fin b => if b = 0 then nan else if 0 < b then posInf else negInf
  | negInf, fin b => if b = 0 then nan else if 0 < b then negInf else posInf
  | posInf, posInf => posInf
  | negInf, negInf => posInf
  | posInf, negInf => negInf
  | negInf, posInf => negInf

/-- The operator `/`. Division of a finite non-zero value by zero gives an
infinity of the sign of the dividend, and `0 / 0` is `NaN`. -/
def div : JSNum → JSNum → JSNum
  | nan, _ => nan
  | _, nan => nan
  | fin a, fin b =>
      if b = 0 then (if a = 0 then nan else if 0 < a then posInf else negInf)
      else fin (a / b)
  | fin _, posInf => fin 0
  | fin _, negInf => fin 0
  | posInf, fin b => if 0 ≤ b then posInf else negInf
  | negInf, fin b => if 0 ≤ b then negInf else posInf
  | posInf, posInf => nan
  | posInf, negInf => nan
  | negInf, posInf => nan
  | negInf, negInf => nan

/-- The function `Math.floor`. -/
def floor : JSNum → JSNum
  | fin q => fin (⌊q⌋ : ℤ)
  | x => x

/-- The function `Math.abs`. -/
def abs : JSNum → JSNum
  | nan => nan
  | negInf => posInf
  | fin q => fin |q|
  | posInf => posInf

/-- The operator `<`; every comparison with `NaN` is false. -/
def lt : JSNum → JSNum → Bool
  | nan, _ => false
  | _, nan => false
  | fin a, fin b => decide (a < b)
  | negInf, negInf => false
  | negInf, _ => true
  | _, negInf => false
  | posInf, _ => false
  | fin _, posInf => true

/-- The operator `>`. -/
def gt (a b : JSNum) : Bool := lt b a

/-- The operator `>=`; every comparison with `NaN` is false. -/
def ge : JSNum → JSNum → Bool
  | nan, _ => false
  | _, nan => false
  | a, b => !(lt a b)

/-- The function `isNaN` on a number. -/
def isNaN : JSNum → Bool
  | nan => true
  | _ => false

end JSNum

/-- The function `Math.ceil`. -/
def JSNum.ceil : JSNum → JSNum
  | JSNum.fin q => JSNum.fin (⌈q⌉ : ℤ)
  | x => x

/-- Rounding towards zero. -/
def truncQ (q : ℚ) : ℤ := if 0 ≤ q then ⌊q⌋ else ⌈q⌉

/-- The operator `%`: the remainder has the sign of the dividend, a zero
divisor or an infinite dividend gives `NaN`, an infinite divisor leaves a
finite dividend unchanged. -/
def JSNum.mod : JSNum → JSNum → JSNum
  | JSNum.fin a, JSNum.fin b => if b = 0 then JSNum.nan else JSNum.fin (a - b * truncQ (a / b))
  | JSNum.fin a, JSNum.posInf => JSNum.fin a
  | JSNum.fin a, JSNum.negInf => JSNum.fin a
  | _, _ => JSNum.nan

/-- The function `isFinite` on a number. -/
def JSNum.isFinite : JSNum → Bool
  | JSNum.fin _ => true
  | _ => false

/-- The operator `<=`; every comparison with `NaN` is false. -/
def JSNum.le (a b : JSNum) : Bool := a.lt b || (!a.isNaN && decide (a = b))

/-- The rational value of a finite number, zero for the others. -/
def JSNum.toRat : JSNum → ℚ
  | JSNum.fin q => q
  | _ => 0

/-- The result of an arithmetic operation on doubles is the exact result,
rounded: `rnd` gives the double (or the infinity, on overflow) nearest to a
rational; an exact result that is infinite or `NaN` stays as it is. -/
def JSNum.round (rnd : ℚ → JSNum) : JSNum → JSNum
  | JSNum.fin q => rnd q
  | x => x

/-- The operator `+` on doubles. -/
def JSNum.addR (rnd : ℚ → JSNum) (a b : JSNum) : JSNum := (a.add b).round rnd

/-- The operator `-` on doubles. -/
def JSNum.subR (rnd : ℚ → JSNum) (a b : JSNum) : JSNum := (a.sub b).round rnd

/-- The operator `*` on doubles. -/
def JSNum.mulR (rnd : ℚ → JSNum) (a b : JSNum) : JSNum := (a.mul b).round rnd

/-- The operator `/` on doubles. -/
def JSNum.divR (rnd : ℚ → JSNum) (a b : JSNum) : JSNum := (a.div b).round rnd

/-- Rounding of a rational to the nearest integer, a tie going to the even
one. -/
def roundHalfEven (x : ℚ) : ℤ :=
  if x - ⌊x⌋ < 1 / 2 then ⌊x⌋
  else if 1 / 2 < x - ⌊x⌋ then ⌊x⌋ + 1
  else if ⌊x⌋ % 2 = 0 then ⌊x⌋ else ⌊x⌋ + 1

/-- The binary exponent of the unit in the last place of the doubles of the
magnitude of `a`: 52 below the exponent of `a`, and `-1074` for the
subnormal range. -/
def ulpExponent (a : ℚ) : ℤ := max (Int.log 2 a) (-1022) - 52

/-- The non-negative rational `a` rounded to a multiple of its unit in the
last place. -/
def roundMagnitude (a : ℚ) : ℚ := roundHalfEven (a / 2 ^ ulpExponent a) * 2 ^ ulpExponent a

/-- The rounding of IEEE 754 binary64, to nearest with ties to even: the
double nearest to `q`, an infinity when the rounded magnitude reaches
`2 ^ 1024`. -/
def roundDouble (q : ℚ) : JSNum :=
  if 2 ^ 1024 ≤ roundMagnitude |q| then (if 0 ≤ q then JSNum.posInf else JSNum.negInf)
  else JSNum.fin (if 0 ≤ q then roundMagnitude |q| else -roundMagnitude |q|)

/-- The smaller of two numbers as `Math.min` takes it: `NaN` when either is
`NaN`. -/
def JSNum.min2 (a b : JSNum) : JSNum :=
  if a.isNaN || b.isNaN then JSNum.nan else if b.lt a then b else a

/-- The greater of two numbers as `Math.max` takes it: `NaN` when either is
`NaN`. -/
def JSNum.max2 (a b : JSNum) : JSNum :=
  if a.isNaN || b.isNaN then JSNum.nan else if a.lt b then b else a

/-- The call `Math.min(...xs)`: `+Infinity` when `xs` is empty, `NaN` when an
element is `NaN`, the least element otherwise. -/
def mathMin : List JSNum → JSNum
  | [] => JSNum.posInf
  | x :: xs => JSNum.min2 x (mathMin xs)

/-- The call `Math.max(...xs)`: `-Infinity` when `xs` is empty, `NaN` when an
element is `NaN`, the greatest element otherwise. -/
def mathMax : List JSNum → JSNum
  | [] => JSNum.negInf
  | x :: xs => JSNum.max2 x (mathMax xs)

/-! ## Arrays -/

/-- The method `Array.prototype.filter` with a callback that receives the
element and its index; `start` is the index of the head of the list. -/
def arrayFilter {α : Type} (p : α → Nat → Bool) : Nat → List α → List α
  | _, [] => []
  | start, x :: xs =>
      if p x start then x :: arrayFilter p (start + 1) xs else arrayFilter p (start + 1) xs

/-- The method `Array.prototype.slice(a, b)` for non-negative bounds. -/
def slice {α : Type} (xs : List α) (a b : Nat) : List α := (xs.take b).drop a

/-- The method `Array.prototype.findIndex`; `none` stands for `-1`. -/
def findIndex {α : Type} (p : α → Bool) : List α → Option Nat
  | [] => none
  | x :: xs => if p x then some 0 else (findIndex p xs).map (fun n => n + 1)

/-! ## Data model -/

/-- A candle: the fields of the records that `parseCSV` produces. The
numeric fields are doubles; an infinity is possible, since only `NaN` is
filtered out. -/
structure Candle where
  date : String
  open_ : JSNum
  high : JSNum
  low : JSNum
  close : JSNum
  volume : JSNum
  deriving DecidableEq, Repr

/-- One entry of the volume profile. -/
structure VolumeProfileLevel where
  price : JSNum
  volume : JSNum
  deriving DecidableEq, Repr

/-- The two kinds of level. -/
inductive LevelType where
  | support : LevelType
  | resistance : LevelType
  deriving DecidableEq, Repr

/-- A support or resistance level. -/
structure SupportResistanceLevel where
  price : JSNum
  type : LevelType
  deriving DecidableEq, Repr

/-- The record built from one row; `date` is the cell handed to `new Date`. -/
structure ParsedCandle where
  date : Option String
  open_ : JSNum
  high : JSNum
  low : JSNum
  close : JSNum
  volume : JSNum
  deriving DecidableEq, Repr

/-! ## Volume profile (`calculateVolumeProfile`)

Every function that computes with doubles takes the rounding `rnd` of the
arithmetic as its first argument; `roundDouble` is the rounding of the
language. -/

/-- The statement `volumeProfile[k].volume += v` for an index inside the
array. -/
def addVolume (rnd : ℚ → JSNum) :
    List VolumeProfileLevel → Nat → JSNum → List VolumeProfileLevel
  | [], _, _ => []
  | l :: ls, 0, v => { l with volume := l.volume.addR rnd v } :: ls
  | l :: ls, k + 1, v => l :: addVolume rnd ls k v

/-- The value of `levelIndex` for one candle:
`Math.floor((candle.close - minPrice) / levelSize)`. -/
def levelIndex (rnd : ℚ → JSNum) (minPrice levelSize : JSNum) (candle : Candle) : JSNum :=
  ((candle.close.subR rnd minPrice).divR rnd levelSize).floor

/-- The body of the `forEach` of `calculateVolumeProfile`. -/
def binCandle (rnd : ℚ → JSNum) (minPrice levelSize : JSNum) (levels : Nat)
    (volumeProfile : List VolumeProfileLevel) (candle : Candle) :
    List VolumeProfileLevel :=
  let idx := levelIndex rnd minPrice levelSize candle
  if idx.ge (JSNum.fin 0) && idx.lt (JSNum.fin levels) then
    match idx with
    | JSNum.fin q => addVolume rnd volumeProfile (Int.toNat ⌊q⌋) candle.volume
    | _ => volumeProfile
  else volumeProfile

/-- The function `calculateVolumeProfile(data, levels)`. -/
def calculateVolumeProfile (rnd : ℚ → JSNum) (data : List Candle) (levels : Nat) :
    List VolumeProfileLevel :=
  let minPrice := mathMin (data.map (fun d => d.low))
  let maxPrice := mathMax (data.map (fun d => d.high))
  let priceRange := maxPrice.subR rnd minPrice
  let levelSize := priceRange.divR rnd (JSNum.fin levels)
  let volumeProfile : List VolumeProfileLevel :=
    (List.range levels).map (fun (i : Nat) =>
      { price := minPrice.addR rnd ((JSNum.fin (i : ℚ)).mulR rnd levelSize),
        volume := JSNum.fin 0 })
  data.foldl (binCandle rnd minPrice levelSize levels) volumeProfile

/-- The default value of the parameter `levels`. -/
def defaultLevels : Nat := 30

/-! ## Downsampling (`downsampleData`) -/

/-- The function `downsampleData(data, targetLength)`. -/
def downsampleData {α : Type} (data : List α) (targetLength : Nat) : List α :=
  let step := (JSNum.div (JSNum.fin data.length) (JSNum.fin targetLength)).ceil
  arrayFilter (fun _ index => decide (JSNum.mod (JSNum.fin index) step = JSNum.fin 0)) 0 data

/-! ## Support and resistance (`calculateSupportResistance`)

The loop pushes at most two levels per index; the final `filter` keeps a
level when `findIndex` of the proximity test returns the level's own index.
The comparisons of the loop are exact; the proximity test subtracts and
divides doubles and takes the rounding as its first argument. -/

/-- The levels pushed by the iteration of the loop at index `i`. -/
def levelsAt (data : List Candle) (periods i : Nat) : List SupportResistanceLevel :=
  match data[i]? with
  | none => []
  | some d =>
      let currentPrice := d.close
      let leftPrices := (slice data (i - periods) i).map (fun d => d.close)
      let rightPrices := (slice data (i + 1) (i + periods + 1)).map (fun d => d.close)
      (if (mathMin rightPrices).gt currentPrice && (mathMin leftPrices).gt currentPrice
        then [{ price := currentPrice, type := LevelType.support }] else []) ++
      (if (mathMax rightPrices).lt currentPrice && (mathMax leftPrices).lt currentPrice
        then [{ price := currentPrice, type := LevelType.resistance }] else [])

/-- The indices visited by `for (let i = periods; i < data.length - periods; i++)`. -/
def loopIndices (data : List Candle) (periods : Nat) : List Nat :=
  List.range' periods (data.length - periods - periods)

/-- The array `levels` at the end of the loop. -/
def collectLevels (data : List Candle) (periods : Nat) : List SupportResistanceLevel :=
  (loopIndices data periods).flatMap (levelsAt data periods)

/-- The test `Math.abs(t.price - level.price) / level.price < threshold`. -/
def closeTo (rnd : ℚ → JSNum) (threshold : JSNum) (level t : SupportResistanceLevel) : Bool :=
  (((t.price.subR rnd level.price).abs).divR rnd level.price).lt threshold

/-- The function `calculateSupportResistance(data, periods, threshold)`. -/
def calculateSupportResistance (rnd : ℚ → JSNum) (data : List Candle) (periods : Nat)
    (threshold : JSNum) : List SupportResistanceLevel :=
  let levels := collectLevels data periods
  arrayFilter (fun level index =>
    decide (some index = findIndex (closeTo rnd threshold level) levels)) 0 levels

/-- The default value of the parameter `periods`. -/
def defaultPeriods : Nat := 14

/-- The default value of the parameter `threshold`: the double written
`0.01`. -/
def defaultThreshold (rnd : ℚ → JSNum) : JSNum := rnd (1 / 100)

/-! ## CSV normalisation (`parseCSV`) -/

/-- The white space and line terminators skipped by `parseFloat` and
`parseInt` at the start of their argument. -/
def isJSWhiteSpace (c : Char) : Bool :=
  c.toNat ∈ [9, 10, 11, 12, 13, 32, 160, 5760, 8232, 8233, 8239, 8287, 12288, 65279] ||
    (8192 ≤ c.toNat && c.toNat ≤ 8202)

/-- The number written by a list of decimal digits. -/
def digitsValue (ds : List Char) : Nat :=
  ds.foldl (fun acc d => 10 * acc + (d.toNat - 48)) 0

/-- The value of a hexadecimal digit. -/
def hexDigit (c : Char) : Option Nat :=
  if c.isDigit then some (c.toNat - 48)
  else if 97 ≤ c.toNat && c.toNat ≤ 102 then some (c.toNat - 87)
  else if 65 ≤ c.toNat && c.toNat ≤ 70 then some (c.toNat - 55)
  else none

/-- A sign read at the head of the input: whether it is a minus, and the
rest of the input. -/
def readSign : List Char → Bool × List Char
  | '-' :: cs => (true, cs)
  | '+' :: cs => (false, cs)
  | cs => (false, cs)

/-- The longest prefix of the input that is a `StrDecimalLiteral`, as read by
`parseFloat`. -/
inductive FloatLiteral where
  | infinity (negative : Bool) : FloatLiteral
  | decimal (negative : Bool) (digits : Nat) (fractionLength : Nat) (exponent : ℤ) :
      FloatLiteral
  deriving DecidableEq, Repr

/-- The exponent part `e±ddd` at the head of the input, zero when there is
none. -/
def readExponent : List Char → ℤ
  | [] => 0
  | e :: cs =>
      if e = 'e' || e = 'E' then
        let signed := readSign cs
        let ds := signed.2.takeWhile Char.isDigit
        if ds.isEmpty then 0
        else if signed.1 then -(digitsValue ds : ℤ) else (digitsValue ds : ℤ)
      else 0

/-- The scanner of `parseFloat`: leading white space, an optional sign, then
`Infinity` or decimal digits with an optional fraction and exponent. -/
def scanFloat (input : List Char) : Option FloatLiteral :=
  let signed := readSign (input.dropWhile isJSWhiteSpace)
  let cs := signed.2
  if "Infinity".toList.isPrefixOf cs then some (FloatLiteral.infinity signed.1)
  else
    let intPart := cs.takeWhile Char.isDigit
    let afterInt := cs.dropWhile Char.isDigit
    let fraction : List Char × List Char :=
      match afterInt with
      | '.' :: r => (r.takeWhile Char.isDigit, r.dropWhile Char.isDigit)
      | r => ([], r)
    if intPart.isEmpty && fraction.1.isEmpty then none
    else some (FloatLiteral.decimal signed.1 (digitsValue (intPart ++ fraction.1))
      fraction.1.length (readExponent fraction.2))

/-- The value of a scanned literal, as an exact rational. -/
def FloatLiteral.value : FloatLiteral → JSNum
  | FloatLiteral.infinity negative => if negative then JSNum.negInf else JSNum.posInf
  | FloatLiteral.decimal negative digits fractionLength exponent =>
      JSNum.fin ((if negative then -1 else 1) * (digits : ℚ) / 10 ^ fractionLength *
        10 ^ exponent)

/-- The function `parseFloat` applied to a cell of a row; a missing cell is
`undefined`, whose string form is not a number. -/
def parseFloat : Option String → JSNum
  | none => JSNum.nan
  | some str =>
      match scanFloat str.toList with
      | none => JSNum.nan
      | some lit => lit.value

/-- The scanner of `parseInt` without radix: leading white space, an optional
sign, an optional `0x` prefix, then the digits of the radix. The result is the
sign and the magnitude, or `none` when there is no digit. -/
def scanInt (input : List Char) : Option (Bool × Nat) :=
  let signed := readSign (input.dropWhile isJSWhiteSpace)
  match signed.2 with
  | '0' :: x :: r =>
      if x = 'x' || x = 'X' then
        let ds := r.takeWhile (fun c => (hexDigit c).isSome)
        if ds.isEmpty then none
        else some (signed.1, ds.foldl (fun acc d => 16 * acc + (hexDigit d).getD 0) 0)
      else
        some (signed.1, digitsValue (('0' :: x :: r).takeWhile Char.isDigit))
  | cs =>
      let ds := cs.takeWhile Char.isDigit
      if ds.isEmpty then none else some (signed.1, digitsValue ds)

/-- The function `parseInt` applied to a cell of a row. -/
def parseInt : Option String → JSNum
  | none => JSNum.nan
  | some str =>
      match scanInt str.toList with
      | none => JSNum.nan
      | some (negative, n) => JSNum.fin (if negative then -(n : ℚ) else (n : ℚ))

/-- The callback of `map` in `parseCSV`. -/
def rowToCandle (row : List String) : ParsedCandle :=
  { date := row[1]?,
    open_ := parseFloat row[3]?,
    high := parseFloat row[4]?,
    low := parseFloat row[5]?,
    close := parseFloat row[6]?,
    volume := parseInt row[7]? }

/-- The callback of `filter` in `parseCSV`. -/
def isValidCandle (d : ParsedCandle) : Bool :=
  !d.open_.isNaN && !d.high.isNaN && !d.low.isNaN && !d.close.isNaN && !d.volume.isNaN

/-- The `complete` callback of `parseCSV`, on the rows `results.data` of a
table that was parsed successfully. -/
def parseCSV (rows : List (List String)) : List ParsedCandle :=
  ((rows.drop 1).map rowToCandle).filter isValidCandle

/-! ## Indicators (`calculateIndicators`)

The indicator builders `sma`, `ema`, `bollingerBand`, `rsi`, `macd` and `atr`
come from the charting library `react-financial-charts`, not from this
repository. What their algorithms compute is a parameter of the model. Two
things the library does around the algorithm are part of the model, because
the behaviour of the worker rests on them: a calculator called in merge mode
refuses to run when no accessor was set on it (it throws
`Set an accessor to <TYPE> before calculating`), and otherwise it pairs the
data with the results of the algorithm, runs the merge callback on every
datum that has a result and returns the data so paired.

Candle records are JavaScript objects, so they live in a store and arrays
hold references to them; this is what makes the assignments `d.sma20 = c` of
the merge callbacks visible. A call that throws leaves the store as the
earlier blocks made it and returns no array. -/

/-- A value computed by an indicator: a number, or a record of named
numbers (Bollinger bands, MACD). -/
inductive IndicatorValue where
  | number : ℚ → IndicatorValue
  | record : List (String × ℚ) → IndicatorValue
  deriving DecidableEq, Repr

/-- A candle record as the indicator engine sees it: the candle fields and
the derived fields that are present on the object. -/
structure EnrichedCandle where
  candle : Candle
  sma20 : Option IndicatorValue
  ema50 : Option IndicatorValue
  bb : Option IndicatorValue
  rsi : Option IndicatorValue
  macd : Option IndicatorValue
  atr : Option IndicatorValue
  deriving DecidableEq, Repr

/-- The store of candle records: a reference is a natural number. -/
abbrev Heap := Nat → EnrichedCandle

/-- An algorithm of the library, run on the records of the data array: its
results in order, `none` standing for `undefined`. -/
abbrev Algorithm := List EnrichedCandle → List (Option IndicatorValue)

/-- The indicator builders imported from `react-financial-charts`, each
applied to the options and, where the worker sets one, to the accessor. -/
structure IndicatorLibrary where
  sma : Nat → (EnrichedCandle → JSNum) → Algorithm
  ema : Nat → (EnrichedCandle → JSNum) → Algorithm
  bollingerBand : Nat → Nat → (EnrichedCandle → JSNum) → Algorithm
  rsi : Nat → (EnrichedCandle → JSNum) → Algorithm
  macd : Nat → Nat → Nat → (EnrichedCandle → JSNum) → Algorithm
  atr : Nat → Algorithm

/-- The keys of the configuration that `calculateIndicators` reads. -/
inductive IndicatorKey where
  | sma : IndicatorKey
  | ema : IndicatorKey
  | bb : IndicatorKey
  | rsi : IndicatorKey
  | macd : IndicatorKey
  | atr : IndicatorKey
  deriving DecidableEq, Repr

/-- The property name of a key. -/
def IndicatorKey.name : IndicatorKey → String
  | IndicatorKey.sma => "sma"
  | IndicatorKey.ema => "ema"
  | IndicatorKey.bb => "bb"
  | IndicatorKey.rsi => "rsi"
  | IndicatorKey.macd => "macd"
  | IndicatorKey.atr => "atr"

/-- The object `indicators`: property names, each listed at most once, with
their boolean flags; a name that is not listed is an absent property. -/
abbrev IndicatorConfig := List (String × Bool)

/-- The test `if (indicators.key)`: an absent property is `undefined`, which
is falsy. -/
def isEnabled (indicators : IndicatorConfig) (key : IndicatorKey) : Bool :=
  indicators.lookup key.name == some true

/-- A calculator as the chain of builder calls leaves it: the type name of
the indicator, the accessor set by `.accessor(...)` if that call is in the
chain, the callback set by `.merge(...)`, and the algorithm with its
options. -/
structure Calculator where
  typeName : String
  accessor : Option (EnrichedCandle → JSNum)
  callback : EnrichedCandle → IndicatorValue → EnrichedCandle
  algorithm : Algorithm

/-- The merge of a calculator: the algorithm is run on the data, its results
are paired with the data in order, the callback is run on every datum whose
result is not `undefined`, and the data so paired are the elements of the
array returned. The callbacks of the worker assign a field of the datum and
return nothing. -/
def runMerged (callback : EnrichedCandle → IndicatorValue → EnrichedCandle)
    (algorithm : Algorithm) (heap : Heap) (data : List Nat) : Heap × List Nat :=
  let results := algorithm (data.map heap)
  let zipped := data.zip results
  (zipped.foldl (fun h p =>
      match p.2 with
      | none => h
      | some c => Function.update h p.1 (callback (h p.1) c)) heap,
    zipped.map Prod.fst)

/-- The call `calculator(data)`: without an accessor the calculator throws,
with one it merges. -/
def callCalculator (calculator : Calculator) (heap : Heap) (data : List Nat) :
    Heap × Except String (List Nat) :=
  match calculator.accessor with
  | none =>
      (heap, Except.error ("Set an accessor to " ++ calculator.typeName ++
        " before calculating"))
  | some _ =>
      ((runMerged calculator.callback calculator.algorithm heap data).1,
        Except.ok (runMerged calculator.callback calculator.algorithm heap data).2)

/-- One block `if (indicators.key) { calculatedData = calculator(calculatedData); }`;
after an exception nothing more is run. -/
def indicatorStep (enabled : Bool) (calculator : Calculator)
    (state : Heap × Except String (List Nat)) : Heap × Except String (List Nat) :=
  if enabled then
    match state.2 with
    | Except.ok data => callCalculator calculator state.1 data
    | Except.error _ => state
  else state

/-- The function `calculateIndicators(data, indicators)`: the store before
the call and the array of references `data` give the store after the call and
the array returned, or the message of the exception thrown. The copy
`[...data]` is a new array of the same references. The block of `atr` is the
only one whose chain has no `.accessor(...)`. -/
def calculateIndicators (lib : IndicatorLibrary) (heap : Heap) (data : List Nat)
    (indicators : IndicatorConfig) : Heap × Except String (List Nat) :=
  let calculatedData : Heap × Except String (List Nat) := (heap, Except.ok data)
  let calculatedData := indicatorStep (isEnabled indicators IndicatorKey.sma)
    { typeName := "SMA", accessor := some (fun d => d.candle.close),
      callback := fun d c => { d with sma20 := some c },
      algorithm := lib.sma 20 (fun d => d.candle.close) } calculatedData
  let calculatedData := indicatorStep (isEnabled indicators IndicatorKey.ema)
    { typeName := "EMA", accessor := some (fun d => d.candle.close),
      callback := fun d c => { d with ema50 := some c },
      algorithm := lib.ema 50 (fun d => d.candle.close) } calculatedData
  let calculatedData := indicatorStep (isEnabled indicators IndicatorKey.bb)
    { typeName := "BollingerBand", accessor := some (fun d => d.candle.close),
      callback := fun d c => { d with bb := some c },
      algorithm := lib.bollingerBand 20 2 (fun d => d.candle.close) } calculatedData
  let calculatedData := indicatorStep (isEnabled indicators IndicatorKey.rsi)
    { typeName := "RSI", accessor := some (fun d => d.candle.close),
      callback := fun d c => { d with rsi := some c },
      algorithm := lib.rsi 14 (fun d => d.candle.close) } calculatedData
  let calculatedData := indicatorStep (isEnabled indicators IndicatorKey.macd)
    { typeName := "MACD", accessor := some (fun d => d.candle.close),
      callback := fun d c => { d with macd := some c },
      algorithm := lib.macd 12 26 9 (fun d => d.candle.close) } calculatedData
  let calculatedData := indicatorStep (isEnabled indicators IndicatorKey.atr)
    { typeName := "ATR", accessor := none,
      callback := fun d c => { d with atr := some c },
      algorithm := lib.atr 14 } calculatedData
  calculatedData

/-! ## Vocabulary of the statements -/

/-- The rounding never takes a smaller rational to a greater double. -/
def RoundsMonotonically (rnd : ℚ → JSNum) : Prop :=
  ∀ a b : ℚ, a ≤ b → (rnd a).le (rnd b) = true

/-- The value of `minPrice` in `calculateVolumeProfile`. -/
def profileMin (data : List Candle) : JSNum := mathMin (data.map (fun d => d.low))

/-- The value of `maxPrice` in `calculateVolumeProfile`. -/
def profileMax (data : List Candle) : JSNum := mathMax (data.map (fun d => d.high))

/-- The value of `levelSize` in `calculateVolumeProfile`. -/
def profileLevelSize (rnd : ℚ → JSNum) (data : List Candle) (levels : Nat) : JSNum :=
  ((profileMax data).subR rnd (profileMin data)).divR rnd (JSNum.fin levels)

/-- The sum of numbers as the code takes it: `+=` from zero, in order. -/
def jsSum (rnd : ℚ → JSNum) (vs : List JSNum) : JSNum :=
  vs.foldl (fun acc v => acc.addR rnd v) (JSNum.fin 0)

/-- The range test `levelIndex >= 0 && levelIndex < levels`. -/
def inRange (levels : Nat) (idx : JSNum) : Bool :=
  idx.ge (JSNum.fin 0) && idx.lt (JSNum.fin levels)

/-- The bin that receives the volume of a candle, if any. -/
def binOf (rnd : ℚ → JSNum) (minPrice levelSize : JSNum) (levels : Nat) (candle : Candle) :
    Option Nat :=
  let idx := levelIndex rnd minPrice levelSize candle
  if idx.ge (JSNum.fin 0) && idx.lt (JSNum.fin levels) then
    match idx with
    | JSNum.fin q => some (Int.toNat ⌊q⌋)
    | _ => none
  else none

/-- The exact sum of the volumes of a profile. -/
def totalVolume (vp : List VolumeProfileLevel) : ℚ := (vp.map (fun l => l.volume.toRat)).sum

/-- The exact sum of the volumes of candles. -/
def candleVolume (data : List Candle) : ℚ := (data.map (fun c => c.volume.toRat)).sum

/-- The sum of the magnitudes of the volumes of a profile. -/
def volumeMagnitude (vp : List VolumeProfileLevel) : ℚ :=
  (vp.map (fun l => |l.volume.toRat|)).sum

/-- The sum of the magnitudes of the volumes of candles. -/
def candleVolumeMagnitude (data : List Candle) : ℚ :=
  (data.map (fun c => |c.volume.toRat|)).sum

/-- The rounding leaves the integers of magnitude up to `2 ^ 53` as they
are: they are doubles. -/
def RoundsIntegersExactly (rnd : ℚ → JSNum) : Prop :=
  ∀ z : ℤ, |z| ≤ 2 ^ 53 → rnd (z : ℚ) = JSNum.fin z

/-- The candle at index `i` is a support: its close is strictly below every
close of the `periods` candles before it and of the `periods` candles after
it. -/
def IsSupportAt (data : List Candle) (periods i : Nat) (c : Candle) : Prop :=
  (∀ j d, i - periods ≤ j → j < i → data[j]? = some d → c.close.lt d.close = true) ∧
  (∀ j d, i < j → j ≤ i + periods → data[j]? = some d → c.close.lt d.close = true)

/-- The candle at index `i` is a resistance: its close is strictly above
every close of the `periods` candles before it and of the `periods` candles
after it. -/
def IsResistanceAt (data : List Candle) (periods i : Nat) (c : Candle) : Prop :=
  (∀ j d, i - periods ≤ j → j < i → data[j]? = some d → d.close.lt c.close = true) ∧
  (∀ j d, i < j → j ≤ i + periods → data[j]? = some d → d.close.lt c.close = true)

/-- The first level of every cluster: the levels for which no earlier level
of the list passes the proximity test. -/
def keepFirstOfCluster (rnd : ℚ → JSNum) (threshold : JSNum)
    (levels : List SupportResistanceLevel) : List SupportResistanceLevel :=
  arrayFilter (fun level index =>
    (levels.take index).all (fun t => !closeTo rnd threshold level t)) 0 levels

/-- All five numeric cells of the row parse to a finite number. -/
def rowFinite (row : List String) : Bool :=
  (parseFloat row[3]?).isFinite && (parseFloat row[4]?).isFinite &&
    (parseFloat row[5]?).isFinite && (parseFloat row[6]?).isFinite &&
    (parseInt row[7]?).isFinite

/-- None of the five numeric cells of the row parses to `NaN`. -/
def rowNumeric (row : List String) : Bool :=
  !(parseFloat row[3]?).isNaN && !(parseFloat row[4]?).isNaN &&
    !(parseFloat row[5]?).isNaN && !(parseFloat row[6]?).isNaN &&
    !(parseInt row[7]?).isNaN

/-- The derived field that belongs to a key. -/
def IndicatorKey.field : IndicatorKey → EnrichedCandle → Option IndicatorValue
  | IndicatorKey.sma => fun d => d.sma20
  | IndicatorKey.ema => fun d => d.ema50
  | IndicatorKey.bb => fun d => d.bb
  | IndicatorKey.rsi => fun d => d.rsi
  | IndicatorKey.macd => fun d => d.macd
  | IndicatorKey.atr => fun d => d.atr

/-! ## Sample inputs -/

/-- A candle with the given close, the other fields being irrelevant to the
detector. -/
def candleWithClose (q : JSNum) : Candle :=
  { date := "d", open_ := q, high := q, low := q, close := q, volume := JSNum.fin 1 }

/-- Three candles over the price range `[0, 10]`. -/
def sampleCandles : List Candle :=
  [{ date := "a", open_ := JSNum.fin 1, high := JSNum.fin 10, low := JSNum.fin 0,
     close := JSNum.fin 5, volume := JSNum.fin 7 },
   { date := "b", open_ := JSNum.fin 1, high := JSNum.fin 10, low := JSNum.fin 0,
     close := JSNum.fin 10, volume := JSNum.fin 3 },
   { date := "c", open_ := JSNum.fin 1, high := JSNum.fin 8, low := JSNum.fin 2,
     close := JSNum.fin 0, volume := JSNum.fin 4 }]

/-- One candle whose low is `2 ^ 53` and whose high is `2 ^ 53 + 4`. -/
def largePriceCandles : List Candle :=
  [{ date := "a", open_ := JSNum.fin 9007199254740992, high := JSNum.fin 9007199254740996,
     low := JSNum.fin 9007199254740992, close := JSNum.fin 9007199254740992,
     volume := JSNum.fin 1 }]

/-- One candle whose high is `Infinity`. -/
def infiniteHighCandles : List Candle :=
  [{ date := "a", open_ := JSNum.fin 1, high := JSNum.posInf, low := JSNum.fin 0,
     close := JSNum.fin 1, volume := JSNum.fin 1 }]

/-- One candle that closes above its own high. -/
def closeAboveHigh : List Candle :=
  [{ date := "d", open_ := JSNum.fin 1, high := JSNum.fin 10, low := JSNum.fin 0,
     close := JSNum.fin 20, volume := JSNum.fin 5 }]

/-- One candle that closes on its high, 23. -/
def closeOnHigh : List Candle :=
  [{ date := "d", open_ := JSNum.fin 1, high := JSNum.fin 23, low := JSNum.fin 0,
     close := JSNum.fin 23, volume := JSNum.fin 5 }]

/-- Three candles that close on the lowest low, with volumes `2 ^ 53`, 1
and 1. -/
def largeVolumeCandles : List Candle :=
  [{ date := "a", open_ := JSNum.fin 1, high := JSNum.fin 10, low := JSNum.fin 0,
     close := JSNum.fin 0, volume := JSNum.fin 9007199254740992 },
   { date := "b", open_ := JSNum.fin 1, high := JSNum.fin 10, low := JSNum.fin 0,
     close := JSNum.fin 0, volume := JSNum.fin 1 },
   { date := "c", open_ := JSNum.fin 1, high := JSNum.fin 10, low := JSNum.fin 0,
     close := JSNum.fin 0, volume := JSNum.fin 1 }]

/-- Two candles that all have high = low = 5. -/
def flatCandles : List Candle :=
  [{ date := "a", open_ := JSNum.fin 5, high := JSNum.fin 5, low := JSNum.fin 5,
     close := JSNum.fin 5, volume := JSNum.fin 7 },
   { date := "b", open_ := JSNum.fin 5, high := JSNum.fin 5, low := JSNum.fin 5,
     close := JSNum.fin 5, volume := JSNum.fin 2 }]

/-- Seven items for the stride examples. -/
def sevenItems : List Nat := [10, 20, 30, 40, 50, 60, 70]

/-- The candles with the given finite closes. -/
def candlesWithCloses (closes : List ℚ) : List Candle :=
  closes.map (fun q => candleWithClose (JSNum.fin q))

/-- Five candles with closes 1, 2, 3, 2, 1. -/
def smallPeak : List Candle := candlesWithCloses [1, 2, 3, 2, 1]

/-- Three candles with closes 1, 2, 1: a single peak at index 1. -/
def shortPeak : List Candle := candlesWithCloses [1, 2, 1]

/-- Twenty-nine candles whose closes rise from `base + 1` to `base + 14`,
reach `top` at index 14 and fall back from `base + 14` to `base + 1`. -/
def peakCandles (base : ℚ) (top : JSNum) : List Candle :=
  (List.range 29).map (fun (i : Nat) =>
    candleWithClose (if i < 14 then JSNum.fin (base + (i : ℚ) + 1)
      else if i = 14 then top else JSNum.fin (base + 29 - (i : ℚ))))

/-- Closes rising from 1 to 15 and falling back to 1. -/
def longPeak : List Candle := peakCandles 0 (JSNum.fin 15)

/-- Closes rising from 1 to 14, then `Infinity`, then falling from 14 to 1. -/
def infinitePeak : List Candle := peakCandles 0 JSNum.posInf

/-- Closes rising from -14 to -1, then 0, then falling from -1 to -14. -/
def zeroPeak : List Candle := peakCandles (-15) (JSNum.fin 0)

/-- Three candles with closes 1, `Infinity`, 1. -/
def infiniteClose : List Candle :=
  [candleWithClose (JSNum.fin 1), candleWithClose JSNum.posInf, candleWithClose (JSNum.fin 1)]

/-- Five candles with closes 1, 129, 1, 128, 1: two resistances whose
relative distance `1 / 128` is below one percent. -/
def nearbyPeaks : List Candle := candlesWithCloses [1, 129, 1, 128, 1]

/-- Five candles with closes 1, 101, 1, 100, 1: two resistances whose
relative distance in doubles is the threshold `0.01` itself. -/
def borderlinePeaks : List Candle := candlesWithCloses [1, 101, 1, 100, 1]

/-- A header and five data rows; the close of the second and of the fourth
data row is not a number. -/
def exampleTable : List (List String) :=
  [["id", "date", "symbol", "open", "high", "low", "close", "volume"],
   ["1", "2024-01-01", "EURUSD", "1.10", "1.12", "1.09", "1.11", "100"],
   ["2", "2024-01-02", "EURUSD", "1.11", "1.13", "1.10", "n/a", "110"],
   ["3", "2024-01-03", "EURUSD", "1.12", "1.14", "1.11", "1.13", "120"],
   ["4", "2024-01-04", "EURUSD", "1.13", "1.15", "1.12", "", "130"],
   ["5", "2024-01-05", "EURUSD", "1.14", "1.16", "1.13", "1.15", "140"]]

/-- A header and one data row whose high is the text `Infinity`. -/
def infiniteHighTable : List (List String) :=
  [["id", "date", "symbol", "open", "high", "low", "close", "volume"],
   ["1", "2024-01-01", "EURUSD", "1.10", "Infinity", "1.09", "1.11", "100"]]

/-- The simple moving average of the close over the trailing `windowSize`
data, `undefined` before the first full window. -/
def trailingMean (windowSize : Nat) : Algorithm := fun data =>
  (List.range data.length).map (fun (i : Nat) =>
    if windowSize ≤ i + 1 then
      some (IndicatorValue.number
        ((((data.drop (i + 1 - windowSize)).take windowSize).map
          (fun d => d.candle.close.toRat)).sum / (windowSize : ℚ)))
    else none)

/-- An algorithm without a result for any datum. -/
def noResult : Algorithm := fun data => data.map (fun _ => none)

/-- A library whose `sma` is the trailing mean of the close and whose other
algorithms have no result. -/
def sampleLibrary : IndicatorLibrary :=
  { sma := fun n _ => trailingMean n,
    ema := fun _ _ => noResult,
    bollingerBand := fun _ _ _ => noResult,
    rsi := fun _ _ => noResult,
    macd := fun _ _ _ _ => noResult,
    atr := fun _ => noResult }

/-- A store in which record `r` is a plain candle with close `r + 1`. -/
def risingHeap : Heap := fun r =>
  { candle := candleWithClose (JSNum.fin ((r : ℚ) + 1)), sma20 := none, ema50 := none,
    bb := none, rsi := none, macd := none, atr := none }

/-- The array of the first twenty records of the store. -/
def twentyCandles : List Nat := List.range 20

/-- The configuration that enables the simple moving average only. -/
def smaOnly : IndicatorConfig := [("sma", true), ("ema", false)]

/-- The configuration `smaOnly` with an unknown key added. -/
def smaAndUnknown : IndicatorConfig := [("vwap", true), ("sma", true)]

/-- The configuration that enables the average true range only. -/
def atrOnly : IndicatorConfig := [("atr", true)]

/-! ## The order of the numbers -/

theorem jsLt_nan (a : JSNum) : a.lt JSNum.nan = false := by
  cases a <;> rfl

theorem jsLt_negInf (a : JSNum) : a.lt JSNum.negInf = false := by
  cases a <;> rfl

theorem posInf_jsLt (a : JSNum) : JSNum.posInf.lt a = false := by
  cases a <;> rfl

theorem nan_jsLt (a : JSNum) : JSNum.nan.lt a = false := by
  cases a <;> rfl

theorem jsLt_irrefl (a : JSNum) : a.lt a = false := by
  cases a <;> simp [JSNum.lt]

theorem jsLt_asymm (a b : JSNum) (h : a.lt b = true) : b.lt a = false := by
  cases a <;> cases b <;> simp_all [JSNum.lt]
  exact le_of_lt h

theorem jsLt_trans (a b c : JSNum) (h1 : a.lt b = true) (h2 : b.lt c = true) :
    a.lt c = true := by
  cases a <;> cases b <;> cases c <;> simp_all [JSNum.lt]
  exact lt_trans h1 h2

theorem jsLe_of_lt (a b : JSNum) (h : a.lt b = true) : a.le b = true := by
  simp [JSNum.le, h]

theorem isNaN_eq_false_iff (a : JSNum) : a.isNaN = false ↔ a ≠ JSNum.nan := by
  cases a <;> simp [JSNum.isNaN]

theorem jsLe_refl (a : JSNum) (h : a ≠ JSNum.nan) : a.le a = true := by
  cases a <;> simp_all [JSNum.le, JSNum.isNaN]

theorem jsLe_iff (a b : JSNum) :
    a.le b = true ↔ a.lt b = true ∨ (a ≠ JSNum.nan ∧ a = b) := by
  unfold JSNum.le
  rw [Bool.or_eq_true, Bool.and_eq_true, Bool.not_eq_true', isNaN_eq_false_iff,
    decide_eq_true_eq]

theorem jsLt_false_of_le (a b : JSNum) (h : a.le b = true) : b.lt a = false := by
  rcases (jsLe_iff a b).1 h with h | ⟨_, rfl⟩
  · exact jsLt_asymm a b h
  · exact jsLt_irrefl a

theorem jsLe_of_lt_false (a b : JSNum) (ha : a ≠ JSNum.nan) (hb : b ≠ JSNum.nan)
    (h : b.lt a = false) : a.le b = true := by
  rw [jsLe_iff]
  cases a <;> cases b <;> simp_all [JSNum.lt]
  exact lt_or_eq_of_le h

theorem jsLt_of_lt_of_le (a b c : JSNum) (h1 : a.lt b = true) (h2 : b.le c = true) :
    a.lt c = true := by
  rcases (jsLe_iff b c).1 h2 with h | ⟨_, rfl⟩
  · exact jsLt_trans a b c h1 h
  · exact h1

theorem jsLt_of_le_of_lt (a b c : JSNum) (h1 : a.le b = true) (h2 : b.lt c = true) :
    a.lt c = true := by
  rcases (jsLe_iff a b).1 h1 with h | ⟨_, rfl⟩
  · exact jsLt_trans a b c h h2
  · exact h2

theorem jsLe_trans (a b c : JSNum) (h1 : a.le b = true) (h2 : b.le c = true) :
    a.le c = true := by
  rcases (jsLe_iff a b).1 h1 with h | ⟨_, rfl⟩
  · exact jsLe_of_lt a c (jsLt_of_lt_of_le a b c h h2)
  · exact h2

theorem ne_nan_of_jsLt_left (a b : JSNum) (h : a.lt b = true) : a ≠ JSNum.nan := by
  intro ha
  subst ha
  simp [JSNum.lt] at h

theorem ne_nan_of_jsLt_right (a b : JSNum) (h : a.lt b = true) : b ≠ JSNum.nan := by
  intro hb
  subst hb
  rw [jsLt_nan] at h
  exact absurd h (by simp)

theorem min2_of_not_nan (a b : JSNum) (ha : a ≠ JSNum.nan) (hb : b ≠ JSNum.nan) :
    JSNum.min2 a b = if b.lt a then b else a := by
  unfold JSNum.min2
  rw [(isNaN_eq_false_iff a).2 ha, (isNaN_eq_false_iff b).2 hb]
  rfl

theorem max2_of_not_nan (a b : JSNum) (ha : a ≠ JSNum.nan) (hb : b ≠ JSNum.nan) :
    JSNum.max2 a b = if a.lt b then b else a := by
  unfold JSNum.max2
  rw [(isNaN_eq_false_iff a).2 ha, (isNaN_eq_false_iff b).2 hb]
  rfl

theorem min2_ne_nan (a b : JSNum) (h : JSNum.min2 a b ≠ JSNum.nan) :
    a ≠ JSNum.nan ∧ b ≠ JSNum.nan := by
  cases a <;> cases b <;> simp_all [JSNum.min2, JSNum.isNaN]

theorem max2_ne_nan (a b : JSNum) (h : JSNum.max2 a b ≠ JSNum.nan) :
    a ≠ JSNum.nan ∧ b ≠ JSNum.nan := by
  cases a <;> cases b <;> simp_all [JSNum.max2, JSNum.isNaN]

theorem min2_eq (a b : JSNum) (h : JSNum.min2 a b ≠ JSNum.nan) :
    JSNum.min2 a b = a ∨ JSNum.min2 a b = b := by
  obtain ⟨ha, hb⟩ := min2_ne_nan a b h
  rw [min2_of_not_nan a b ha hb]
  by_cases hl : b.lt a = true
  · right; simp [hl]
  · left; simp [hl]

theorem max2_eq (a b : JSNum) (h : JSNum.max2 a b ≠ JSNum.nan) :
    JSNum.max2 a b = a ∨ JSNum.max2 a b = b := by
  obtain ⟨ha, hb⟩ := max2_ne_nan a b h
  rw [max2_of_not_nan a b ha hb]
  by_cases hl : a.lt b = true
  · right; simp [hl]
  · left; simp [hl]

theorem min2_le (a b : JSNum) (h : JSNum.min2 a b ≠ JSNum.nan) :
    (JSNum.min2 a b).le a = true ∧ (JSNum.min2 a b).le b = true := by
  obtain ⟨ha, hb⟩ := min2_ne_nan a b h
  rw [min2_of_not_nan a b ha hb]
  by_cases hl : b.lt a = true
  · simp only [hl, if_true]
    exact ⟨jsLe_of_lt b a hl, jsLe_refl b hb⟩
  · simp only [hl]
    exact ⟨jsLe_refl a ha, jsLe_of_lt_false a b ha hb (by simpa using hl)⟩

theorem le_max2 (a b : JSNum) (h : JSNum.max2 a b ≠ JSNum.nan) :
    a.le (JSNum.max2 a b) = true ∧ b.le (JSNum.max2 a b) = true := by
  obtain ⟨ha, hb⟩ := max2_ne_nan a b h
  rw [max2_of_not_nan a b ha hb]
  by_cases hl : a.lt b = true
  · simp only [hl, if_true]
    exact ⟨jsLe_of_lt a b hl, jsLe_refl b hb⟩
  · simp only [hl]
    exact ⟨jsLe_refl a ha, jsLe_of_lt_false b a hb ha (by simpa using hl)⟩

/-- A number is below `Math.min` of two exactly when it is below both. -/
theorem jsLt_min2_iff (a b c : JSNum) :
    c.lt (JSNum.min2 a b) = true ↔ c.lt a = true ∧ c.lt b = true := by
  by_cases ha : a = JSNum.nan
  · subst ha
    simp [JSNum.min2, JSNum.isNaN, jsLt_nan]
  by_cases hb : b = JSNum.nan
  · subst hb
    simp [JSNum.min2, JSNum.isNaN, jsLt_nan]
  rw [min2_of_not_nan a b ha hb]
  by_cases hl : b.lt a = true
  · simp only [hl, if_true]
    exact ⟨fun h => ⟨jsLt_trans c b a h hl, h⟩, fun h => h.2⟩
  · simp only [hl]
    have hle : a.le b = true := jsLe_of_lt_false a b ha hb (by simpa using hl)
    exact ⟨fun h => ⟨h, jsLt_of_lt_of_le c a b h hle⟩, fun h => h.1⟩

/-- `Math.max` of two is below a number exactly when both are. -/
theorem jsMax2_lt_iff (a b c : JSNum) :
    (JSNum.max2 a b).lt c = true ↔ a.lt c = true ∧ b.lt c = true := by
  by_cases ha : a = JSNum.nan
  · subst ha
    simp [JSNum.max2, JSNum.isNaN, JSNum.lt]
  by_cases hb : b = JSNum.nan
  · subst hb
    have : JSNum.max2 a JSNum.nan = JSNum.nan := by
      cases a <;> simp [JSNum.max2, JSNum.isNaN]
    rw [this]
    simp [JSNum.lt]
  rw [max2_of_not_nan a b ha hb]
  by_cases hl : a.lt b = true
  · simp only [hl, if_true]
    exact ⟨fun h => ⟨jsLt_trans a b c hl h, h⟩, fun h => h.2⟩
  · simp only [hl]
    have hle : b.le a = true := jsLe_of_lt_false b a hb ha (by simpa using hl)
    exact ⟨fun h => ⟨h, jsLt_of_le_of_lt b a c hle h⟩, fun h => h.1⟩

/-- The test `Math.min(...xs) > c`: every element is above `c`, and `c` is
below `+Infinity`. -/
theorem mathMin_gt_iff (xs : List JSNum) (c : JSNum) :
    (mathMin xs).gt c = true ↔ (∀ x ∈ xs, c.lt x = true) ∧ c.lt JSNum.posInf = true := by
  induction xs with
  | nil => simp [mathMin, JSNum.gt]
  | cons y ys ih =>
      simp only [JSNum.gt] at ih
      simp only [mathMin, JSNum.gt, jsLt_min2_iff, ih, List.mem_cons, forall_eq_or_imp]
      tauto

/-- The test `Math.max(...xs) < c`: every element is below `c`, and `c` is
above `-Infinity`. -/
theorem mathMax_lt_iff (xs : List JSNum) (c : JSNum) :
    (mathMax xs).lt c = true ↔ (∀ x ∈ xs, x.lt c = true) ∧ JSNum.negInf.lt c = true := by
  induction xs with
  | nil => simp [mathMax]
  | cons y ys ih =>
      simp only [mathMax, jsMax2_lt_iff, ih, List.mem_cons, forall_eq_or_imp]
      tauto

/-- When it is not `NaN`, `Math.min` of a non-empty list is one of its
elements. -/
theorem mathMin_mem (xs : List JSNum) (hne : xs ≠ []) (h : mathMin xs ≠ JSNum.nan) :
    mathMin xs ∈ xs := by
  induction xs with
  | nil => exact absurd rfl hne
  | cons y ys ih =>
      simp only [mathMin] at h ⊢
      rcases min2_eq _ _ h with e | e
      · rw [e]; exact List.mem_cons_self _ _
      · by_cases hys : ys = []
        · subst hys
          have hy := (min2_ne_nan _ _ h).1
          have : JSNum.min2 y (mathMin []) = y := by
            cases y <;> simp_all [JSNum.min2, JSNum.isNaN, JSNum.lt, mathMin]
          rw [this]
          exact List.mem_cons_self _ _
        · rw [e]
          exact List.mem_cons_of_mem _ (ih hys (min2_ne_nan _ _ h).2)

/-- When it is not `NaN`, `Math.min` is at most every element. -/
theorem mathMin_le (xs : List JSNum) (h : mathMin xs ≠ JSNum.nan) :
    ∀ x ∈ xs, (mathMin xs).le x = true := by
  induction xs with
  | nil => simp
  | cons y ys ih =>
      simp only [mathMin] at h ⊢
      intro x hx
      rcases List.mem_cons.1 hx with rfl | hx
      · exact (min2_le _ _ h).1
      · exact jsLe_trans _ _ _ (min2_le _ _ h).2 (ih (min2_ne_nan _ _ h).2 x hx)

/-- When it is not `NaN`, `Math.max` of a non-empty list is one of its
elements. -/
theorem mathMax_mem (xs : List JSNum) (hne : xs ≠ []) (h : mathMax xs ≠ JSNum.nan) :
    mathMax xs ∈ xs := by
  induction xs with
  | nil => exact absurd rfl hne
  | cons y ys ih =>
      simp only [mathMax] at h ⊢
      rcases max2_eq _ _ h with e | e
      · rw [e]; exact List.mem_cons_self _ _
      · by_cases hys : ys = []
        · subst hys
          have hy := (max2_ne_nan _ _ h).1
          have : JSNum.max2 y (mathMax []) = y := by
            cases y <;> simp_all [JSNum.max2, JSNum.isNaN, JSNum.lt, mathMax]
          rw [this]
          exact List.mem_cons_self _ _
        · rw [e]
          exact List.mem_cons_of_mem _ (ih hys (max2_ne_nan _ _ h).2)

/-- When it is not `NaN`, `Math.max` is at least every element. -/
theorem le_mathMax (xs : List JSNum) (h : mathMax xs ≠ JSNum.nan) :
    ∀ x ∈ xs, x.le (mathMax xs) = true := by
  induction xs with
  | nil => simp
  | cons y ys ih =>
      simp only [mathMax] at h ⊢
      intro x hx
      rcases List.mem_cons.1 hx with rfl | hx
      · exact (le_max2 _ _ h).1
      · exact jsLe_trans _ _ _ (ih (max2_ne_nan _ _ h).2 x hx) (le_max2 _ _ h).2

/-! ## Rounding -/

theorem roundHalfEven_intCast (k : ℤ) : roundHalfEven (k : ℚ) = k := by
  unfold roundHalfEven
  simp

/-- A natural number up to `2 ^ 53` is its own rounding. -/
theorem roundMagnitude_natCast (n : ℕ) (h : n ≤ 2 ^ 53) : roundMagnitude (n : ℚ) = n := by
  unfold roundMagnitude
  rcases Nat.eq_zero_or_pos n with h0 | hpos
  · subst h0
    simp [roundHalfEven]
  · have hlog : Int.log 2 (n : ℚ) = (Nat.log 2 n : ℤ) := Int.log_natCast 2 n
    have hL1 : 2 ^ Nat.log 2 n ≤ n := Nat.pow_log_le_self 2 hpos.ne'
    have hL53 : Nat.log 2 n ≤ 53 := by
      by_contra hc
      have h54 : 54 ≤ Nat.log 2 n := by omega
      have : 2 ^ 54 ≤ 2 ^ Nat.log 2 n := Nat.pow_le_pow_right (by norm_num) h54
      have : (2 : ℕ) ^ 54 ≤ 2 ^ 53 := le_trans this (le_trans hL1 h)
      norm_num at this
    have he : ulpExponent (n : ℚ) = (Nat.log 2 n : ℤ) - 52 := by
      unfold ulpExponent
      rw [hlog, max_eq_left (by omega)]
    rw [he]
    have h2 : (2 : ℚ) ≠ 0 := by norm_num
    obtain ⟨k, hk⟩ : ∃ k : ℤ, (n : ℚ) / 2 ^ ((Nat.log 2 n : ℤ) - 52) = (k : ℚ) := by
      rcases Nat.lt_or_ge (Nat.log 2 n) 53 with hlt | hge
      · refine ⟨(n : ℤ) * 2 ^ (52 - Nat.log 2 n), ?_⟩
        have hexp : ((Nat.log 2 n : ℤ) - 52) = -((52 - Nat.log 2 n : ℕ) : ℤ) := by omega
        rw [hexp, zpow_neg, zpow_natCast, div_inv_eq_mul]
        push_cast
        ring
      · have hL : Nat.log 2 n = 53 := by omega
        have hn : n = 2 ^ 53 := by
          rw [hL] at hL1
          omega
        refine ⟨2 ^ 52, ?_⟩
        rw [hL, hn]
        norm_num
    rw [hk, roundHalfEven_intCast, ← hk]
    rw [div_mul_cancel₀]
    exact zpow_ne_zero _ h2

/-- The rounding of zero is zero. -/
theorem roundDouble_zero : roundDouble 0 = JSNum.fin 0 := by
  have h := roundMagnitude_natCast 0 (by norm_num)
  simp only [Nat.cast_zero] at h
  unfold roundDouble
  simp [h]

/-- An integer of magnitude up to `2 ^ 53` is a double: it is its own
rounding. -/
theorem roundDouble_intCast (z : ℤ) (h : |z| ≤ 2 ^ 53) : roundDouble (z : ℚ) = JSNum.fin z := by
  have habs : |(z : ℚ)| = ((z.natAbs : ℕ) : ℚ) := by
    rw [← Int.cast_abs, Int.abs_eq_natAbs, Int.cast_natCast]
  have hn : z.natAbs ≤ 2 ^ 53 := by
    have : ((z.natAbs : ℕ) : ℤ) ≤ 2 ^ 53 := by
      rw [← Int.abs_eq_natAbs]; exact h
    exact_mod_cast this
  have hm := roundMagnitude_natCast z.natAbs hn
  unfold roundDouble
  rw [habs, hm]
  have hlt : ¬ ((2 : ℚ) ^ 1024 ≤ ((z.natAbs : ℕ) : ℚ)) := by
    rw [not_le]
    have h1 : ((z.natAbs : ℕ) : ℚ) ≤ 2 ^ 53 := by exact_mod_cast hn
    have h2 : (2 : ℚ) ^ 53 < 2 ^ 1024 := by norm_num
    exact lt_of_le_of_lt h1 h2
  rw [if_neg hlt]
  congr 1
  by_cases hz : (0 : ℚ) ≤ z
  · rw [if_pos hz, ← habs, abs_of_nonneg hz]
  · rw [if_neg hz, ← habs, abs_of_neg (not_le.1 hz), neg_neg]

/-- A natural number up to `2 ^ 53` is a double. -/
theorem roundDouble_natCast (n : ℕ) (h : n ≤ 2 ^ 53) : roundDouble (n : ℚ) = JSNum.fin n := by
  have := roundDouble_intCast (n : ℤ) (by
    rw [abs_of_nonneg (by positivity)]
    exact_mod_cast h)
  simpa using this

theorem roundHalfEven_cases (x : ℚ) :
    roundHalfEven x = ⌊x⌋ ∨ roundHalfEven x = ⌊x⌋ + 1 := by
  unfold roundHalfEven
  split_ifs <;> simp

theorem roundHalfEven_mono (x y : ℚ) (h : x ≤ y) : roundHalfEven x ≤ roundHalfEven y := by
  rcases lt_or_eq_of_le (Int.floor_mono h) with hlt | heq
  · have h1 : roundHalfEven x ≤ ⌊x⌋ + 1 := by
      rcases roundHalfEven_cases x with e | e <;> omega
    have h2 : ⌊y⌋ ≤ roundHalfEven y := by
      rcases roundHalfEven_cases y with e | e <;> omega
    omega
  · unfold roundHalfEven
    rw [← heq]
    split_ifs <;> first | omega | (exfalso; linarith)

theorem roundHalfEven_le_intCast (x : ℚ) (k : ℤ) (h : x ≤ k) : roundHalfEven x ≤ k := by
  have := roundHalfEven_mono x k h
  rwa [roundHalfEven_intCast] at this

theorem intCast_le_roundHalfEven (x : ℚ) (k : ℤ) (h : (k : ℚ) ≤ x) : k ≤ roundHalfEven x := by
  have := roundHalfEven_mono k x h
  rwa [roundHalfEven_intCast] at this

theorem roundMagnitude_nonneg (a : ℚ) (h : 0 ≤ a) : 0 ≤ roundMagnitude a := by
  unfold roundMagnitude
  have h2 : (0 : ℚ) < 2 ^ ulpExponent a := zpow_pos (by norm_num) _
  have h3 : (0 : ℤ) ≤ roundHalfEven (a / 2 ^ ulpExponent a) := by
    apply intCast_le_roundHalfEven
    simpa using div_nonneg h h2.le
  have h4 : (0 : ℚ) ≤ (roundHalfEven (a / 2 ^ ulpExponent a) : ℚ) := by exact_mod_cast h3
  exact mul_nonneg h4 h2.le

theorem ulpExponent_mono (a b : ℚ) (ha : 0 < a) (h : a ≤ b) :
    ulpExponent a ≤ ulpExponent b := by
  unfold ulpExponent
  have : Int.log 2 a ≤ Int.log 2 b := Int.log_mono_right ha h
  have := max_le_max_right (-1022 : ℤ) this
  omega

/-- The rounding of magnitudes is monotone. -/
theorem roundMagnitude_mono (a b : ℚ) (ha : 0 ≤ a) (h : a ≤ b) :
    roundMagnitude a ≤ roundMagnitude b := by
  rcases eq_or_lt_of_le ha with h0 | hpos
  · subst h0
    have hz : roundMagnitude 0 = 0 := by
      have := roundMagnitude_natCast 0 (by norm_num)
      simpa using this
    rw [hz]
    exact roundMagnitude_nonneg b (le_trans ha h)
  · have h2 : (0 : ℚ) < 2 := by norm_num
    rcases eq_or_lt_of_le (ulpExponent_mono a b hpos h) with he | hlt
    · unfold roundMagnitude
      rw [← he]
      have hp : (0 : ℚ) < 2 ^ ulpExponent a := zpow_pos h2 _
      have hdiv : a / 2 ^ ulpExponent a ≤ b / 2 ^ ulpExponent a :=
        div_le_div_of_nonneg_right h hp.le
      have := roundHalfEven_mono _ _ hdiv
      have hq : (roundHalfEven (a / 2 ^ ulpExponent a) : ℚ) ≤
          (roundHalfEven (b / 2 ^ ulpExponent a) : ℚ) := by exact_mod_cast this
      exact mul_le_mul_of_nonneg_right hq hp.le
    · -- the two numbers lie in different binades; the power of two between them
      -- separates their roundings
      have hbpos : 0 < b := lt_of_lt_of_le hpos h
      have hL : max (Int.log 2 a) (-1022) < Int.log 2 b := by
        unfold ulpExponent at hlt
        have h1 : max (Int.log 2 a) (-1022) < max (Int.log 2 b) (-1022) := by omega
        rcases le_total (Int.log 2 b) (-1022) with hle | hge
        · rw [max_eq_right hle] at h1
          have := le_max_right (Int.log 2 a) (-1022)
          omega
        · rw [max_eq_left hge] at h1
          exact h1
      have heb : ulpExponent b = Int.log 2 b - 52 := by
        unfold ulpExponent
        rw [max_eq_left]
        have := le_max_right (Int.log 2 a) (-1022)
        omega
      have hloga : Int.log 2 a + 1 ≤ Int.log 2 b := by
        have := le_max_left (Int.log 2 a) (-1022)
        omega
      have halt : a < 2 ^ Int.log 2 b :=
        lt_of_lt_of_le (Int.lt_zpow_succ_log_self (by norm_num) a)
          (zpow_le_zpow_right₀ (by norm_num) hloga)
      have hble : (2 : ℚ) ^ Int.log 2 b ≤ b := Int.zpow_log_le_self (by norm_num) hbpos
      -- the lower number rounds to at most the power
      have hlow : roundMagnitude a ≤ 2 ^ Int.log 2 b := by
        unfold roundMagnitude
        have hp : (0 : ℚ) < 2 ^ ulpExponent a := zpow_pos h2 _
        have hd : 0 ≤ Int.log 2 b - ulpExponent a := by
          unfold ulpExponent
          omega
        obtain ⟨n, hn⟩ := Int.eq_ofNat_of_zero_le hd
        have hsplit : (2 : ℚ) ^ Int.log 2 b = ((2 ^ n : ℤ) : ℚ) * 2 ^ ulpExponent a := by
          have : Int.log 2 b = (n : ℤ) + ulpExponent a := by omega
          rw [this, zpow_add₀ (by norm_num), zpow_natCast]
          push_cast
          rfl
        have hle : a / 2 ^ ulpExponent a ≤ ((2 ^ n : ℤ) : ℚ) := by
          rw [div_le_iff₀ hp, ← hsplit]
          exact halt.le
        have := roundHalfEven_le_intCast _ _ hle
        have hq : (roundHalfEven (a / 2 ^ ulpExponent a) : ℚ) ≤ ((2 ^ n : ℤ) : ℚ) := by
          exact_mod_cast this
        rw [hsplit]
        exact mul_le_mul_of_nonneg_right hq hp.le
      have hhigh : (2 : ℚ) ^ Int.log 2 b ≤ roundMagnitude b := by
        unfold roundMagnitude
        rw [heb]
        have hp : (0 : ℚ) < 2 ^ (Int.log 2 b - 52) := zpow_pos h2 _
        have hsplit : (2 : ℚ) ^ Int.log 2 b = ((2 ^ 52 : ℤ) : ℚ) * 2 ^ (Int.log 2 b - 52) := by
          have : Int.log 2 b = ((52 : ℕ) : ℤ) + (Int.log 2 b - 52) := by omega
          conv_lhs => rw [this]
          rw [zpow_add₀ (by norm_num), zpow_natCast]
          push_cast
          rfl
        have hle : ((2 ^ 52 : ℤ) : ℚ) ≤ b / 2 ^ (Int.log 2 b - 52) := by
          rw [le_div_iff₀ hp, ← hsplit]
          exact hble
        have := intCast_le_roundHalfEven _ _ hle
        have hq : ((2 ^ 52 : ℤ) : ℚ) ≤ (roundHalfEven (b / 2 ^ (Int.log 2 b - 52)) : ℚ) := by
          exact_mod_cast this
        rw [hsplit]
        exact mul_le_mul_of_nonneg_right hq hp.le
      exact le_trans hlow hhigh

theorem roundDouble_ne_nan (q : ℚ) : roundDouble q ≠ JSNum.nan := by
  unfold roundDouble
  split_ifs <;> simp

/-- The rounding of doubles is monotone. -/
theorem roundDouble_mono : RoundsMonotonically roundDouble := by
  intro a b hab
  have hna := roundDouble_ne_nan a
  have hnb := roundDouble_ne_nan b
  apply jsLe_of_lt_false _ _ hna hnb
  rcases le_or_lt 0 a with ha | ha
  · have hb : 0 ≤ b := le_trans ha hab
    have hm := roundMagnitude_mono |a| |b| (abs_nonneg a)
      (by rw [abs_of_nonneg ha, abs_of_nonneg hb]; exact hab)
    unfold roundDouble
    rw [if_pos ha, if_pos hb, if_pos ha, if_pos hb]
    by_cases h1 : (2 : ℚ) ^ 1024 ≤ roundMagnitude |b|
    · rw [if_pos h1]
      split_ifs <;> simp [JSNum.lt]
    · rw [if_neg h1, if_neg (fun h => h1 (le_trans h hm))]
      simpa [JSNum.lt] using hm
  · rcases le_or_lt 0 b with hb | hb
    · have h1 := roundMagnitude_nonneg |a| (abs_nonneg a)
      have h2 := roundMagnitude_nonneg |b| (abs_nonneg b)
      unfold roundDouble
      rw [if_neg (not_le.2 ha), if_pos hb, if_neg (not_le.2 ha), if_pos hb]
      split_ifs <;> simp [JSNum.lt]
      linarith
    · have hm := roundMagnitude_mono |b| |a| (abs_nonneg b)
        (by rw [abs_of_neg ha, abs_of_neg hb]; linarith)
      unfold roundDouble
      rw [if_neg (not_le.2 ha), if_neg (not_le.2 hb), if_neg (not_le.2 ha),
        if_neg (not_le.2 hb)]
      by_cases h1 : (2 : ℚ) ^ 1024 ≤ roundMagnitude |a|
      · rw [if_pos h1]
        split_ifs <;> simp [JSNum.lt]
      · rw [if_neg h1, if_neg (fun h => h1 (le_trans h hm))]
        simpa [JSNum.lt] using hm

/-- The rounding of doubles leaves the integers up to `2 ^ 53` as they are. -/
theorem roundDouble_exact : RoundsIntegersExactly roundDouble :=
  fun z h => roundDouble_intCast z h

theorem roundHalfEven_of_lt_half (x : ℚ) (n : ℤ) (h1 : (n : ℚ) ≤ x) (h2 : x < n + 1 / 2) :
    roundHalfEven x = n := by
  have hf : ⌊x⌋ = n := by
    rw [Int.floor_eq_iff]
    exact ⟨h1, by linarith⟩
  unfold roundHalfEven
  rw [hf, if_pos (by linarith)]

theorem roundHalfEven_of_gt_half (x : ℚ) (n : ℤ) (h1 : (n : ℚ) + 1 / 2 < x) (h2 : x < n + 1) :
    roundHalfEven x = n + 1 := by
  have hf : ⌊x⌋ = n := by
    rw [Int.floor_eq_iff]
    exact ⟨by linarith, h2⟩
  unfold roundHalfEven
  rw [hf, if_neg (by linarith), if_pos (by linarith)]

theorem roundHalfEven_tie_even (x : ℚ) (n : ℤ) (h : x = n + 1 / 2) (heven : n % 2 = 0) :
    roundHalfEven x = n := by
  have hf : ⌊x⌋ = n := by
    rw [Int.floor_eq_iff]
    exact ⟨by linarith, by linarith⟩
  unfold roundHalfEven
  rw [hf, if_neg (by linarith), if_neg (by linarith), if_pos heven]

/-- The rounding of a positive number of a known binade, from the rounding of
its significand. -/
theorem roundDouble_of_binade (q : ℚ) (L k : ℤ) (hL : -1022 ≤ L) (hlo : (2 : ℚ) ^ L ≤ q)
    (hhi : q < 2 ^ (L + 1)) (hk : roundHalfEven (q / 2 ^ (L - 52)) = k)
    (hfin : (k : ℚ) * 2 ^ (L - 52) < 2 ^ 1024) :
    roundDouble q = JSNum.fin (k * 2 ^ (L - 52)) := by
  have hpos : 0 < q := lt_of_lt_of_le (zpow_pos (by norm_num) L) hlo
  have hlog : Int.log 2 q = L := by
    apply le_antisymm
    · have h1 : Int.log 2 q < L + 1 := (Int.lt_zpow_iff_log_lt (by norm_num) hpos).1 hhi
      omega
    · have h2 : L ≤ Int.log 2 q := (Int.zpow_le_iff_le_log (by norm_num) hpos).1 hlo
      exact h2
  have he : ulpExponent q = L - 52 := by
    unfold ulpExponent
    rw [hlog, max_eq_left hL]
  have hm : roundMagnitude q = k * 2 ^ (L - 52) := by
    unfold roundMagnitude
    rw [he, hk]
  unfold roundDouble
  rw [abs_of_pos hpos, hm, if_neg (not_le.2 hfin), if_pos hpos.le]

/-! ## The volume profile -/

theorem binCandle_eq (rnd : ℚ → JSNum) (minPrice levelSize : JSNum) (levels : Nat)
    (vp : List VolumeProfileLevel) (c : Candle) :
    binCandle rnd minPrice levelSize levels vp c =
      match binOf rnd minPrice levelSize levels c with
      | some k => addVolume rnd vp k c.volume
      | none => vp := by
  unfold binCandle binOf
  by_cases h : ((levelIndex rnd minPrice levelSize c).ge (JSNum.fin 0) &&
      (levelIndex rnd minPrice levelSize c).lt (JSNum.fin levels)) = true
  · simp only [h, if_true]
    cases levelIndex rnd minPrice levelSize c <;> rfl
  · simp only [h]
    rfl

theorem length_addVolume (rnd : ℚ → JSNum) (vp : List VolumeProfileLevel) (k : Nat)
    (v : JSNum) : (addVolume rnd vp k v).length = vp.length := by
  induction vp generalizing k with
  | nil => rfl
  | cons l ls ih => cases k <;> simp [addVolume, ih]

theorem getElem?_addVolume (rnd : ℚ → JSNum) (vp : List VolumeProfileLevel) (k i : Nat)
    (v : JSNum) :
    (addVolume rnd vp k v)[i]? =
      (vp[i]?).map (fun l => if i = k then { l with volume := l.volume.addR rnd v } else l) := by
  induction vp generalizing k i with
  | nil => simp [addVolume]
  | cons l ls ih =>
      cases k with
      | zero => cases i <;> simp [addVolume]
      | succ k => cases i <;> simp [addVolume, ih]

/-- The volume of a level after the loop: the volumes of the candles
attributed to it, added in order to its initial volume. -/
theorem getElem?_foldl_binCandle (rnd : ℚ → JSNum) (minPrice levelSize : JSNum)
    (levels : Nat) (data : List Candle) (vp : List VolumeProfileLevel) (i : Nat) :
    (data.foldl (binCandle rnd minPrice levelSize levels) vp)[i]? =
      (vp[i]?).map (fun l =>
        { l with volume :=
            ((data.filter (fun c =>
                decide (binOf rnd minPrice levelSize levels c = some i))).map
              (fun c => c.volume)).foldl (fun acc v => acc.addR rnd v) l.volume }) := by
  induction data generalizing vp with
  | nil => simp
  | cons c cs ih =>
      rw [List.foldl_cons, ih, binCandle_eq]
      cases hb : binOf rnd minPrice levelSize levels c with
      | none =>
          simp [List.filter_cons, hb]
      | some k =>
          simp only [getElem?_addVolume, Option.map_map]
          congr 1
          funext l
          by_cases hik : i = k
          · subst hik
            simp [List.filter_cons, hb]
          · have : ¬ (k = i) := fun h => hik h.symm
            simp [List.filter_cons, hb, hik, this]

theorem length_foldl_binCandle (rnd : ℚ → JSNum) (minPrice levelSize : JSNum) (levels : Nat)
    (data : List Candle) (vp : List VolumeProfileLevel) :
    (data.foldl (binCandle rnd minPrice levelSize levels) vp).length = vp.length := by
  induction data generalizing vp with
  | nil => rfl
  | cons c cs ih =>
      rw [List.foldl_cons, ih, binCandle_eq]
      cases binOf rnd minPrice levelSize levels c <;> simp [length_addVolume]

/-- The bin index is `NaN`, an infinity, or an integer. -/
theorem levelIndex_cases (rnd : ℚ → JSNum) (minPrice levelSize : JSNum) (c : Candle) :
    levelIndex rnd minPrice levelSize c = JSNum.nan ∨
    levelIndex rnd minPrice levelSize c = JSNum.negInf ∨
    levelIndex rnd minPrice levelSize c = JSNum.posInf ∨
    ∃ z : ℤ, levelIndex rnd minPrice levelSize c = JSNum.fin z := by
  unfold levelIndex
  cases (c.close.subR rnd minPrice).divR rnd levelSize with
  | nan => exact Or.inl rfl
  | negInf => exact Or.inr (Or.inl rfl)
  | posInf => exact Or.inr (Or.inr (Or.inl rfl))
  | fin q => exact Or.inr (Or.inr (Or.inr ⟨⌊q⌋, rfl⟩))

/-- A candle is attributed to bin `i` exactly when its bin index is `i` and
`i` is below `levels`. -/
theorem binOf_eq_some_iff (rnd : ℚ → JSNum) (minPrice levelSize : JSNum) (levels : Nat)
    (c : Candle) (i : Nat) :
    binOf rnd minPrice levelSize levels c = some i ↔
      i < levels ∧ levelIndex rnd minPrice levelSize c = JSNum.fin (i : ℚ) := by
  unfold binOf
  rcases levelIndex_cases rnd minPrice levelSize c with h | h | h | ⟨z, h⟩
  · simp [h, JSNum.ge]
  · simp [h, JSNum.ge, JSNum.lt]
  · simp [h, JSNum.ge, JSNum.lt]
  · rw [h]
    simp only [JSNum.ge, JSNum.lt, Int.floor_intCast, JSNum.fin.injEq]
    constructor
    · intro hc
      split at hc
      · rename_i hg
        simp only [Bool.and_eq_true, Bool.not_eq_true', decide_eq_false_iff_not, not_lt,
          decide_eq_true_eq] at hg
        have h0 : (0 : ℤ) ≤ z := by exact_mod_cast hg.1
        have h1 : z < (levels : ℤ) := by exact_mod_cast hg.2
        simp only [Option.some.injEq] at hc
        have hz : z = (i : ℤ) := by omega
        refine ⟨by omega, ?_⟩
        rw [hz]
        simp
      · simp at hc
    · rintro ⟨hi, hz⟩
      have hz' : z = (i : ℤ) := by exact_mod_cast hz
      subst hz'
      have hi' : ((i : ℤ) : ℚ) < (levels : ℚ) := by exact_mod_cast hi
      simp [hi', hi]

/-- The range test passes exactly when the candle is attributed to a bin. -/
theorem binOf_isSome (rnd : ℚ → JSNum) (minPrice levelSize : JSNum) (levels : Nat)
    (c : Candle) :
    (binOf rnd minPrice levelSize levels c).isSome =
      inRange levels (levelIndex rnd minPrice levelSize c) := by
  unfold binOf inRange
  rcases levelIndex_cases rnd minPrice levelSize c with h | h | h | ⟨z, h⟩
  · simp [h, JSNum.ge]
  · simp [h, JSNum.ge, JSNum.lt]
  · simp [h, JSNum.ge, JSNum.lt]
  · rw [h]
    by_cases hg : ((JSNum.fin (z : ℚ)).ge (JSNum.fin 0) &&
        (JSNum.fin (z : ℚ)).lt (JSNum.fin levels)) = true
    · simp [hg]
    · simp [hg]

/-- A candle is only ever attributed to a bin below `levels`. -/
theorem binOf_lt (rnd : ℚ → JSNum) (minPrice levelSize : JSNum) (levels : Nat) (c : Candle)
    (k : Nat) (h : binOf rnd minPrice levelSize levels c = some k) : k < levels :=
  ((binOf_eq_some_iff rnd minPrice levelSize levels c k).1 h).1

/-- The profile is the fold of the binning step over the initial levels. -/
theorem calculateVolumeProfile_eq (rnd : ℚ → JSNum) (data : List Candle) (levels : Nat) :
    calculateVolumeProfile rnd data levels =
      data.foldl
        (binCandle rnd (profileMin data) (profileLevelSize rnd data levels) levels)
        ((List.range levels).map (fun (i : Nat) =>
          ({ price := (profileMin data).addR rnd
               ((JSNum.fin (i : ℚ)).mulR rnd (profileLevelSize rnd data levels)),
             volume := JSNum.fin 0 } : VolumeProfileLevel))) := rfl

theorem rnd_ne_nan (rnd : ℚ → JSNum) (hmono : RoundsMonotonically rnd) (q : ℚ) :
    rnd q ≠ JSNum.nan := by
  intro h
  have := hmono q q (le_refl q)
  rw [h] at this
  simp [JSNum.le, JSNum.lt, JSNum.isNaN] at this

/-- Rounding keeps the order, in the weak sense that suits `NaN`: what was
not below is not below after rounding. -/
theorem round_weak_mono (rnd : ℚ → JSNum) (hmono : RoundsMonotonically rnd) (a b : JSNum)
    (h : b.lt a = false) : (b.round rnd).lt (a.round rnd) = false := by
  cases a with
  | nan => exact jsLt_nan _
  | negInf => exact jsLt_negInf _
  | posInf =>
      cases b with
      | nan => exact nan_jsLt _
      | negInf => simp [JSNum.lt] at h
      | fin y => simp [JSNum.lt] at h
      | posInf => rfl
  | fin x =>
      cases b with
      | nan => exact nan_jsLt _
      | negInf => simp [JSNum.lt] at h
      | posInf => exact posInf_jsLt _
      | fin y =>
          simp only [JSNum.lt, decide_eq_false_iff_not, not_lt] at h
          exact jsLt_false_of_le _ _ (hmono x y h)

/-- Adding to a fixed number keeps the order in the same weak sense. -/
theorem add_weak_mono (m a b : JSNum) (h : b.lt a = false) :
    (m.add b).lt (m.add a) = false := by
  cases m <;> cases a <;> cases b <;> simp_all [JSNum.add, JSNum.lt]

theorem addR_weak_mono (rnd : ℚ → JSNum) (hmono : RoundsMonotonically rnd) (m a b : JSNum)
    (h : b.lt a = false) : (m.addR rnd b).lt (m.addR rnd a) = false :=
  round_weak_mono rnd hmono _ _ (add_weak_mono m a b h)

theorem nonneg_cases (x : JSNum) (h : (JSNum.fin 0).le x = true) :
    (∃ r : ℚ, 0 ≤ r ∧ x = JSNum.fin r) ∨ x = JSNum.posInf := by
  cases x with
  | nan => simp [JSNum.le, JSNum.lt, JSNum.isNaN] at h
  | negInf => simp [JSNum.le, JSNum.lt, JSNum.isNaN] at h
  | posInf => exact Or.inr rfl
  | fin r =>
      left
      refine ⟨r, ?_, rfl⟩
      simp only [JSNum.le, JSNum.lt, JSNum.isNaN, Bool.not_false, Bool.true_and,
        Bool.or_eq_true, decide_eq_true_eq, JSNum.fin.injEq] at h
      rcases h with h | h
      · exact le_of_lt h
      · exact le_of_eq h

theorem rnd_nonneg (rnd : ℚ → JSNum) (hmono : RoundsMonotonically rnd)
    (hzero : rnd 0 = JSNum.fin 0) (q : ℚ) (hq : 0 ≤ q) : (JSNum.fin 0).le (rnd q) = true := by
  have := hmono 0 q hq
  rwa [hzero] at this

/-- The products `i * levelSize` do not descend with `i` when the level size
is not negative. -/
theorem mulR_weak_mono (rnd : ℚ → JSNum) (hmono : RoundsMonotonically rnd) (i j : Nat)
    (hij : i ≤ j) (ls : JSNum) (hls : (JSNum.fin 0).le ls = true) :
    ((JSNum.fin (j : ℚ)).mulR rnd ls).lt ((JSNum.fin (i : ℚ)).mulR rnd ls) = false := by
  apply round_weak_mono rnd hmono
  have hij' : (i : ℚ) ≤ j := by exact_mod_cast hij
  rcases nonneg_cases ls hls with ⟨r, hr, rfl⟩ | rfl
  · simp only [JSNum.mul, JSNum.lt, decide_eq_false_iff_not, not_lt]
    exact mul_le_mul_of_nonneg_right hij' hr
  · rcases Nat.eq_zero_or_pos i with hi | hi
    · subst hi
      simp [JSNum.mul, jsLt_nan]
    · have hi' : (0 : ℚ) < i := by exact_mod_cast hi
      have hj' : (0 : ℚ) < j := lt_of_lt_of_le hi' hij'
      simp [JSNum.mul, hi'.ne', hj'.ne', hi', hj', JSNum.lt]

/-- When the highest high is above the lowest low, the level size is not
negative (it may be zero or infinite). -/
theorem profileLevelSize_nonneg (rnd : ℚ → JSNum) (hmono : RoundsMonotonically rnd)
    (hzero : rnd 0 = JSNum.fin 0) (data : List Candle) (levels : Nat)
    (hrange : (profileMax data).gt (profileMin data) = true) (hlevels : 1 ≤ levels) :
    (JSNum.fin 0).le (profileLevelSize rnd data levels) = true := by
  have hl : (0 : ℚ) < levels := by
    have : 0 < levels := hlevels
    exact_mod_cast this
  have hrng : (JSNum.fin 0).le ((profileMax data).subR rnd (profileMin data)) = true := by
    simp only [JSNum.gt] at hrange
    revert hrange
    cases profileMin data <;> cases profileMax data <;>
      simp [JSNum.lt, JSNum.subR, JSNum.sub, JSNum.neg, JSNum.add, JSNum.round, JSNum.le,
        JSNum.isNaN]
    rename_i m M
    intro hmM
    have := rnd_nonneg rnd hmono hzero (M + -m) (by linarith)
    simpa [JSNum.le, JSNum.lt, JSNum.isNaN] using this
  unfold profileLevelSize
  rcases nonneg_cases _ hrng with ⟨r, hr, he⟩ | he
  · rw [he]
    simp only [JSNum.divR, JSNum.div, hl.ne', if_false, JSNum.round]
    exact rnd_nonneg rnd hmono hzero _ (div_nonneg hr hl.le)
  · rw [he]
    simp [JSNum.divR, JSNum.div, hl.le, JSNum.round, JSNum.le, JSNum.lt, JSNum.isNaN]

/-- Entry `i` of the profile: its price and the volumes it has received. -/
theorem getElem?_calculateVolumeProfile (rnd : ℚ → JSNum) (data : List Candle)
    (levels i : Nat) (hi : i < levels) :
    (calculateVolumeProfile rnd data levels)[i]? = some
      { price := (profileMin data).addR rnd
          ((JSNum.fin (i : ℚ)).mulR rnd (profileLevelSize rnd data levels)),
        volume := jsSum rnd ((data.filter (fun c =>
          decide (levelIndex rnd (profileMin data) (profileLevelSize rnd data levels) c =
            JSNum.fin (i : ℚ)))).map (fun c => c.volume)) } := by
  rw [calculateVolumeProfile_eq, getElem?_foldl_binCandle]
  have hfilter : data.filter (fun c => decide (binOf rnd (profileMin data)
      (profileLevelSize rnd data levels) levels c = some i)) =
      data.filter (fun c =>
        decide (levelIndex rnd (profileMin data) (profileLevelSize rnd data levels) c =
          JSNum.fin (i : ℚ))) := by
    apply List.filter_congr
    intro c _
    simp only [decide_eq_decide]
    rw [binOf_eq_some_iff]
    exact ⟨fun h => h.2, fun h => ⟨hi, h⟩⟩
  simp [hfilter, List.getElem?_range hi, jsSum]

theorem length_calculateVolumeProfile (rnd : ℚ → JSNum) (data : List Candle) (levels : Nat) :
    (calculateVolumeProfile rnd data levels).length = levels := by
  rw [calculateVolumeProfile_eq, length_foldl_binCandle]
  simp

/-- With a finite lowest low and a finite level size no price is `NaN`. -/
theorem price_ne_nan (rnd : ℚ → JSNum) (hmono : RoundsMonotonically rnd) (m s : JSNum)
    (hm : m.isFinite = true) (hs : s.isFinite = true) (i : Nat) :
    m.addR rnd ((JSNum.fin (i : ℚ)).mulR rnd s) ≠ JSNum.nan := by
  cases m <;> simp [JSNum.isFinite] at hm
  cases s <;> simp [JSNum.isFinite] at hs
  rename_i a b
  simp only [JSNum.mulR, JSNum.mul, JSNum.round, JSNum.addR]
  have h := rnd_ne_nan rnd hmono ((i : ℚ) * b)
  cases hr : rnd ((i : ℚ) * b) with
  | nan => exact absurd hr h
  | negInf => simp [JSNum.add, JSNum.round]
  | posInf => simp [JSNum.add, JSNum.round]
  | fin c =>
      simp only [JSNum.add, JSNum.round]
      exact rnd_ne_nan rnd hmono _

/-- The profile for any rounding that is monotone and exact at zero: the
number of entries, the price and the volume of every entry, and the order of
the prices. -/
theorem calculateVolumeProfile_spec_of_rounding (rnd : ℚ → JSNum) (hmono : RoundsMonotonically rnd)
    (hzero : rnd 0 = JSNum.fin 0) (data : List Candle) (levels : Nat)
    (hrange : (profileMax data).gt (profileMin data) = true) :
    ((∃ c ∈ data, c.low = profileMin data) ∧ ∀ c ∈ data, (profileMin data).le c.low = true) ∧
    ((∃ c ∈ data, c.high = profileMax data) ∧
      ∀ c ∈ data, c.high.le (profileMax data) = true) ∧
    (calculateVolumeProfile rnd data levels).length = levels ∧
    (∀ i, i < levels →
      (calculateVolumeProfile rnd data levels)[i]? = some
        { price := (profileMin data).addR rnd
            ((JSNum.fin (i : ℚ)).mulR rnd (profileLevelSize rnd data levels)),
          volume := jsSum rnd ((data.filter (fun c =>
            decide (levelIndex rnd (profileMin data) (profileLevelSize rnd data levels) c =
              JSNum.fin (i : ℚ)))).map (fun c => c.volume)) }) ∧
    List.Pairwise (fun a b => b.price.lt a.price = false)
      (calculateVolumeProfile rnd data levels) ∧
    ((profileMin data).isFinite = true → (profileLevelSize rnd data levels).isFinite = true →
      List.Pairwise (fun a b => a.price.le b.price = true)
        (calculateVolumeProfile rnd data levels)) := by
  have hlt : (profileMin data).lt (profileMax data) = true := hrange
  have hminN : profileMin data ≠ JSNum.nan := ne_nan_of_jsLt_left _ _ hlt
  have hmaxN : profileMax data ≠ JSNum.nan := ne_nan_of_jsLt_right _ _ hlt
  have hne : data ≠ [] := by
    intro h
    subst h
    simp [profileMin, profileMax, mathMin, mathMax, JSNum.lt] at hlt
  have hneLow : data.map (fun d => d.low) ≠ [] := by simpa using hne
  have hneHigh : data.map (fun d => d.high) ≠ [] := by simpa using hne
  have hentry := getElem?_calculateVolumeProfile rnd data levels
  have hlen := length_calculateVolumeProfile rnd data levels
  have hweak : ∀ (i j : Nat) (hi : i < (calculateVolumeProfile rnd data levels).length)
      (hj : j < (calculateVolumeProfile rnd data levels).length), i < j →
      ((calculateVolumeProfile rnd data levels)[j]).price.lt
        ((calculateVolumeProfile rnd data levels)[i]).price = false := by
    intro i j hi hj hij
    have hi0 := hi
    have hj0 := hj
    rw [hlen] at hi0 hj0
    have ei := hentry i hi0
    have ej := hentry j hj0
    rw [List.getElem?_eq_getElem hi] at ei
    rw [List.getElem?_eq_getElem hj] at ej
    rw [Option.some.injEq] at ei ej
    rw [ei, ej]
    have hls := profileLevelSize_nonneg rnd hmono hzero data levels hrange (by omega)
    exact addR_weak_mono rnd hmono _ _ _ (mulR_weak_mono rnd hmono i j (le_of_lt hij) _ hls)
  refine ⟨⟨?_, ?_⟩, ⟨?_, ?_⟩, hlen, hentry, ?_, ?_⟩
  · have hmem := mathMin_mem _ hneLow hminN
    obtain ⟨c, hc, hcl⟩ := List.mem_map.1 hmem
    exact ⟨c, hc, hcl⟩
  · intro c hc
    exact mathMin_le _ hminN _ (List.mem_map_of_mem _ hc)
  · have hmem := mathMax_mem _ hneHigh hmaxN
    obtain ⟨c, hc, hcl⟩ := List.mem_map.1 hmem
    exact ⟨c, hc, hcl⟩
  · intro c hc
    exact le_mathMax _ hmaxN _ (List.mem_map_of_mem _ hc)
  · rw [List.pairwise_iff_getElem]
    exact hweak
  · intro hm hs
    rw [List.pairwise_iff_getElem]
    intro i j hi hj hij
    have hw := hweak i j hi hj hij
    have hi0 := hi
    have hj0 := hj
    rw [hlen] at hi0 hj0
    have ei := hentry i hi0
    have ej := hentry j hj0
    rw [List.getElem?_eq_getElem hi] at ei
    rw [List.getElem?_eq_getElem hj] at ej
    rw [Option.some.injEq] at ei ej
    apply jsLe_of_lt_false _ _ _ _ hw
    · rw [ei]
      exact price_ne_nan rnd hmono _ _ hm hs i
    · rw [ej]
      exact price_ne_nan rnd hmono _ _ hm hs j

/-- Claim C1 (amended): for a candle sequence whose highest high is above its
lowest low, `calculateVolumeProfile` returns exactly `levels` entries; entry
`i` has price `minPrice + i * levelSize` and, as volume, the sum of the
volumes of exactly the candles whose bin index
`floor((close - minPrice) / levelSize)` is `i`, every operation being the
rounded operation on doubles that the code performs and the sum being taken
in input order; a candle whose index is outside `[0, levels)` adds to no
entry. `minPrice` is the least low and `maxPrice` the greatest high. The
prices never descend: no entry has a price above that of a later entry
(neighbours can be equal when rounding absorbs the step), and when the
lowest low and the level size are finite every price is at most the price of
every later entry. -/
theorem calculateVolumeProfile_spec (data : List Candle) (levels : Nat)
    (hrange : (profileMax data).gt (profileMin data) = true) :
    ((∃ c ∈ data, c.low = profileMin data) ∧ ∀ c ∈ data, (profileMin data).le c.low = true) ∧
    ((∃ c ∈ data, c.high = profileMax data) ∧
      ∀ c ∈ data, c.high.le (profileMax data) = true) ∧
    (calculateVolumeProfile roundDouble data levels).length = levels ∧
    (∀ i, i < levels →
      (calculateVolumeProfile roundDouble data levels)[i]? = some
        { price := (profileMin data).addR roundDouble
            ((JSNum.fin (i : ℚ)).mulR roundDouble (profileLevelSize roundDouble data levels)),
          volume := jsSum roundDouble ((data.filter (fun c =>
            decide (levelIndex roundDouble (profileMin data)
              (profileLevelSize roundDouble data levels) c =
                JSNum.fin (i : ℚ)))).map (fun c => c.volume)) }) ∧
    List.Pairwise (fun a b => b.price.lt a.price = false)
      (calculateVolumeProfile roundDouble data levels) ∧
    ((profileMin data).isFinite = true →
      (profileLevelSize roundDouble data levels).isFinite = true →
      List.Pairwise (fun a b => a.price.le b.price = true)
        (calculateVolumeProfile roundDouble data levels)) :=
  calculateVolumeProfile_spec_of_rounding roundDouble roundDouble_mono roundDouble_zero data
    levels hrange

theorem volumeMagnitude_nonneg (vp : List VolumeProfileLevel) : 0 ≤ volumeMagnitude vp := by
  unfold volumeMagnitude
  apply List.sum_nonneg
  intro x hx
  obtain ⟨l, _, rfl⟩ := List.mem_map.1 hx
  exact abs_nonneg _

theorem candleVolumeMagnitude_nonneg (data : List Candle) :
    0 ≤ candleVolumeMagnitude data := by
  unfold candleVolumeMagnitude
  apply List.sum_nonneg
  intro x hx
  obtain ⟨l, _, rfl⟩ := List.mem_map.1 hx
  exact abs_nonneg _

/-- Adding an integer volume to a level of integer volumes is exact as long
as the magnitudes stay within `2 ^ 53`. -/
theorem addVolume_exact (rnd : ℚ → JSNum) (hexact : RoundsIntegersExactly rnd)
    (vp : List VolumeProfileLevel) (k : Nat) (z : ℤ)
    (hvp : ∀ l ∈ vp, ∃ a : ℤ, l.volume = JSNum.fin a) (hk : k < vp.length)
    (hb : volumeMagnitude vp + |(z : ℚ)| ≤ 2 ^ 53) :
    (∀ l ∈ addVolume rnd vp k (JSNum.fin z), ∃ a : ℤ, l.volume = JSNum.fin a) ∧
    totalVolume (addVolume rnd vp k (JSNum.fin z)) = totalVolume vp + z ∧
    volumeMagnitude (addVolume rnd vp k (JSNum.fin z)) ≤ volumeMagnitude vp + |(z : ℚ)| := by
  induction vp generalizing k with
  | nil => simp at hk
  | cons l ls ih =>
      have hls : ∀ l' ∈ ls, ∃ a : ℤ, l'.volume = JSNum.fin a :=
        fun l' h' => hvp l' (List.mem_cons_of_mem _ h')
      have hmag : volumeMagnitude (l :: ls) = |l.volume.toRat| + volumeMagnitude ls := by
        simp [volumeMagnitude]
      have htot : totalVolume (l :: ls) = l.volume.toRat + totalVolume ls := by
        simp [totalVolume]
      cases k with
      | zero =>
          obtain ⟨a, ha⟩ := hvp l (List.mem_cons_self _ _)
          have hsum : (a : ℚ) + z = ((a + z : ℤ) : ℚ) := by push_cast; rfl
          have hbound : |((a + z : ℤ))| ≤ (2 : ℤ) ^ 53 := by
            have h1 : |((a + z : ℤ) : ℚ)| ≤ 2 ^ 53 := by
              rw [hmag, ha] at hb
              simp only [JSNum.toRat] at hb
              have h2 := volumeMagnitude_nonneg ls
              have h3 : |((a + z : ℤ) : ℚ)| ≤ |(a : ℚ)| + |(z : ℚ)| := by
                push_cast
                exact abs_add _ _
              linarith
            have h4 : ((|(a + z : ℤ)| : ℤ) : ℚ) ≤ ((2 ^ 53 : ℤ) : ℚ) := by
              push_cast
              push_cast at h1
              exact h1
            exact_mod_cast h4
          have hnew : l.volume.addR rnd (JSNum.fin z) = JSNum.fin ((a + z : ℤ) : ℚ) := by
            rw [ha]
            simp only [JSNum.addR, JSNum.add, JSNum.round]
            rw [hsum]
            exact hexact _ hbound
          refine ⟨?_, ?_, ?_⟩
          · intro l' hl'
            simp only [addVolume, List.mem_cons] at hl'
            rcases hl' with rfl | hl'
            · exact ⟨a + z, hnew⟩
            · exact hls l' hl'
          · simp only [addVolume, totalVolume, List.map_cons, List.sum_cons, hnew]
            simp only [ha, JSNum.toRat]
            push_cast
            ring
          · simp only [addVolume, volumeMagnitude, List.map_cons, List.sum_cons, hnew]
            simp only [ha, JSNum.toRat]
            have h3 : |((a + z : ℤ) : ℚ)| ≤ |(a : ℚ)| + |(z : ℚ)| := by
              push_cast
              exact abs_add _ _
            linarith
      | succ k =>
          have hk' : k < ls.length := by simpa using hk
          have hb' : volumeMagnitude ls + |(z : ℚ)| ≤ 2 ^ 53 := by
            rw [hmag] at hb
            have := abs_nonneg l.volume.toRat
            linarith
          obtain ⟨h1, h2, h3⟩ := ih k hls hk' hb'
          refine ⟨?_, ?_, ?_⟩
          · intro l' hl'
            simp only [addVolume, List.mem_cons] at hl'
            rcases hl' with rfl | hl'
            · exact hvp _ (List.mem_cons_self _ _)
            · exact h1 l' hl'
          · have : totalVolume (addVolume rnd (l :: ls) (k + 1) (JSNum.fin z)) =
                l.volume.toRat + totalVolume (addVolume rnd ls k (JSNum.fin z)) := by
              simp [addVolume, totalVolume]
            rw [this, h2, htot]
            ring
          · have : volumeMagnitude (addVolume rnd (l :: ls) (k + 1) (JSNum.fin z)) =
                |l.volume.toRat| + volumeMagnitude (addVolume rnd ls k (JSNum.fin z)) := by
              simp [addVolume, volumeMagnitude]
            rw [this, hmag]
            linarith

/-- With integer volumes whose magnitudes add up to at most `2 ^ 53`, every
addition of the loop is exact: the volumes of the levels stay integers and
their sum grows by the volume of every candle that is attributed to a bin. -/
theorem foldl_binCandle_exact (rnd : ℚ → JSNum) (hexact : RoundsIntegersExactly rnd)
    (minPrice levelSize : JSNum) (levels : Nat) (data : List Candle)
    (vp : List VolumeProfileLevel) (hlen : vp.length = levels)
    (hvp : ∀ l ∈ vp, ∃ a : ℤ, l.volume = JSNum.fin a)
    (hvol : ∀ c ∈ data, ∃ z : ℤ, c.volume = JSNum.fin z)
    (hb : volumeMagnitude vp + candleVolumeMagnitude data ≤ 2 ^ 53) :
    (∀ l ∈ data.foldl (binCandle rnd minPrice levelSize levels) vp,
      ∃ a : ℤ, l.volume = JSNum.fin a) ∧
    totalVolume (data.foldl (binCandle rnd minPrice levelSize levels) vp) =
      totalVolume vp + candleVolume (data.filter (fun c =>
        (binOf rnd minPrice levelSize levels c).isSome)) := by
  induction data generalizing vp with
  | nil => exact ⟨hvp, by simp [candleVolume]⟩
  | cons c cs ih =>
      have hcs : ∀ c' ∈ cs, ∃ z : ℤ, c'.volume = JSNum.fin z :=
        fun c' h' => hvol c' (List.mem_cons_of_mem _ h')
      have hmag : candleVolumeMagnitude (c :: cs) =
          |c.volume.toRat| + candleVolumeMagnitude cs := by
        simp [candleVolumeMagnitude]
      rw [List.foldl_cons, binCandle_eq]
      cases hbin : binOf rnd minPrice levelSize levels c with
      | none =>
          simp only []
          have hb' : volumeMagnitude vp + candleVolumeMagnitude cs ≤ 2 ^ 53 := by
            rw [hmag] at hb
            have := abs_nonneg c.volume.toRat
            linarith
          obtain ⟨h1, h2⟩ := ih vp hlen hvp hcs hb'
          refine ⟨h1, ?_⟩
          rw [h2]
          simp [List.filter_cons, hbin]
      | some k =>
          simp only []
          obtain ⟨z, hz⟩ := hvol c (List.mem_cons_self _ _)
          have hk : k < vp.length := by
            rw [hlen]
            exact binOf_lt _ _ _ _ _ _ hbin
          have hbz : volumeMagnitude vp + |(z : ℚ)| ≤ 2 ^ 53 := by
            rw [hmag, hz] at hb
            simp only [JSNum.toRat] at hb
            have := candleVolumeMagnitude_nonneg cs
            linarith
          rw [hz]
          obtain ⟨a1, a2, a3⟩ := addVolume_exact rnd hexact vp k z hvp hk hbz
          have hb' : volumeMagnitude (addVolume rnd vp k (JSNum.fin z)) +
              candleVolumeMagnitude cs ≤ 2 ^ 53 := by
            rw [hmag, hz] at hb
            simp only [JSNum.toRat] at hb
            linarith
          obtain ⟨h1, h2⟩ := ih _ (by rw [length_addVolume, hlen]) a1 hcs hb'
          refine ⟨h1, ?_⟩
          rw [h2, a2]
          simp [List.filter_cons, hbin, candleVolume, hz, JSNum.toRat]
          ring

theorem candleVolume_filter_not (data : List Candle) (p : Candle → Bool) :
    candleVolume (data.filter p) =
      candleVolume data - candleVolume (data.filter (fun c => !p c)) := by
  induction data with
  | nil => simp [candleVolume]
  | cons c cs ih =>
      simp only [candleVolume] at ih ⊢
      cases hp : p c
      · simp [List.filter_cons, hp, ih]
      · simp [List.filter_cons, hp, ih]
        ring

/-- The total volume of the profile when every addition is exact. -/
theorem calculateVolumeProfile_totalVolume_eq (rnd : ℚ → JSNum)
    (hexact : RoundsIntegersExactly rnd) (data : List Candle) (levels : Nat)
    (hvol : ∀ c ∈ data, ∃ z : ℤ, c.volume = JSNum.fin z)
    (hsum : candleVolumeMagnitude data ≤ 2 ^ 53) :
    (∀ l ∈ calculateVolumeProfile rnd data levels, l.volume.isFinite = true) ∧
    totalVolume (calculateVolumeProfile rnd data levels) =
      candleVolume data - candleVolume (data.filter (fun c =>
        !inRange levels
          (levelIndex rnd (profileMin data) (profileLevelSize rnd data levels) c))) := by
  rw [calculateVolumeProfile_eq]
  have hinit : ∀ l ∈ (List.range levels).map (fun (i : Nat) =>
      ({ price := (profileMin data).addR rnd
           ((JSNum.fin (i : ℚ)).mulR rnd (profileLevelSize rnd data levels)),
         volume := JSNum.fin 0 } : VolumeProfileLevel)),
      ∃ a : ℤ, l.volume = JSNum.fin a := by
    intro l hl
    obtain ⟨i, _, rfl⟩ := List.mem_map.1 hl
    exact ⟨0, by simp⟩
  have hmag0 : volumeMagnitude ((List.range levels).map (fun (i : Nat) =>
      ({ price := (profileMin data).addR rnd
           ((JSNum.fin (i : ℚ)).mulR rnd (profileLevelSize rnd data levels)),
         volume := JSNum.fin 0 } : VolumeProfileLevel))) = 0 := by
    unfold volumeMagnitude
    apply List.sum_eq_zero
    intro x hx
    simp only [List.map_map, List.mem_map, Function.comp] at hx
    obtain ⟨i, _, rfl⟩ := hx
    simp [JSNum.toRat]
  have htot0 : totalVolume ((List.range levels).map (fun (i : Nat) =>
      ({ price := (profileMin data).addR rnd
           ((JSNum.fin (i : ℚ)).mulR rnd (profileLevelSize rnd data levels)),
         volume := JSNum.fin 0 } : VolumeProfileLevel))) = 0 := by
    unfold totalVolume
    apply List.sum_eq_zero
    intro x hx
    simp only [List.map_map, List.mem_map, Function.comp] at hx
    obtain ⟨i, _, rfl⟩ := hx
    simp [JSNum.toRat]
  obtain ⟨h1, h2⟩ := foldl_binCandle_exact rnd hexact (profileMin data)
    (profileLevelSize rnd data levels) levels data _ (by simp) hinit hvol
    (by rw [hmag0, zero_add]; exact hsum)
  refine ⟨?_, ?_⟩
  · intro l hl
    obtain ⟨a, ha⟩ := h1 l hl
    rw [ha]
    rfl
  · rw [h2, htot0, zero_add, candleVolume_filter_not]
    congr 2
    apply List.filter_congr
    intro c _
    rw [binOf_isSome]

/-- Claim C2 (amended): for every candle sequence whose volumes are integers
with magnitudes adding up to at most `2 ^ 53` (so that every addition of
doubles is exact) and every level count, the volumes of the levels returned
by `calculateVolumeProfile` are finite and add up to the sum of the input
volumes minus the volumes of the candles whose bin index
`floor((close - minPrice) / levelSize)`, computed in doubles as the code
computes it, fails the test `0 <= index < levels`. -/
theorem calculateVolumeProfile_totalVolume (data : List Candle) (levels : Nat)
    (hvol : ∀ c ∈ data, ∃ z : ℤ, c.volume = JSNum.fin z)
    (hsum : candleVolumeMagnitude data ≤ 2 ^ 53) :
    (∀ l ∈ calculateVolumeProfile roundDouble data levels, l.volume.isFinite = true) ∧
    totalVolume (calculateVolumeProfile roundDouble data levels) =
      candleVolume data - candleVolume (data.filter (fun c =>
        !inRange levels
          (levelIndex roundDouble (profileMin data)
            (profileLevelSize roundDouble data levels) c))) :=
  calculateVolumeProfile_totalVolume_eq roundDouble roundDouble_exact data levels hvol hsum

/-! ### Examples with the rounding of doubles -/

/-- The sum `2 ^ 53 + 1` is a tie between two doubles and rounds to the even
one, `2 ^ 53`. -/
theorem roundDouble_tie : roundDouble 9007199254740993 = JSNum.fin 9007199254740992 := by
  have h := roundDouble_of_binade 9007199254740993 53 4503599627370496 (by norm_num)
    (by norm_num) (by norm_num)
    (roundHalfEven_tie_even _ 4503599627370496 (by norm_num) (by norm_num)) (by norm_num)
  rw [h]
  norm_num

/-- The double nearest to `23 / 30`. -/
theorem roundDouble_23_30 :
    roundDouble (23 / 30) = JSNum.fin (6905519428634761 / 9007199254740992) := by
  have h := roundDouble_of_binade (23 / 30) (-1) 6905519428634761 (by norm_num)
    (by norm_num) (by norm_num)
    (roundHalfEven_of_gt_half _ 6905519428634760 (by norm_num) (by norm_num)) (by norm_num)
  rw [h]
  norm_num

/-- The quotient of 23 by the double nearest to `23 / 30` rounds to the
double just below 30. -/
theorem roundDouble_23_div :
    roundDouble (23 / (6905519428634761 / 9007199254740992)) =
      JSNum.fin (8444249301319679 / 281474976710656) := by
  have h := roundDouble_of_binade (23 / (6905519428634761 / 9007199254740992)) 4
    8444249301319679 (by norm_num) (by norm_num) (by norm_num)
    (roundHalfEven_of_lt_half _ 8444249301319679 (by norm_num) (by norm_num)) (by norm_num)
  rw [h]
  norm_num

/-- The quotient of 11.5 by the double nearest to `23 / 30` rounds to the
double just below 15. -/
theorem roundDouble_half_23_div :
    roundDouble (23 / 2 / (6905519428634761 / 9007199254740992)) =
      JSNum.fin (8444249301319679 / 562949953421312) := by
  have h := roundDouble_of_binade (23 / 2 / (6905519428634761 / 9007199254740992)) 3
    8444249301319679 (by norm_num) (by norm_num) (by norm_num)
    (roundHalfEven_of_lt_half _ 8444249301319679 (by norm_num) (by norm_num)) (by norm_num)
  rw [h]
  norm_num

/-- The number 11.5 is a double. -/
theorem roundDouble_23_half : roundDouble (23 / 2) = JSNum.fin (23 / 2) := by
  have h := roundDouble_of_binade (23 / 2) 3 6473924464345088 (by norm_num)
    (by norm_num) (by norm_num)
    (roundHalfEven_of_lt_half _ 6473924464345088 (by norm_num) (by norm_num)) (by norm_num)
  rw [h]
  norm_num

theorem roundDouble_one : roundDouble 1 = JSNum.fin 1 := by
  simpa using roundDouble_natCast 1 (by norm_num)

theorem roundDouble_two : roundDouble 2 = JSNum.fin 2 := by
  simpa using roundDouble_natCast 2 (by norm_num)

theorem roundDouble_four : roundDouble 4 = JSNum.fin 4 := by
  simpa using roundDouble_natCast 4 (by norm_num)

theorem roundDouble_five : roundDouble 5 = JSNum.fin 5 := by
  simpa using roundDouble_natCast 5 (by norm_num)

theorem roundDouble_ten : roundDouble 10 = JSNum.fin 10 := by
  simpa using roundDouble_natCast 10 (by norm_num)

theorem roundDouble_twenty : roundDouble 20 = JSNum.fin 20 := by
  simpa using roundDouble_natCast 20 (by norm_num)

theorem roundDouble_23 : roundDouble 23 = JSNum.fin 23 := by
  simpa using roundDouble_natCast 23 (by norm_num)

theorem roundDouble_two_pow_53 :
    roundDouble 9007199254740992 = JSNum.fin 9007199254740992 := by
  simpa using roundDouble_natCast 9007199254740992 (by norm_num)

theorem sampleCandles_range :
    (profileMax sampleCandles).gt (profileMin sampleCandles) = true := by
  norm_num [sampleCandles, profileMax, profileMin, mathMax, mathMin, JSNum.max2, JSNum.min2,
    JSNum.isNaN, JSNum.lt, JSNum.gt]

/-- Claim C1 (amended), witness: three candles over the range from 0 to 10,
two levels, with the rounding of doubles. -/
theorem calculateVolumeProfile_spec_witness :
    (profileMax sampleCandles).gt (profileMin sampleCandles) = true ∧
    (((∃ c ∈ sampleCandles, c.low = profileMin sampleCandles) ∧
        ∀ c ∈ sampleCandles, (profileMin sampleCandles).le c.low = true) ∧
      ((∃ c ∈ sampleCandles, c.high = profileMax sampleCandles) ∧
        ∀ c ∈ sampleCandles, c.high.le (profileMax sampleCandles) = true) ∧
      (calculateVolumeProfile roundDouble sampleCandles 2).length = 2 ∧
      (∀ i, i < 2 →
        (calculateVolumeProfile roundDouble sampleCandles 2)[i]? = some
          { price := (profileMin sampleCandles).addR roundDouble
              ((JSNum.fin (i : ℚ)).mulR roundDouble
                (profileLevelSize roundDouble sampleCandles 2)),
            volume := jsSum roundDouble ((sampleCandles.filter (fun c =>
              decide (levelIndex roundDouble (profileMin sampleCandles)
                (profileLevelSize roundDouble sampleCandles 2) c =
                  JSNum.fin (i : ℚ)))).map (fun c => c.volume)) }) ∧
      List.Pairwise (fun a b => b.price.lt a.price = false)
        (calculateVolumeProfile roundDouble sampleCandles 2) ∧
      ((profileMin sampleCandles).isFinite = true →
        (profileLevelSize roundDouble sampleCandles 2).isFinite = true →
        List.Pairwise (fun a b => a.price.le b.price = true)
          (calculateVolumeProfile roundDouble sampleCandles 2))) :=
  ⟨sampleCandles_range, calculateVolumeProfile_spec sampleCandles 2 sampleCandles_range⟩

theorem largePriceCandles_min :
    profileMin largePriceCandles = JSNum.fin 9007199254740992 := by
  simp [largePriceCandles, profileMin, mathMin, JSNum.min2, JSNum.isNaN, JSNum.lt]

theorem largePriceCandles_levelSize (rnd : ℚ → JSNum) (h4 : rnd 4 = JSNum.fin 4)
    (h1 : rnd 1 = JSNum.fin 1) :
    profileLevelSize rnd largePriceCandles 4 = JSNum.fin 1 := by
  norm_num [largePriceCandles, profileLevelSize, profileMin, profileMax, mathMin, mathMax,
    JSNum.min2, JSNum.max2, JSNum.isNaN, JSNum.lt, JSNum.subR, JSNum.divR, JSNum.sub,
    JSNum.neg, JSNum.add, JSNum.div, JSNum.round, h4, h1]

/-- The first two prices of the profile of `largePriceCandles`, for a
rounding that takes `2 ^ 53 + 1` to `2 ^ 53`. -/
theorem largePriceCandles_prices (rnd : ℚ → JSNum) (h0 : rnd 0 = JSNum.fin 0)
    (h1 : rnd 1 = JSNum.fin 1) (h4 : rnd 4 = JSNum.fin 4)
    (hbig : rnd 9007199254740992 = JSNum.fin 9007199254740992)
    (htie : rnd 9007199254740993 = JSNum.fin 9007199254740992) :
    ((calculateVolumeProfile rnd largePriceCandles 4)[0]?).map (fun l => l.price) =
      some (JSNum.fin 9007199254740992) ∧
    ((calculateVolumeProfile rnd largePriceCandles 4)[1]?).map (fun l => l.price) =
      some (JSNum.fin 9007199254740992) := by
  constructor
  · rw [getElem?_calculateVolumeProfile _ _ _ _ (by norm_num), largePriceCandles_min,
      largePriceCandles_levelSize rnd h4 h1]
    norm_num [JSNum.addR, JSNum.mulR, JSNum.mul, JSNum.add, JSNum.round, h0, hbig]
  · rw [getElem?_calculateVolumeProfile _ _ _ _ (by norm_num), largePriceCandles_min,
      largePriceCandles_levelSize rnd h4 h1]
    norm_num [JSNum.addR, JSNum.mulR, JSNum.mul, JSNum.add, JSNum.round, h1, htie]

theorem infiniteHighCandles_min : profileMin infiniteHighCandles = JSNum.fin 0 := by
  simp [infiniteHighCandles, profileMin, mathMin, JSNum.min2, JSNum.isNaN, JSNum.lt]

theorem infiniteHighCandles_levelSize (rnd : ℚ → JSNum) :
    profileLevelSize rnd infiniteHighCandles 2 = JSNum.posInf := by
  norm_num [infiniteHighCandles, profileLevelSize, profileMin, profileMax, mathMin, mathMax,
    JSNum.min2, JSNum.max2, JSNum.isNaN, JSNum.lt, JSNum.subR, JSNum.divR, JSNum.sub,
    JSNum.neg, JSNum.add, JSNum.div, JSNum.round]

/-- The prices of the profile of `infiniteHighCandles`: no rounding is
involved. -/
theorem infiniteHighCandles_prices (rnd : ℚ → JSNum) :
    (calculateVolumeProfile rnd infiniteHighCandles 2).map (fun l => l.price) =
      [JSNum.nan, JSNum.posInf] := by
  apply List.ext_getElem?
  intro i
  rcases Nat.lt_or_ge i 2 with hi | hi
  · rw [List.getElem?_map, getElem?_calculateVolumeProfile _ _ _ _ hi,
      infiniteHighCandles_min, infiniteHighCandles_levelSize]
    interval_cases i <;>
      norm_num [JSNum.addR, JSNum.mulR, JSNum.mul, JSNum.add, JSNum.round]
  · rw [List.getElem?_eq_none (by simpa [length_calculateVolumeProfile] using hi),
      List.getElem?_eq_none (by simpa using hi)]

theorem largePriceCandles_range :
    (profileMax largePriceCandles).gt (profileMin largePriceCandles) = true := by
  norm_num [largePriceCandles, profileMax, profileMin, mathMax, mathMin, JSNum.max2,
    JSNum.min2, JSNum.isNaN, JSNum.lt, JSNum.gt]

theorem infiniteHighCandles_range :
    (profileMax infiniteHighCandles).gt (profileMin infiniteHighCandles) = true := by
  simp [infiniteHighCandles, profileMax, profileMin, mathMax, mathMin, JSNum.max2,
    JSNum.min2, JSNum.isNaN, JSNum.lt, JSNum.gt]

/-- Claim C1, counterexample: with a low of `2 ^ 53`, a high of `2 ^ 53 + 4`
and four levels the level size is 1 and the sum `2 ^ 53 + 1` rounds to
`2 ^ 53`, so entries 0 and 1 have the same price; with a high of `Infinity`
and two levels the prices are `NaN` and `Infinity`, which are in no order. -/
theorem calculateVolumeProfile_spec_counterexample :
    ((profileMax largePriceCandles).gt (profileMin largePriceCandles) = true ∧
      ((calculateVolumeProfile roundDouble largePriceCandles 4)[0]?).map (fun l => l.price) =
        some (JSNum.fin 9007199254740992) ∧
      ((calculateVolumeProfile roundDouble largePriceCandles 4)[1]?).map (fun l => l.price) =
        some (JSNum.fin 9007199254740992)) ∧
    ((profileMax infiniteHighCandles).gt (profileMin infiniteHighCandles) = true ∧
      (calculateVolumeProfile roundDouble infiniteHighCandles 2).map (fun l => l.price) =
        [JSNum.nan, JSNum.posInf] ∧
      JSNum.nan.le JSNum.posInf = false) :=
  ⟨⟨largePriceCandles_range,
      largePriceCandles_prices roundDouble roundDouble_zero roundDouble_one roundDouble_four
        roundDouble_two_pow_53 roundDouble_tie⟩,
    infiniteHighCandles_range, infiniteHighCandles_prices roundDouble, rfl⟩

/-! ### Total volume -/

theorem sampleCandles_integer : ∀ c ∈ sampleCandles, ∃ z : ℤ, c.volume = JSNum.fin z := by
  intro c hc
  simp only [sampleCandles, List.mem_cons, List.mem_singleton, List.not_mem_nil,
    or_false] at hc
  rcases hc with rfl | rfl | rfl
  · exact ⟨7, by norm_num⟩
  · exact ⟨3, by norm_num⟩
  · exact ⟨4, by norm_num⟩

theorem sampleCandles_magnitude : candleVolumeMagnitude sampleCandles ≤ 2 ^ 53 := by
  norm_num [candleVolumeMagnitude, sampleCandles, JSNum.toRat]

/-- Claim C2 (amended), witness: three candles with volumes 7, 3 and 4, two
levels, with the rounding of doubles. -/
theorem calculateVolumeProfile_totalVolume_witness :
    (∀ c ∈ sampleCandles, ∃ z : ℤ, c.volume = JSNum.fin z) ∧
    candleVolumeMagnitude sampleCandles ≤ 2 ^ 53 ∧
    ((∀ l ∈ calculateVolumeProfile roundDouble sampleCandles 2, l.volume.isFinite = true) ∧
      totalVolume (calculateVolumeProfile roundDouble sampleCandles 2) =
        candleVolume sampleCandles - candleVolume (sampleCandles.filter (fun c =>
          !inRange 2 (levelIndex roundDouble (profileMin sampleCandles)
            (profileLevelSize roundDouble sampleCandles 2) c)))) :=
  ⟨sampleCandles_integer, sampleCandles_magnitude,
    calculateVolumeProfile_totalVolume sampleCandles 2 sampleCandles_integer
      sampleCandles_magnitude⟩

theorem closeAboveHigh_integer : ∀ c ∈ closeAboveHigh, ∃ z : ℤ, c.volume = JSNum.fin z := by
  intro c hc
  simp only [closeAboveHigh, List.mem_singleton] at hc
  subst hc
  exact ⟨5, by norm_num⟩

theorem closeOnHigh_integer : ∀ c ∈ closeOnHigh, ∃ z : ℤ, c.volume = JSNum.fin z := by
  intro c hc
  simp only [closeOnHigh, List.mem_singleton] at hc
  subst hc
  exact ⟨5, by norm_num⟩

/-- The candle of `closeAboveHigh` has bin index 2 and fails the range test
of a single level: the profile holds no volume. -/
theorem closeAboveHigh_total (rnd : ℚ → JSNum) (hexact : RoundsIntegersExactly rnd) :
    totalVolume (calculateVolumeProfile rnd closeAboveHigh 1) = 0 := by
  have h2 : rnd 2 = JSNum.fin 2 := by simpa using hexact 2 (by norm_num)
  have h10 : rnd 10 = JSNum.fin 10 := by simpa using hexact 10 (by norm_num)
  have h20 : rnd 20 = JSNum.fin 20 := by simpa using hexact 20 (by norm_num)
  have hfl : ⌊(2 : ℚ)⌋ = 2 := by
    rw [Int.floor_eq_iff]
    constructor <;> norm_num
  rw [(calculateVolumeProfile_totalVolume_eq rnd hexact closeAboveHigh 1
    closeAboveHigh_integer (by norm_num [candleVolumeMagnitude, closeAboveHigh, JSNum.toRat])).2]
  norm_num [closeAboveHigh, candleVolume, List.filter, inRange, levelIndex, profileMin,
    profileMax, profileLevelSize, mathMin, mathMax, JSNum.min2, JSNum.max2, JSNum.isNaN,
    JSNum.lt, JSNum.ge, JSNum.subR, JSNum.divR, JSNum.sub, JSNum.neg, JSNum.add, JSNum.div,
    JSNum.round, JSNum.floor, JSNum.toRat, h2, h10, h20, hfl]

/-- The candle of `closeOnHigh` closes on the highest high, and its bin
index is 29 for a rounding that takes `23 / 30` up and the quotient of 23
by it down: the candle is counted in the last of 30 levels. -/
theorem closeOnHigh_total (rnd : ℚ → JSNum) (hexact : RoundsIntegersExactly rnd)
    (h1 : rnd (23 / 30) = JSNum.fin (6905519428634761 / 9007199254740992))
    (h2 : rnd (23 / (6905519428634761 / 9007199254740992)) =
      JSNum.fin (8444249301319679 / 281474976710656)) :
    totalVolume (calculateVolumeProfile rnd closeOnHigh 30) = 5 := by
  have h23 : rnd 23 = JSNum.fin 23 := by simpa using hexact 23 (by norm_num)
  have hfl : ⌊(8444249301319679 / 281474976710656 : ℚ)⌋ = 29 := by
    rw [Int.floor_eq_iff]
    constructor <;> norm_num
  have hmin : profileMin closeOnHigh = JSNum.fin 0 := by
    simp [closeOnHigh, profileMin, mathMin, JSNum.min2, JSNum.isNaN, JSNum.lt]
  have hsize : profileLevelSize rnd closeOnHigh 30 =
      JSNum.fin (6905519428634761 / 9007199254740992) := by
    have e : (JSNum.fin 23).divR rnd (JSNum.fin ((30 : ℕ) : ℚ)) =
        JSNum.fin (6905519428634761 / 9007199254740992) := by
      have : JSNum.div (JSNum.fin 23) (JSNum.fin ((30 : ℕ) : ℚ)) = JSNum.fin (23 / 30) := by
        norm_num [JSNum.div]
      rw [JSNum.divR, this]
      exact h1
    rw [← e]
    norm_num [closeOnHigh, profileLevelSize, profileMin, profileMax, mathMin, mathMax,
      JSNum.min2, JSNum.max2, JSNum.isNaN, JSNum.lt, JSNum.subR, JSNum.sub, JSNum.neg,
      JSNum.add, JSNum.round, h23]
  have hidx : ∀ c ∈ closeOnHigh, levelIndex rnd (profileMin closeOnHigh)
      (profileLevelSize rnd closeOnHigh 30) c = JSNum.fin 29 := by
    intro c hc
    simp only [closeOnHigh, List.mem_singleton] at hc
    subst hc
    rw [hmin, hsize]
    have e1 : (JSNum.fin 23).subR rnd (JSNum.fin 0) = JSNum.fin 23 := by
      norm_num [JSNum.subR, JSNum.sub, JSNum.neg, JSNum.add, JSNum.round, h23]
    have e2 : JSNum.div (JSNum.fin 23) (JSNum.fin (6905519428634761 / 9007199254740992)) =
        JSNum.fin (23 / (6905519428634761 / 9007199254740992)) := by
      have : (6905519428634761 / 9007199254740992 : ℚ) ≠ 0 := by norm_num
      simp only [JSNum.div, if_neg this]
    simp only [levelIndex, e1]
    rw [JSNum.divR, e2]
    simp only [JSNum.round, h2, JSNum.floor, hfl]
    norm_num
  rw [(calculateVolumeProfile_totalVolume_eq rnd hexact closeOnHigh 30
    closeOnHigh_integer (by norm_num [candleVolumeMagnitude, closeOnHigh, JSNum.toRat])).2]
  have hf : closeOnHigh.filter (fun c => !inRange 30 (levelIndex rnd (profileMin closeOnHigh)
      (profileLevelSize rnd closeOnHigh 30) c)) = [] := by
    rw [List.filter_eq_nil_iff]
    intro c hc
    rw [hidx c hc]
    norm_num [inRange, JSNum.ge, JSNum.lt]
  rw [hf]
  norm_num [candleVolume, closeOnHigh, JSNum.toRat]

/-- The candles of `largeVolumeCandles` all fall into the single level; for a
rounding that takes `2 ^ 53 + 1` to `2 ^ 53` the level holds `2 ^ 53`. -/
theorem largeVolumeCandles_total (rnd : ℚ → JSNum) (hexact : RoundsIntegersExactly rnd)
    (htie : rnd 9007199254740993 = JSNum.fin 9007199254740992) :
    totalVolume (calculateVolumeProfile rnd largeVolumeCandles 1) = 9007199254740992 := by
  have h0 : rnd 0 = JSNum.fin 0 := by simpa using hexact 0 (by norm_num)
  have h10 : rnd 10 = JSNum.fin 10 := by simpa using hexact 10 (by norm_num)
  have hbig : rnd 9007199254740992 = JSNum.fin 9007199254740992 := by
    simpa using hexact 9007199254740992 (by norm_num)
  have hfl : ⌊(0 : ℚ)⌋ = 0 := Int.floor_zero
  have hlist : calculateVolumeProfile rnd largeVolumeCandles 1 =
      [{ price := JSNum.fin 0, volume := JSNum.fin 9007199254740992 }] := by
    apply List.ext_getElem?
    intro i
    rcases Nat.lt_or_ge i 1 with hi | hi
    · have hi0 : i = 0 := by omega
      subst hi0
      rw [getElem?_calculateVolumeProfile _ _ _ _ (by norm_num)]
      norm_num [largeVolumeCandles, jsSum, List.filter, levelIndex, profileMin, profileMax,
        profileLevelSize, mathMin, mathMax, JSNum.min2, JSNum.max2, JSNum.isNaN, JSNum.lt,
        JSNum.subR, JSNum.divR, JSNum.addR, JSNum.mulR, JSNum.sub, JSNum.neg, JSNum.add,
        JSNum.mul, JSNum.div, JSNum.round, JSNum.floor, h0, h10, hbig, htie, hfl]
    · rw [List.getElem?_eq_none (by simpa [length_calculateVolumeProfile] using hi),
        List.getElem?_eq_none (by simpa using hi)]
  rw [hlist]
  norm_num [totalVolume, JSNum.toRat]

/-- A close in the middle of the range from 0 to 23 with 30 levels: the
quotient `11.5 / (23 / 30)` is 15 in exact arithmetic and
`14.999999999999998` in doubles. -/
theorem levelIndex_midRange (rnd : ℚ → JSNum)
    (h1 : rnd (23 / 2) = JSNum.fin (23 / 2))
    (h2 : rnd (23 / 2 / (6905519428634761 / 9007199254740992)) =
      JSNum.fin (8444249301319679 / 562949953421312)) (c : Candle)
    (hc : c.close = JSNum.fin (23 / 2)) :
    levelIndex rnd (JSNum.fin 0) (JSNum.fin (6905519428634761 / 9007199254740992)) c =
      JSNum.fin 14 := by
  have hfl : ⌊(8444249301319679 / 562949953421312 : ℚ)⌋ = 14 := by
    rw [Int.floor_eq_iff]
    constructor <;> norm_num
  have e1 : (JSNum.fin (23 / 2)).subR rnd (JSNum.fin 0) = JSNum.fin (23 / 2) := by
    norm_num [JSNum.subR, JSNum.sub, JSNum.neg, JSNum.add, JSNum.round, h1]
  have e2 : JSNum.div (JSNum.fin (23 / 2)) (JSNum.fin (6905519428634761 / 9007199254740992)) =
      JSNum.fin (23 / 2 / (6905519428634761 / 9007199254740992)) := by
    have : (6905519428634761 / 9007199254740992 : ℚ) ≠ 0 := by norm_num
    simp only [JSNum.div, if_neg this]
  simp only [levelIndex, hc, e1]
  rw [JSNum.divR, e2]
  simp only [JSNum.round, h2, JSNum.floor, hfl]
  norm_num

/-- In doubles a close of 11.5 between a low of 0 and a high of 23 falls
into level 14 of 30. -/
theorem levelIndex_midRange_double (c : Candle) (hc : c.close = JSNum.fin (23 / 2)) :
    levelIndex roundDouble (JSNum.fin 0) (JSNum.fin (6905519428634761 / 9007199254740992)) c =
      JSNum.fin 14 :=
  levelIndex_midRange roundDouble roundDouble_23_half roundDouble_half_23_div c hc

/-- Claim C2, counterexample: a candle that closes above the highest high
(close 20, high 10, one level) is left out although its close is not the
highest high, so the total is 0 where the claim gives 5; a candle that
closes on the highest high (23, 30 levels) is counted, in level 29, because
`23 / (23 / 30)` is `29.999999999999996` in doubles, so the total is 5
where the claim gives 0; and volumes `2 ^ 53`, 1, 1 of one level add up to
`2 ^ 53` in doubles where the claim gives `2 ^ 53 + 2`. -/
theorem calculateVolumeProfile_totalVolume_counterexample :
    (totalVolume (calculateVolumeProfile roundDouble closeAboveHigh 1) = 0 ∧
      candleVolume closeAboveHigh - candleVolume (closeAboveHigh.filter (fun c =>
        decide (c.close = profileMax closeAboveHigh))) = 5) ∧
    (totalVolume (calculateVolumeProfile roundDouble closeOnHigh 30) = 5 ∧
      candleVolume closeOnHigh - candleVolume (closeOnHigh.filter (fun c =>
        decide (c.close = profileMax closeOnHigh))) = 0) ∧
    (totalVolume (calculateVolumeProfile roundDouble largeVolumeCandles 1) =
        9007199254740992 ∧
      candleVolume largeVolumeCandles - candleVolume (largeVolumeCandles.filter (fun c =>
        decide (c.close = profileMax largeVolumeCandles))) = 9007199254740994) := by
  refine ⟨⟨closeAboveHigh_total roundDouble roundDouble_exact, ?_⟩,
    ⟨closeOnHigh_total roundDouble roundDouble_exact roundDouble_23_30 roundDouble_23_div, ?_⟩,
    ⟨largeVolumeCandles_total roundDouble roundDouble_exact roundDouble_tie, ?_⟩⟩
  · norm_num [closeAboveHigh, candleVolume, List.filter, profileMax, mathMax, JSNum.max2,
      JSNum.isNaN, JSNum.lt, JSNum.toRat]
  · norm_num [closeOnHigh, candleVolume, List.filter, profileMax, mathMax, JSNum.max2,
      JSNum.isNaN, JSNum.lt, JSNum.toRat]
  · norm_num [largeVolumeCandles, candleVolume, List.filter, profileMax, mathMax, JSNum.max2,
      JSNum.isNaN, JSNum.lt, JSNum.toRat]

/-! ### Zero price range -/

theorem mathMin_const (p : JSNum) (hp : p ≠ JSNum.nan) (xs : List JSNum) (hne : xs ≠ [])
    (h : ∀ x ∈ xs, x = p) : mathMin xs = p := by
  induction xs with
  | nil => exact absurd rfl hne
  | cons x xs ih =>
      have hx : x = p := h x (List.mem_cons_self _ _)
      subst hx
      cases xs with
      | nil => cases x <;> simp_all [mathMin, JSNum.min2, JSNum.isNaN, JSNum.lt]
      | cons y ys =>
          have := ih (by simp) (fun z hz => h z (List.mem_cons_of_mem _ hz))
          rw [mathMin, this]
          cases x <;> simp_all [JSNum.min2, JSNum.isNaN, JSNum.lt]

theorem mathMax_const (p : JSNum) (hp : p ≠ JSNum.nan) (xs : List JSNum) (hne : xs ≠ [])
    (h : ∀ x ∈ xs, x = p) : mathMax xs = p := by
  induction xs with
  | nil => exact absurd rfl hne
  | cons x xs ih =>
      have hx : x = p := h x (List.mem_cons_self _ _)
      subst hx
      cases xs with
      | nil => cases x <;> simp_all [mathMax, JSNum.max2, JSNum.isNaN, JSNum.lt]
      | cons y ys =>
          have := ih (by simp) (fun z hz => h z (List.mem_cons_of_mem _ hz))
          rw [mathMax, this]
          cases x <;> simp_all [JSNum.max2, JSNum.isNaN, JSNum.lt]

/-- With a level size of zero the bin index of every candle is `NaN` or an
infinity. -/
theorem levelIndex_zero (rnd : ℚ → JSNum) (m : JSNum) (c : Candle) :
    (levelIndex rnd m (JSNum.fin 0) c).isFinite = false := by
  unfold levelIndex JSNum.divR
  cases c.close.subR rnd m with
  | nan => rfl
  | negInf => simp [JSNum.div, JSNum.round, JSNum.floor, JSNum.isFinite]
  | posInf => simp [JSNum.div, JSNum.round, JSNum.floor, JSNum.isFinite]
  | fin a =>
      simp only [JSNum.div, if_true]
      split_ifs <;> rfl

theorem flat_profileMin (data : List Candle) (p : ℚ) (hne : data ≠ [])
    (hflat : ∀ c ∈ data, c.high = JSNum.fin p ∧ c.low = JSNum.fin p) :
    profileMin data = JSNum.fin p := by
  apply mathMin_const _ (by simp) _ (by simpa using hne)
  intro x hx
  obtain ⟨c, hc, rfl⟩ := List.mem_map.1 hx
  exact (hflat c hc).2

theorem flat_profileLevelSize (rnd : ℚ → JSNum) (hzero : rnd 0 = JSNum.fin 0)
    (data : List Candle) (levels : Nat) (p : ℚ) (hne : data ≠ [])
    (hflat : ∀ c ∈ data, c.high = JSNum.fin p ∧ c.low = JSNum.fin p) (hlevels : 1 ≤ levels) :
    profileLevelSize rnd data levels = JSNum.fin 0 := by
  have hmax : profileMax data = JSNum.fin p := by
    apply mathMax_const _ (by simp) _ (by simpa using hne)
    intro x hx
    obtain ⟨c, hc, rfl⟩ := List.mem_map.1 hx
    exact (hflat c hc).1
  have hl : ((levels : ℕ) : ℚ) ≠ 0 := by
    have : 0 < levels := hlevels
    exact_mod_cast this.ne'
  unfold profileLevelSize
  rw [hmax, flat_profileMin data p hne hflat]
  simp [JSNum.subR, JSNum.divR, JSNum.sub, JSNum.neg, JSNum.add, JSNum.div, JSNum.round, hzero,
    hl]

/-- With a price range of zero every level keeps the common price and the
volume 0. -/
theorem calculateVolumeProfile_flat_eq (rnd : ℚ → JSNum) (hzero : rnd 0 = JSNum.fin 0)
    (data : List Candle) (levels : Nat) (p : ℚ) (hp : rnd p = JSNum.fin p) (hne : data ≠ [])
    (hflat : ∀ c ∈ data, c.high = JSNum.fin p ∧ c.low = JSNum.fin p) (hlevels : 1 ≤ levels) :
    calculateVolumeProfile rnd data levels =
      List.replicate levels ({ price := JSNum.fin p, volume := JSNum.fin 0 } :
        VolumeProfileLevel) := by
  apply List.ext_getElem?
  intro i
  rcases Nat.lt_or_ge i levels with hi | hi
  · rw [getElem?_calculateVolumeProfile _ _ _ _ hi, flat_profileMin data p hne hflat,
      flat_profileLevelSize rnd hzero data levels p hne hflat hlevels,
      List.getElem?_replicate, if_pos hi]
    have hf : data.filter (fun c =>
        decide (levelIndex rnd (JSNum.fin p) (JSNum.fin 0) c = JSNum.fin (i : ℚ))) = [] := by
      rw [List.filter_eq_nil_iff]
      intro c _
      have := levelIndex_zero rnd (JSNum.fin p) c
      intro h
      rw [decide_eq_true_eq] at h
      rw [h] at this
      simp [JSNum.isFinite] at this
    rw [hf]
    simp [jsSum, JSNum.addR, JSNum.mulR, JSNum.mul, JSNum.add, JSNum.round, hzero, hp]
  · rw [List.getElem?_eq_none (by simpa [length_calculateVolumeProfile] using hi),
      List.getElem?_eq_none (by simpa using hi)]

/-- Claim C9 (amended): for a non-empty sequence of candles that all have the
same value `p` as high and as low, and at least one level, nothing is
special-cased: the level size is zero, the bin index of every candle is the
result of a division by zero (`NaN` or an infinity), no candle is attributed
to a bin, and every one of the `levels` entries has price `p` and volume 0.
The value `p` is a double (its rounding is itself), as every input is. -/
theorem calculateVolumeProfile_flat (data : List Candle) (levels : Nat) (p : ℚ)
    (hp : roundDouble p = JSNum.fin p) (hne : data ≠ [])
    (hflat : ∀ c ∈ data, c.high = JSNum.fin p ∧ c.low = JSNum.fin p)
    (hlevels : 1 ≤ levels) :
    (∀ c ∈ data, (levelIndex roundDouble (JSNum.fin p) (JSNum.fin 0) c).isFinite = false) ∧
    calculateVolumeProfile roundDouble data levels =
      List.replicate levels ({ price := JSNum.fin p, volume := JSNum.fin 0 } :
        VolumeProfileLevel) ∧
    profileMin data = JSNum.fin p ∧ profileLevelSize roundDouble data levels = JSNum.fin 0 :=
  ⟨fun c _ => levelIndex_zero roundDouble (JSNum.fin p) c,
    calculateVolumeProfile_flat_eq roundDouble roundDouble_zero data levels p hp hne hflat
      hlevels,
    flat_profileMin data p hne hflat,
    flat_profileLevelSize roundDouble roundDouble_zero data levels p hne hflat hlevels⟩

theorem flatCandles_flat :
    ∀ c ∈ flatCandles, c.high = JSNum.fin 5 ∧ c.low = JSNum.fin 5 := by
  simp [flatCandles]

/-- Claim C9, witness: two candles with high = low = close = 5, three levels,
with the rounding of doubles. -/
theorem calculateVolumeProfile_flat_witness :
    roundDouble 5 = JSNum.fin 5 ∧ flatCandles ≠ [] ∧
    (∀ c ∈ flatCandles, c.high = JSNum.fin 5 ∧ c.low = JSNum.fin 5) ∧ 1 ≤ 3 ∧
    ((∀ c ∈ flatCandles,
        (levelIndex roundDouble (JSNum.fin 5) (JSNum.fin 0) c).isFinite = false) ∧
      calculateVolumeProfile roundDouble flatCandles 3 =
        List.replicate 3 ({ price := JSNum.fin 5, volume := JSNum.fin 0 } :
          VolumeProfileLevel) ∧
      profileMin flatCandles = JSNum.fin 5 ∧
      profileLevelSize roundDouble flatCandles 3 = JSNum.fin 0) :=
  ⟨roundDouble_five, by simp [flatCandles], flatCandles_flat, by decide,
    calculateVolumeProfile_flat flatCandles 3 5 roundDouble_five
      (by simp [flatCandles]) flatCandles_flat (by decide)⟩

theorem flatCandles_index (rnd : ℚ → JSNum) (hzero : rnd 0 = JSNum.fin 0) :
    levelIndex rnd (JSNum.fin 5) (JSNum.fin 0)
      { date := "a", open_ := JSNum.fin 5, high := JSNum.fin 5, low := JSNum.fin 5,
        close := JSNum.fin 5, volume := JSNum.fin 7 } = JSNum.nan := by
  simp [levelIndex, JSNum.subR, JSNum.divR, JSNum.sub, JSNum.neg, JSNum.add, JSNum.div,
    JSNum.round, JSNum.floor, hzero]

/-- Claim C9, counterexample: on two candles with high = low = close = 5 and
volumes 7 and 2 the bin index is `0 / 0 = NaN`, and no level holds the sum 9
of the input volumes. -/
theorem calculateVolumeProfile_flat_counterexample :
    levelIndex roundDouble (JSNum.fin 5) (JSNum.fin 0)
        { date := "a", open_ := JSNum.fin 5, high := JSNum.fin 5, low := JSNum.fin 5,
          close := JSNum.fin 5, volume := JSNum.fin 7 } = JSNum.nan ∧
    candleVolume flatCandles = 9 ∧
    ¬ ∃ l ∈ calculateVolumeProfile roundDouble flatCandles 3, l.volume = JSNum.fin 9 := by
  refine ⟨flatCandles_index roundDouble roundDouble_zero, ?_, ?_⟩
  · norm_num [candleVolume, flatCandles, JSNum.toRat]
  · rw [calculateVolumeProfile_flat_eq roundDouble roundDouble_zero flatCandles 3 5
      roundDouble_five (by simp [flatCandles]) flatCandles_flat (by decide)]
    simp [List.replicate]

/-! ## The downsampler -/

theorem arrayFilter_index_append {α : Type} (p : Nat → Bool) (k : Nat) (xs ys : List α) :
    arrayFilter (fun _ j => p j) k (xs ++ ys) = arrayFilter (fun _ j => p j) k xs ++ arrayFilter (fun _ j => p j) (k + xs.length) ys := by
  induction xs generalizing k with
  | nil => simp [arrayFilter]
  | cons x xs ih =>
      have e : k + 1 + xs.length = k + (xs.length + 1) := by omega
      by_cases h : p k = true
      · simp [arrayFilter, h, ih, e]
      · simp [arrayFilter, h, ih, e]

theorem arrayFilter_index_eq_nil {α : Type} (p : Nat → Bool) (k : Nat) (xs : List α)
    (h : ∀ j, j < xs.length → p (k + j) = false) : arrayFilter (fun _ j => p j) k xs = [] := by
  induction xs generalizing k with
  | nil => rfl
  | cons x xs ih =>
      have h0 : p k = false := by simpa using h 0 (by simp)
      have h1 : ∀ j, j < xs.length → p (k + 1 + j) = false := by
        intro j hj
        have := h (j + 1) (by simpa using hj)
        rwa [show k + (j + 1) = k + 1 + j by omega] at this
      simp [arrayFilter, h0, ih (k + 1) h1]

theorem length_arrayFilter_le {α : Type} (p : α → Nat → Bool) (k : Nat) (xs : List α) :
    (arrayFilter p k xs).length ≤ xs.length := by
  induction xs generalizing k with
  | nil => simp [arrayFilter]
  | cons x xs ih =>
      by_cases h : p x k = true
      · simpa [arrayFilter, h] using ih (k + 1)
      · simp only [arrayFilter, h]
        exact le_trans (ih (k + 1)) (by simp)

theorem arrayFilter_sublist {α : Type} (p : α → Nat → Bool) (k : Nat) (xs : List α) :
    List.Sublist (arrayFilter p k xs) xs := by
  induction xs generalizing k with
  | nil => simp [arrayFilter]
  | cons x xs ih =>
      by_cases h : p x k = true
      · simpa [arrayFilter, h] using ih (k + 1)
      · simp only [arrayFilter, h]
        exact List.Sublist.cons x (ih (k + 1))

theorem arrayFilter_congr {α : Type} (p q : α → Nat → Bool) (k : Nat) (xs : List α)
    (h : ∀ j x, xs[j]? = some x → p x (k + j) = q x (k + j)) :
    arrayFilter p k xs = arrayFilter q k xs := by
  induction xs generalizing k with
  | nil => rfl
  | cons x xs ih =>
      have h0 : p x k = q x k := by simpa using h 0 x (by simp)
      have h1 : ∀ j y, xs[j]? = some y → p y (k + 1 + j) = q y (k + 1 + j) := by
        intro j y hj
        have := h (j + 1) y (by simpa using hj)
        rwa [show k + (j + 1) = k + 1 + j by omega] at this
      simp only [arrayFilter, h0, ih (k + 1) h1]

/-- Keeping the indices that are multiples of `s`, element `k` of the result
is element `k * s` of the input. -/
theorem getElem?_arrayFilter_mod {α : Type} (s : Nat) (hs : 1 ≤ s) (k m : Nat)
    (data : List α) :
    (arrayFilter (fun _ j => decide (j % s = 0)) (m * s) data)[k]? = data[k * s]? := by
  induction k generalizing m data with
  | zero =>
      cases data with
      | nil => simp [arrayFilter]
      | cons x rest => simp [arrayFilter]
  | succ k ih =>
      cases data with
      | nil => simp [arrayFilter]
      | cons x rest =>
          have hidx : (k + 1) * s = (s - 1 + k * s) + 1 := by
            rw [Nat.add_mul]; omega
          simp only [arrayFilter, Nat.mul_mod_left, decide_True, if_true,
            List.getElem?_cons_succ, hidx]
          conv_lhs => rw [← List.take_append_drop (s - 1) rest]
          rw [arrayFilter_index_append, arrayFilter_index_eq_nil, List.nil_append]
          · by_cases hlen : s - 1 ≤ rest.length
            · have e : m * s + 1 + (List.take (s - 1) rest).length = (m + 1) * s := by
                rw [List.length_take, Nat.min_eq_left hlen, Nat.add_mul]; omega
              rw [e, ih (m + 1) (List.drop (s - 1) rest), List.getElem?_drop]
            · have hd : List.drop (s - 1) rest = [] :=
                List.drop_eq_nil_of_le (by omega)
              rw [hd]
              simp only [arrayFilter, List.getElem?_nil]
              symm
              apply List.getElem?_eq_none
              omega
          · intro j hj
            have hj' : j < s - 1 := by
              rw [List.length_take] at hj
              exact lt_of_lt_of_le hj (Nat.min_le_left _ _)
            simp only [decide_eq_false_iff_not]
            have : (m * s + 1 + j) % s = 1 + j := by
              rw [Nat.add_assoc, Nat.mul_add_mod_of_lt (by omega)]
            omega

/-- The stride computed by `downsampleData` for a positive target length. -/
theorem step_eq (L t : Nat) (ht : 1 ≤ t) :
    (JSNum.div (JSNum.fin L) (JSNum.fin t)).ceil =
      JSNum.fin ((⌈(L : ℚ) / t⌉₊ : ℕ) : ℚ) := by
  have ht' : (t : ℚ) ≠ 0 := by
    have : 0 < t := ht
    exact_mod_cast this.ne'
  have hnn : (0 : ℚ) ≤ (L : ℚ) / t := by positivity
  simp only [JSNum.div, ht', if_false, JSNum.ceil]
  congr 1
  have := Int.natCast_ceil_eq_ceil hnn
  rw [← this]
  simp

/-- The test `index % step === 0` for a positive integer step. -/
theorem mod_test_eq (idx s : Nat) (hs : 1 ≤ s) :
    decide (JSNum.mod (JSNum.fin idx) (JSNum.fin s) = JSNum.fin 0) = decide (idx % s = 0) := by
  have hs' : (s : ℚ) ≠ 0 := by
    have : 0 < s := hs
    exact_mod_cast this.ne'
  have hnn : (0 : ℚ) ≤ (idx : ℚ) / s := by positivity
  have hval : (idx : ℚ) - s * ((truncQ ((idx : ℚ) / s) : ℤ) : ℚ) = ((idx % s : ℕ) : ℚ) := by
    simp only [truncQ, hnn, if_true, Rat.floor_natCast_div_natCast]
    have h := Nat.mod_add_div idx s
    have h' : ((idx % s : ℕ) : ℚ) + (s : ℚ) * ((idx / s : ℕ) : ℚ) = (idx : ℚ) := by
      exact_mod_cast h
    have h2 : ((((idx : ℤ) / (s : ℤ) : ℤ)) : ℚ) = ((idx / s : ℕ) : ℚ) := by norm_cast
    rw [h2]
    linarith
  simp only [JSNum.mod, hs', if_false, hval, JSNum.fin.injEq, decide_eq_decide]
  exact_mod_cast Iff.rfl

theorem stride_pos (L t : Nat) (hL : 1 ≤ L) (ht : 1 ≤ t) : 1 ≤ ⌈(L : ℚ) / t⌉₊ := by
  have hL' : (0 : ℚ) < L := by
    have : 0 < L := hL
    exact_mod_cast this
  have ht' : (0 : ℚ) < t := by
    have : 0 < t := ht
    exact_mod_cast this
  exact Nat.ceil_pos.2 (div_pos hL' ht')

/-- Element `k` of the downsampled sequence is element `k * stride` of the
input. -/
theorem getElem?_downsampleData {α : Type} (data : List α) (targetLength : Nat)
    (hL : 1 ≤ data.length) (ht : 1 ≤ targetLength) (k : Nat) :
    (downsampleData data targetLength)[k]? =
      data[k * ⌈(data.length : ℚ) / targetLength⌉₊]? := by
  have hs := stride_pos data.length targetLength hL ht
  unfold downsampleData
  simp only [step_eq data.length targetLength ht]
  have hp : (fun (_ : α) (index : Nat) => decide (JSNum.mod (JSNum.fin index)
      (JSNum.fin ((⌈(data.length : ℚ) / targetLength⌉₊ : ℕ) : ℚ)) = JSNum.fin 0)) =
      (fun _ j => decide (j % ⌈(data.length : ℚ) / targetLength⌉₊ = 0)) := by
    funext _ j
    exact mod_test_eq j _ hs
  rw [hp]
  have := getElem?_arrayFilter_mod ⌈(data.length : ℚ) / targetLength⌉₊ hs k 0 data
  simpa using this

theorem lt_ceil_div_iff (L s k : Nat) (hs : 1 ≤ s) :
    k < ⌈(L : ℚ) / s⌉₊ ↔ k * s < L := by
  have hs' : (0 : ℚ) < s := by
    have : 0 < s := hs
    exact_mod_cast this
  rw [Nat.lt_ceil, lt_div_iff₀ hs']
  exact_mod_cast Iff.rfl

theorem lt_length_downsampleData {α : Type} (data : List α) (targetLength : Nat)
    (hL : 1 ≤ data.length) (ht : 1 ≤ targetLength) (k : Nat) :
    k < (downsampleData data targetLength).length ↔
      k * ⌈(data.length : ℚ) / targetLength⌉₊ < data.length := by
  have h := getElem?_downsampleData data targetLength hL ht k
  constructor
  · intro hk
    by_contra hn
    rw [List.getElem?_eq_getElem hk, List.getElem?_eq_none (by omega)] at h
    exact Option.some_ne_none _ h
  · intro hk
    by_contra hn
    rw [List.getElem?_eq_getElem hk, List.getElem?_eq_none (by omega)] at h
    exact Option.some_ne_none _ h.symm

/-- Claim C3: for a sequence of length `L ≥ 1` and a target length of at least
one, `downsampleData` returns exactly the elements at the indices
`0, s, 2s, ...` below `L`, in that order, where `s = ceil(L / targetLength)`:
element `k` of the result is element `k * s` of the input, the result has
`ceil(L / s)` elements (the `k` with `k * s < L`), its first element is
`data[0]`, and it is a subsequence of the input. -/
theorem downsampleData_spec {α : Type} (data : List α) (targetLength : Nat)
    (hL : 1 ≤ data.length) (ht : 1 ≤ targetLength) :
    (∀ k, (downsampleData data targetLength)[k]? =
      data[k * ⌈(data.length : ℚ) / targetLength⌉₊]?) ∧
    (∀ k, k < ⌈(data.length : ℚ) / ⌈(data.length : ℚ) / targetLength⌉₊⌉₊ ↔
      k * ⌈(data.length : ℚ) / targetLength⌉₊ < data.length) ∧
    (downsampleData data targetLength).length =
      ⌈(data.length : ℚ) / ⌈(data.length : ℚ) / targetLength⌉₊⌉₊ ∧
    (downsampleData data targetLength).head? = data.head? ∧
    List.Sublist (downsampleData data targetLength) data := by
  have hs := stride_pos data.length targetLength hL ht
  have hidx := getElem?_downsampleData data targetLength hL ht
  have hcount := fun k =>
    lt_ceil_div_iff data.length ⌈(data.length : ℚ) / targetLength⌉₊ k hs
  refine ⟨hidx, hcount, ?_, ?_, ?_⟩
  · apply le_antisymm
    · by_contra hn
      rw [not_le] at hn
      have h1 := (lt_length_downsampleData data targetLength hL ht _).1 hn
      have h2 := (hcount _).2 h1
      exact lt_irrefl _ h2
    · by_contra hn
      rw [not_le] at hn
      have h1 := (hcount _).1 hn
      have h2 := (lt_length_downsampleData data targetLength hL ht _).2 h1
      exact lt_irrefl _ h2
  · have h0 := hidx 0
    rw [Nat.zero_mul] at h0
    rw [List.head?_eq_getElem?, List.head?_eq_getElem?, h0]
  · exact arrayFilter_sublist _ _ _

/-- Claim C3, witness: seven items and a target length of three. -/
theorem downsampleData_spec_witness :
    (∀ k, (downsampleData sevenItems 3)[k]? =
      sevenItems[k * ⌈(sevenItems.length : ℚ) / (3 : ℕ)⌉₊]?) ∧
    (∀ k, k < ⌈(sevenItems.length : ℚ) / ⌈(sevenItems.length : ℚ) / (3 : ℕ)⌉₊⌉₊ ↔
      k * ⌈(sevenItems.length : ℚ) / (3 : ℕ)⌉₊ < sevenItems.length) ∧
    (downsampleData sevenItems 3).length =
      ⌈(sevenItems.length : ℚ) / ⌈(sevenItems.length : ℚ) / (3 : ℕ)⌉₊⌉₊ ∧
    (downsampleData sevenItems 3).head? = sevenItems.head? ∧
    List.Sublist (downsampleData sevenItems 3) sevenItems :=
  downsampleData_spec sevenItems 3 (by decide) (by decide)

/-- Claim C4: for a sequence of any length and a target length of at least
one, `downsampleData` returns at most `targetLength + 1` elements. -/
theorem downsampleData_length_le {α : Type} (data : List α) (targetLength : Nat)
    (ht : 1 ≤ targetLength) :
    (downsampleData data targetLength).length ≤ targetLength + 1 := by
  by_cases hL : 1 ≤ data.length
  · by_contra hn
    rw [not_le] at hn
    have hlt : targetLength < (downsampleData data targetLength).length := by omega
    have h1 := (lt_length_downsampleData data targetLength hL ht _).1 hlt
    have ht' : (0 : ℚ) < targetLength := by
      have : 0 < targetLength := ht
      exact_mod_cast this
    have h2 : (data.length : ℚ) / targetLength ≤ ⌈(data.length : ℚ) / targetLength⌉₊ :=
      Nat.le_ceil _
    rw [div_le_iff₀ ht'] at h2
    have h3 : data.length ≤ ⌈(data.length : ℚ) / targetLength⌉₊ * targetLength := by
      exact_mod_cast h2
    rw [Nat.mul_comm] at h3
    omega
  · have := length_arrayFilter_le
      (fun (_ : α) (index : Nat) => decide (JSNum.mod (JSNum.fin index)
        ((JSNum.div (JSNum.fin data.length) (JSNum.fin targetLength)).ceil) = JSNum.fin 0))
      0 data
    unfold downsampleData
    simp only []
    omega

/-- Claim C4, witness: seven numbers and a target length of three. -/
theorem downsampleData_length_le_witness :
    (downsampleData [10, 20, 30, 40, 50, 60, 70] 3).length ≤ 3 + 1 :=
  downsampleData_length_le [10, 20, 30, 40, 50, 60, 70] 3 (by decide)

/-! ## The support and resistance detector -/

theorem getElem?_slice {α : Type} (xs : List α) (a b n : Nat) :
    (slice xs a b)[n]? = if a + n < b then xs[a + n]? else none := by
  unfold slice
  rw [List.getElem?_drop, List.getElem?_take]

theorem mem_slice {α : Type} (xs : List α) (a b : Nat) (x : α) :
    x ∈ slice xs a b ↔ ∃ j, a ≤ j ∧ j < b ∧ xs[j]? = some x := by
  rw [List.mem_iff_getElem?]
  constructor
  · rintro ⟨n, hn⟩
    rw [getElem?_slice] at hn
    by_cases h : a + n < b
    · rw [if_pos h] at hn
      exact ⟨a + n, by omega, h, hn⟩
    · rw [if_neg h] at hn
      exact absurd hn (by simp)
  · rintro ⟨j, haj, hjb, hj⟩
    refine ⟨j - a, ?_⟩
    rw [getElem?_slice]
    have e : a + (j - a) = j := by omega
    rw [e, if_pos hjb, hj]

/-- The closes of a slice are the closes at the indices of the slice. -/
theorem mem_slice_close (data : List Candle) (a b : Nat) (x : JSNum) :
    x ∈ (slice data a b).map (fun d => d.close) ↔
      ∃ j d, a ≤ j ∧ j < b ∧ data[j]? = some d ∧ d.close = x := by
  rw [List.mem_map]
  constructor
  · rintro ⟨d, hd, rfl⟩
    obtain ⟨j, h1, h2, h3⟩ := (mem_slice data a b d).1 hd
    exact ⟨j, d, h1, h2, h3, rfl⟩
  · rintro ⟨j, d, h1, h2, h3, rfl⟩
    exact ⟨d, (mem_slice data a b d).2 ⟨j, h1, h2, h3⟩, rfl⟩

/-- The test of the loop for a support: the close is strictly below every
close of both windows, and below `Infinity`, the minimum of an empty
window. -/
theorem support_test_iff (data : List Candle) (periods i : Nat) (c : Candle) :
    ((mathMin ((slice data (i + 1) (i + periods + 1)).map (fun d => d.close))).gt c.close &&
      (mathMin ((slice data (i - periods) i).map (fun d => d.close))).gt c.close) = true ↔
      IsSupportAt data periods i c ∧ c.close.lt JSNum.posInf = true := by
  rw [Bool.and_eq_true, mathMin_gt_iff, mathMin_gt_iff]
  unfold IsSupportAt
  constructor
  · rintro ⟨⟨hr, hinf⟩, hl, _⟩
    refine ⟨⟨fun j d h1 h2 h3 => hl _ ((mem_slice_close _ _ _ _).2 ⟨j, d, h1, h2, h3, rfl⟩),
      fun j d h1 h2 h3 =>
        hr _ ((mem_slice_close _ _ _ _).2 ⟨j, d, by omega, by omega, h3, rfl⟩)⟩, hinf⟩
  · rintro ⟨⟨hl, hr⟩, hinf⟩
    refine ⟨⟨fun x hx => ?_, hinf⟩, fun x hx => ?_, hinf⟩
    · obtain ⟨j, d, h1, h2, h3, rfl⟩ := (mem_slice_close _ _ _ _).1 hx
      exact hr j d (by omega) (by omega) h3
    · obtain ⟨j, d, h1, h2, h3, rfl⟩ := (mem_slice_close _ _ _ _).1 hx
      exact hl j d h1 h2 h3

/-- The test of the loop for a resistance: the close is strictly above
every close of both windows, and above `-Infinity`, the maximum of an empty
window. -/
theorem resistance_test_iff (data : List Candle) (periods i : Nat) (c : Candle) :
    ((mathMax ((slice data (i + 1) (i + periods + 1)).map (fun d => d.close))).lt c.close &&
      (mathMax ((slice data (i - periods) i).map (fun d => d.close))).lt c.close) = true ↔
      IsResistanceAt data periods i c ∧ JSNum.negInf.lt c.close = true := by
  rw [Bool.and_eq_true, mathMax_lt_iff, mathMax_lt_iff]
  unfold IsResistanceAt
  constructor
  · rintro ⟨⟨hr, hinf⟩, hl, _⟩
    refine ⟨⟨fun j d h1 h2 h3 => hl _ ((mem_slice_close _ _ _ _).2 ⟨j, d, h1, h2, h3, rfl⟩),
      fun j d h1 h2 h3 =>
        hr _ ((mem_slice_close _ _ _ _).2 ⟨j, d, by omega, by omega, h3, rfl⟩)⟩, hinf⟩
  · rintro ⟨⟨hl, hr⟩, hinf⟩
    refine ⟨⟨fun x hx => ?_, hinf⟩, fun x hx => ?_, hinf⟩
    · obtain ⟨j, d, h1, h2, h3, rfl⟩ := (mem_slice_close _ _ _ _).1 hx
      exact hr j d (by omega) (by omega) h3
    · obtain ⟨j, d, h1, h2, h3, rfl⟩ := (mem_slice_close _ _ _ _).1 hx
      exact hl j d h1 h2 h3

/-- A level pushed at index `i` carries the close of the candle at `i`, and
its type is justified by the corresponding test. -/
theorem mem_levelsAt (data : List Candle) (periods i : Nat) (lvl : SupportResistanceLevel) :
    lvl ∈ levelsAt data periods i ↔
      ∃ c, data[i]? = some c ∧ lvl.price = c.close ∧
        ((lvl.type = LevelType.support ∧
            IsSupportAt data periods i c ∧ c.close.lt JSNum.posInf = true) ∨
         (lvl.type = LevelType.resistance ∧
            IsResistanceAt data periods i c ∧ JSNum.negInf.lt c.close = true)) := by
  unfold levelsAt
  cases hc : data[i]? with
  | none => simp
  | some c =>
      simp only [List.mem_append, Option.some.injEq, exists_eq_left']
      rw [← support_test_iff, ← resistance_test_iff]
      constructor
      · rintro (h | h)
        · split at h
          · rename_i ht
            rw [List.mem_singleton] at h
            subst h
            exact ⟨rfl, Or.inl ⟨rfl, ht⟩⟩
          · simp at h
        · split at h
          · rename_i ht
            rw [List.mem_singleton] at h
            subst h
            exact ⟨rfl, Or.inr ⟨rfl, ht⟩⟩
          · simp at h
      · rintro ⟨hp, (⟨ht, h⟩ | ⟨ht, h⟩)⟩
        · left
          rw [if_pos h, List.mem_singleton]
          cases lvl
          simp_all
        · right
          rw [if_pos h, List.mem_singleton]
          cases lvl
          simp_all

theorem mem_loopIndices (data : List Candle) (periods i : Nat) :
    i ∈ loopIndices data periods ↔ periods ≤ i ∧ i + periods < data.length := by
  unfold loopIndices
  rw [List.mem_range'_1]
  omega

/-- Every collected level was pushed at an index visited by the loop. -/
theorem mem_collectLevels (data : List Candle) (periods : Nat) (lvl : SupportResistanceLevel) :
    lvl ∈ collectLevels data periods ↔
      ∃ i, (periods ≤ i ∧ i + periods < data.length) ∧ lvl ∈ levelsAt data periods i := by
  unfold collectLevels
  rw [List.mem_flatMap]
  constructor
  · rintro ⟨i, hi, h⟩
    exact ⟨i, (mem_loopIndices data periods i).1 hi, h⟩
  · rintro ⟨i, hi, h⟩
    exact ⟨i, (mem_loopIndices data periods i).2 hi, h⟩

theorem defaultThreshold_eq (rnd : ℚ → JSNum) : defaultThreshold rnd = rnd (1 / 100) := rfl

/-- The double written `0.01` is positive. -/
theorem defaultThreshold_pos (rnd : ℚ → JSNum)
    (h : rnd (1 / 100) = JSNum.fin (5764607523034235 / 576460752303423488)) :
    (JSNum.fin 0).lt (defaultThreshold rnd) = true := by
  rw [defaultThreshold_eq, h]
  norm_num [JSNum.lt]

/-- The double written `0.01`. -/
theorem roundDouble_hundredth :
    roundDouble (1 / 100) = JSNum.fin (5764607523034235 / 576460752303423488) := by
  have h := roundDouble_of_binade (1 / 100) (-7) 5764607523034235 (by norm_num)
    (by norm_num) (by norm_num)
    (roundHalfEven_of_gt_half _ 5764607523034234 (by norm_num) (by norm_num)) (by norm_num)
  rw [h]
  norm_num

/-- The levels collected on the closes 1, 2, 3, 2, 1 with a window of one. -/
theorem smallPeak_collected :
    collectLevels smallPeak 1 = [{ price := JSNum.fin 3, type := LevelType.resistance }] := by
  norm_num [collectLevels, loopIndices, levelsAt, slice, mathMin, mathMax, JSNum.min2,
    JSNum.max2, JSNum.isNaN, JSNum.gt, JSNum.lt, smallPeak, candlesWithCloses, candleWithClose,
    List.range']

/-- A level of finite non-zero price passes its own proximity test when the
threshold is positive. -/
theorem closeTo_self (rnd : ℚ → JSNum) (hzero : rnd 0 = JSNum.fin 0) (threshold : JSNum)
    (hthr : (JSNum.fin 0).lt threshold = true) (level : SupportResistanceLevel) (p : ℚ)
    (hp : level.price = JSNum.fin p) (hne : p ≠ 0) :
    closeTo rnd threshold level level = true := by
  unfold closeTo
  rw [hp]
  simp [JSNum.subR, JSNum.divR, JSNum.sub, JSNum.neg, JSNum.add, JSNum.abs, JSNum.div,
    JSNum.round, hzero, hne, hthr]

/-- The detector keeps a single collected level of finite non-zero price. -/
theorem filter_single (rnd : ℚ → JSNum) (hzero : rnd 0 = JSNum.fin 0) (threshold : JSNum)
    (hthr : (JSNum.fin 0).lt threshold = true) (level : SupportResistanceLevel) (p : ℚ)
    (hp : level.price = JSNum.fin p) (hne : p ≠ 0) :
    arrayFilter (fun l index =>
      decide (some index = findIndex (closeTo rnd threshold l) [level])) 0 [level] =
      [level] := by
  simp [arrayFilter, findIndex, closeTo_self rnd hzero threshold hthr level p hp hne]

/-- The detector on the closes 1, 2, 3, 2, 1 with a window of one. -/
theorem smallPeak_result (rnd : ℚ → JSNum) (hzero : rnd 0 = JSNum.fin 0) (threshold : JSNum)
    (hthr : (JSNum.fin 0).lt threshold = true) :
    calculateSupportResistance rnd smallPeak 1 threshold =
      [{ price := JSNum.fin 3, type := LevelType.resistance }] := by
  unfold calculateSupportResistance
  rw [smallPeak_collected]
  exact filter_single rnd hzero threshold hthr _ 3 rfl (by norm_num)

/-- Claim C5: for every window (in particular of at least one period) and
every threshold, every level returned by `calculateSupportResistance` has the
close of some index `i` with `periods ≤ i < length - periods` as its price; a
support is strictly below all `periods` closes before `i` and all `periods`
closes after `i`, a resistance is strictly above all of them. -/
theorem calculateSupportResistance_levels (rnd : ℚ → JSNum) (data : List Candle)
    (periods : Nat) (threshold : JSNum) (lvl : SupportResistanceLevel)
    (hlvl : lvl ∈ calculateSupportResistance rnd data periods threshold) :
    ∃ i c, periods ≤ i ∧ i + periods < data.length ∧ data[i]? = some c ∧
      lvl.price = c.close ∧
      (lvl.type = LevelType.support → IsSupportAt data periods i c) ∧
      (lvl.type = LevelType.resistance → IsResistanceAt data periods i c) := by
  have hmem : lvl ∈ collectLevels data periods :=
    (arrayFilter_sublist _ _ _).subset hlvl
  obtain ⟨i, ⟨h1, h2⟩, hi⟩ := (mem_collectLevels data periods lvl).1 hmem
  obtain ⟨c, hc, hprice, hkind⟩ := (mem_levelsAt data periods i lvl).1 hi
  refine ⟨i, c, h1, h2, hc, hprice, ?_, ?_⟩
  · intro ht
    rcases hkind with ⟨_, h, _⟩ | ⟨ht', _⟩
    · exact h
    · rw [ht] at ht'; exact absurd ht' (by decide)
  · intro ht
    rcases hkind with ⟨ht', _⟩ | ⟨_, h, _⟩
    · rw [ht] at ht'; exact absurd ht' (by decide)
    · exact h

/-- Claim C5, witness: the resistance found on the closes 1, 2, 3, 2, 1 with
a window of one and the default threshold, in doubles. -/
theorem calculateSupportResistance_levels_witness :
    ({ price := JSNum.fin 3, type := LevelType.resistance } : SupportResistanceLevel) ∈
      calculateSupportResistance roundDouble smallPeak 1 (defaultThreshold roundDouble) ∧
    ∃ i c, 1 ≤ i ∧ i + 1 < smallPeak.length ∧ smallPeak[i]? = some c ∧
      ({ price := JSNum.fin 3, type := LevelType.resistance } :
        SupportResistanceLevel).price = c.close ∧
      (({ price := JSNum.fin 3, type := LevelType.resistance } :
        SupportResistanceLevel).type = LevelType.support → IsSupportAt smallPeak 1 i c) ∧
      (({ price := JSNum.fin 3, type := LevelType.resistance } :
        SupportResistanceLevel).type = LevelType.resistance →
          IsResistanceAt smallPeak 1 i c) :=
  have h : ({ price := JSNum.fin 3, type := LevelType.resistance } :
      SupportResistanceLevel) ∈
      calculateSupportResistance roundDouble smallPeak 1 (defaultThreshold roundDouble) := by
    rw [smallPeak_result roundDouble roundDouble_zero _
      (defaultThreshold_pos roundDouble roundDouble_hundredth)]
    exact List.mem_singleton.2 rfl
  ⟨h, calculateSupportResistance_levels roundDouble smallPeak 1 (defaultThreshold roundDouble)
    { price := JSNum.fin 3, type := LevelType.resistance } h⟩

theorem jsLt_negInf_of_lt (a b : JSNum) (h : a.lt b = true) : JSNum.negInf.lt b = true := by
  cases a <;> cases b <;> simp_all [JSNum.lt]

theorem jsLt_posInf_of_lt (a b : JSNum) (h : a.lt b = true) : a.lt JSNum.posInf = true := by
  cases a <;> cases b <;> simp_all [JSNum.lt]

/-- Claim C8 (amended): for a window of at least one period, no index
visited by the loop pushes both a support level and a resistance level. -/
theorem levelsAt_not_both (data : List Candle) (periods i : Nat) (hperiods : 1 ≤ periods)
    (hi : i ∈ loopIndices data periods) (p q : JSNum) :
    ¬ (({ price := p, type := LevelType.support } : SupportResistanceLevel) ∈
          levelsAt data periods i ∧
       ({ price := q, type := LevelType.resistance } : SupportResistanceLevel) ∈
          levelsAt data periods i) := by
  rintro ⟨hs, hr⟩
  obtain ⟨h1, h2⟩ := (mem_loopIndices data periods i).1 hi
  obtain ⟨c, hc, _, hk⟩ := (mem_levelsAt data periods i _).1 hs
  obtain ⟨c', hc', _, hk'⟩ := (mem_levelsAt data periods i _).1 hr
  rw [hc] at hc'
  obtain rfl : c = c' := Option.some.inj hc'
  have hsup : IsSupportAt data periods i c := by
    rcases hk with ⟨_, h, _⟩ | ⟨ht, _⟩
    · exact h
    · exact absurd ht (by simp)
  have hres : IsResistanceAt data periods i c := by
    rcases hk' with ⟨ht, _⟩ | ⟨_, h, _⟩
    · exact absurd ht (by simp)
    · exact h
  have hlt : i - 1 < data.length := by omega
  have hd : data[i - 1]? = some data[i - 1] := List.getElem?_eq_getElem hlt
  have a := hsup.1 (i - 1) _ (by omega) (by omega) hd
  have b := hres.1 (i - 1) _ (by omega) (by omega) hd
  rw [jsLt_asymm _ _ a] at b
  exact absurd b (by simp)

/-- Claim C8, witness: index 2 of the closes 1, 2, 3, 2, 1 with a window of one. -/
theorem levelsAt_not_both_witness :
    1 ≤ 1 ∧ 2 ∈ loopIndices smallPeak 1 ∧
    ¬ (({ price := JSNum.fin 3, type := LevelType.support } : SupportResistanceLevel) ∈
          levelsAt smallPeak 1 2 ∧
       ({ price := JSNum.fin 3, type := LevelType.resistance } : SupportResistanceLevel) ∈
          levelsAt smallPeak 1 2) :=
  ⟨by decide, by simp [loopIndices, smallPeak, candlesWithCloses],
    levelsAt_not_both smallPeak 1 2 (by decide)
      (by simp [loopIndices, smallPeak, candlesWithCloses]) (JSNum.fin 3) (JSNum.fin 3)⟩

/-- Claim C8, counterexample: with `periods = 0` both windows are empty,
`Math.min()` is `+Infinity` and `Math.max()` is `-Infinity`, and the single
index of a one-candle sequence pushes a support and a resistance. -/
theorem levelsAt_both_counterexample :
    0 ∈ loopIndices [candleWithClose (JSNum.fin 1)] 0 ∧
    ({ price := JSNum.fin 1, type := LevelType.support } : SupportResistanceLevel) ∈
      levelsAt [candleWithClose (JSNum.fin 1)] 0 0 ∧
    ({ price := JSNum.fin 1, type := LevelType.resistance } : SupportResistanceLevel) ∈
      levelsAt [candleWithClose (JSNum.fin 1)] 0 0 := by
  refine ⟨by simp [loopIndices], ?_, ?_⟩ <;>
    simp [levelsAt, slice, mathMin, mathMax, JSNum.gt, JSNum.lt, candleWithClose]

theorem flatMap_range'_single {β : Type} (f : Nat → List β) (s n k : Nat)
    (hsk : s ≤ k) (hkn : k < s + n)
    (h : ∀ i, s ≤ i → i < s + n → i ≠ k → f i = []) :
    (List.range' s n).flatMap f = f k := by
  have e1 : List.range' s n = List.range' s (k - s) ++ List.range' k (n - (k - s)) := by
    have := List.range'_append_1 s (k - s) (n - (k - s))
    rw [show s + (k - s) = k by omega, show n - (k - s) + (k - s) = n by omega] at this
    exact this.symm
  have e2 : List.range' k (n - (k - s)) = k :: List.range' (k + 1) (n - (k - s) - 1) := by
    have := List.range'_succ k (n - (k - s) - 1) 1
    rwa [show n - (k - s) - 1 + 1 = n - (k - s) by omega] at this
  rw [e1, e2, List.flatMap_append, List.flatMap_cons]
  have h1 : (List.range' s (k - s)).flatMap f = [] := by
    rw [List.flatMap_eq_nil_iff]
    intro i hi
    rw [List.mem_range'_1] at hi
    exact h i hi.1 (by omega) (by omega)
  have h2 : (List.range' (k + 1) (n - (k - s) - 1)).flatMap f = [] := by
    rw [List.flatMap_eq_nil_iff]
    intro i hi
    rw [List.mem_range'_1] at hi
    exact h i (by omega) (by omega) (by omega)
  rw [h1, h2]
  simp

theorem jsLt_absurd (a b : JSNum) (h1 : a.lt b = true) (h2 : b.lt a = true) : False := by
  rw [jsLt_asymm _ _ h1] at h2
  exact absurd h2 (by simp)

/-- On a single peak at index `k` reached by the loop, the loop collects the
peak as a resistance and nothing else. -/
theorem collectLevels_single_peak (data : List Candle) (periods k : Nat) (peak : Candle)
    (hperiods : 1 ≤ periods) (hk : data[k]? = some peak)
    (hleft : periods ≤ k) (hright : k + periods < data.length)
    (hinc : ∀ i j ci cj, i < j → j ≤ k → data[i]? = some ci → data[j]? = some cj →
      ci.close.lt cj.close = true)
    (hdec : ∀ i j ci cj, k ≤ i → i < j → data[i]? = some ci → data[j]? = some cj →
      cj.close.lt ci.close = true) :
    collectLevels data periods = [{ price := peak.close, type := LevelType.resistance }] := by
  unfold collectLevels loopIndices
  rw [flatMap_range'_single (levelsAt data periods) periods _ k hleft (by omega)]
  · -- the peak itself
    have hlt : k - 1 < data.length := by omega
    have hd : data[k - 1]? = some data[k - 1] := List.getElem?_eq_getElem hlt
    have hbelow := hinc (k - 1) k _ _ (by omega) (le_refl k) hd hk
    have hsup : ¬ (IsSupportAt data periods k peak ∧ peak.close.lt JSNum.posInf = true) := by
      rintro ⟨h, _⟩
      exact jsLt_absurd _ _ (h.1 (k - 1) _ (by omega) (by omega) hd) hbelow
    have hres : IsResistanceAt data periods k peak ∧ JSNum.negInf.lt peak.close = true :=
      ⟨⟨fun j d _ h2 h3 => hinc j k d peak h2 (le_refl k) h3 hk,
        fun j d h1 _ h3 => hdec k j peak d (le_refl k) h1 hk h3⟩,
        jsLt_negInf_of_lt _ _ hbelow⟩
    have hs := support_test_iff data periods k peak
    have hr := (resistance_test_iff data periods k peak).2 hres
    unfold levelsAt
    simp only [hk]
    rw [if_neg (fun h => hsup (hs.1 h)), if_pos hr]
    rfl
  · -- every other index
    intro i h1 h2 hik
    have hi2 : i + periods < data.length := by omega
    apply List.eq_nil_iff_forall_not_mem.2
    intro lvl hl
    obtain ⟨c, hc, _, hkind⟩ := (mem_levelsAt data periods i lvl).1 hl
    have hprev : data[i - 1]? = some data[i - 1] :=
      List.getElem?_eq_getElem (by omega : i - 1 < data.length)
    have hnext : data[i + 1]? = some data[i + 1] :=
      List.getElem?_eq_getElem (by omega : i + 1 < data.length)
    rcases Nat.lt_or_gt_of_ne hik with hlt | hgt
    · rcases hkind with ⟨_, h, _⟩ | ⟨_, h, _⟩
      · have a := h.1 (i - 1) _ (by omega) (by omega) hprev
        have b := hinc (i - 1) i _ _ (by omega) (by omega) hprev hc
        exact jsLt_absurd _ _ a b
      · have a := h.2 (i + 1) _ (by omega) (by omega) hnext
        have b := hinc i (i + 1) _ _ (by omega) (by omega) hc hnext
        exact jsLt_absurd _ _ a b
    · rcases hkind with ⟨_, h, _⟩ | ⟨_, h, _⟩
      · have a := h.2 (i + 1) _ (by omega) (by omega) hnext
        have b := hdec i (i + 1) _ _ (by omega) (by omega) hc hnext
        exact jsLt_absurd _ _ a b
      · have a := h.1 (i - 1) _ (by omega) (by omega) hprev
        have b := hdec (i - 1) i _ _ (by omega) (by omega) hprev hc
        exact jsLt_absurd _ _ a b

/-- A single peak for any rounding that is exact at zero and gives a positive
threshold: the detector returns the resistance at the peak and nothing
else. -/
theorem calculateSupportResistance_single_peak_of_rounding (rnd : ℚ → JSNum)
    (hzero : rnd 0 = JSNum.fin 0)
    (hthr : (JSNum.fin 0).lt (defaultThreshold rnd) = true)
    (data : List Candle) (k : Nat) (peak : Candle) (p : ℚ)
    (hk : data[k]? = some peak) (hp : peak.close = JSNum.fin p) (hne : p ≠ 0)
    (hleft : defaultPeriods ≤ k) (hright : k + defaultPeriods < data.length)
    (hinc : ∀ i j ci cj, i < j → j ≤ k → data[i]? = some ci → data[j]? = some cj →
      ci.close.lt cj.close = true)
    (hdec : ∀ i j ci cj, k ≤ i → i < j → data[i]? = some ci → data[j]? = some cj →
      cj.close.lt ci.close = true) :
    calculateSupportResistance rnd data defaultPeriods (defaultThreshold rnd) =
      [{ price := peak.close, type := LevelType.resistance }] := by
  unfold calculateSupportResistance
  rw [collectLevels_single_peak data defaultPeriods k peak (by decide) hk hleft hright hinc hdec]
  exact filter_single rnd hzero _ hthr _ p hp hne

/-- Claim C6 (amended): when the closes rise strictly up to a peak index that
has at least 14 candles on each side, fall strictly after it, and the close
at the peak is finite and not zero, `calculateSupportResistance` with the
default `periods` and `threshold`, computing in doubles, returns exactly one
level, the resistance at the close of the peak, and no support. -/
theorem calculateSupportResistance_single_peak (data : List Candle) (k : Nat)
    (peak : Candle) (p : ℚ)
    (hk : data[k]? = some peak) (hp : peak.close = JSNum.fin p) (hne : p ≠ 0)
    (hleft : defaultPeriods ≤ k) (hright : k + defaultPeriods < data.length)
    (hinc : ∀ i j ci cj, i < j → j ≤ k → data[i]? = some ci → data[j]? = some cj →
      ci.close.lt cj.close = true)
    (hdec : ∀ i j ci cj, k ≤ i → i < j → data[i]? = some ci → data[j]? = some cj →
      cj.close.lt ci.close = true) :
    calculateSupportResistance roundDouble data defaultPeriods (defaultThreshold roundDouble) =
      [{ price := peak.close, type := LevelType.resistance }] :=
  calculateSupportResistance_single_peak_of_rounding roundDouble roundDouble_zero
    (defaultThreshold_pos roundDouble roundDouble_hundredth) data k peak p hk hp hne hleft
    hright hinc hdec

/-- The close at each index of a peak sequence. -/
theorem peakCandles_close (base : ℚ) (top : JSNum) (i : Nat) (c : Candle)
    (h : (peakCandles base top)[i]? = some c) :
    i < 29 ∧ c.close = if i < 14 then JSNum.fin (base + (i : ℚ) + 1)
      else if i = 14 then top else JSNum.fin (base + 29 - (i : ℚ)) := by
  unfold peakCandles at h
  rw [List.getElem?_map] at h
  by_cases hi : i < 29
  · rw [List.getElem?_range hi] at h
    simp only [Option.map_some', Option.some.injEq] at h
    subst h
    exact ⟨hi, rfl⟩
  · rw [List.getElem?_eq_none (by simpa using hi)] at h
    simp at h

theorem peakCandles_top (base : ℚ) (top : JSNum) :
    (peakCandles base top)[14]? = some (candleWithClose top) := by
  unfold peakCandles
  rw [List.getElem?_map, List.getElem?_range (by norm_num)]
  simp

theorem jsLt_of_fin_le (a b : ℚ) (t : JSNum) (hab : a ≤ b) (h : (JSNum.fin b).lt t = true) :
    (JSNum.fin a).lt t = true := by
  cases t <;> simp_all [JSNum.lt]
  exact lt_of_le_of_lt hab h

/-- The closes of a peak sequence rise strictly up to index 14. -/
theorem peakCandles_inc (base : ℚ) (top : JSNum)
    (htop : (JSNum.fin (base + 14)).lt top = true) :
    ∀ i j ci cj, i < j → j ≤ 14 → (peakCandles base top)[i]? = some ci →
      (peakCandles base top)[j]? = some cj → ci.close.lt cj.close = true := by
  intro i j ci cj hij hjk hi hj
  obtain ⟨_, hci⟩ := peakCandles_close base top i ci hi
  obtain ⟨_, hcj⟩ := peakCandles_close base top j cj hj
  rw [hci, hcj, if_pos (by omega)]
  have h1 : (i : ℚ) < j := by exact_mod_cast hij
  have h2 : (j : ℚ) ≤ 14 := by exact_mod_cast hjk
  by_cases hj14 : j < 14
  · rw [if_pos hj14]
    simp only [JSNum.lt, decide_eq_true_eq]
    linarith
  · rw [if_neg hj14, if_pos (by omega)]
    have h3 : ((i : ℚ)) + 1 ≤ 14 := by
      have : i + 1 ≤ 14 := by omega
      exact_mod_cast this
    exact jsLt_of_fin_le _ _ _ (by linarith) htop

/-- The closes of a peak sequence fall strictly from index 14 on. -/
theorem peakCandles_dec (base : ℚ) (top : JSNum)
    (htop : (JSNum.fin (base + 14)).lt top = true) :
    ∀ i j ci cj, 14 ≤ i → i < j → (peakCandles base top)[i]? = some ci →
      (peakCandles base top)[j]? = some cj → cj.close.lt ci.close = true := by
  intro i j ci cj hki hij hi hj
  obtain ⟨_, hci⟩ := peakCandles_close base top i ci hi
  obtain ⟨hj29, hcj⟩ := peakCandles_close base top j cj hj
  rw [hci, hcj, if_neg (by omega), if_neg (by omega), if_neg (by omega)]
  have h1 : (i : ℚ) < j := by exact_mod_cast hij
  have h2 : (14 : ℚ) ≤ i := by exact_mod_cast hki
  by_cases hi14 : i = 14
  · rw [if_pos hi14]
    subst hi14
    have h3 : (15 : ℚ) ≤ j := by
      have : 15 ≤ j := by omega
      exact_mod_cast this
    exact jsLt_of_fin_le _ _ _ (by linarith) htop
  · rw [if_neg hi14]
    simp only [JSNum.lt, decide_eq_true_eq]
    linarith

/-- The loop collects the top of a peak sequence as its only level. -/
theorem peakCandles_collected (base : ℚ) (top : JSNum)
    (htop : (JSNum.fin (base + 14)).lt top = true) :
    collectLevels (peakCandles base top) defaultPeriods =
      [{ price := top, type := LevelType.resistance }] :=
  collectLevels_single_peak (peakCandles base top) defaultPeriods 14 (candleWithClose top)
    (by decide) (peakCandles_top base top) (by decide) (by simp [peakCandles, defaultPeriods])
    (peakCandles_inc base top htop) (peakCandles_dec base top htop)

/-- Claim C6 (amended), witness: twenty-nine closes rising from 1 to 15 and
falling back to 1, in doubles. -/
theorem calculateSupportResistance_single_peak_witness :
    longPeak[14]? = some (candleWithClose (JSNum.fin 15)) ∧
    (candleWithClose (JSNum.fin 15)).close = JSNum.fin 15 ∧
    calculateSupportResistance roundDouble longPeak defaultPeriods
        (defaultThreshold roundDouble) =
      [{ price := (candleWithClose (JSNum.fin 15)).close, type := LevelType.resistance }] :=
  ⟨peakCandles_top 0 (JSNum.fin 15), rfl,
    calculateSupportResistance_single_peak longPeak 14
      (candleWithClose (JSNum.fin 15)) 15 (peakCandles_top 0 (JSNum.fin 15)) rfl (by norm_num)
      (by decide) (by simp [longPeak, peakCandles, defaultPeriods])
      (peakCandles_inc 0 (JSNum.fin 15) (by norm_num [JSNum.lt]))
      (peakCandles_dec 0 (JSNum.fin 15) (by norm_num [JSNum.lt]))⟩

/-- A lone level whose price is `Infinity` fails its own proximity test,
`|Infinity - Infinity| / Infinity` being `NaN`, and is removed. -/
theorem filter_single_infinite (rnd : ℚ → JSNum) (threshold : JSNum) (type : LevelType) :
    arrayFilter (fun l index =>
      decide (some index = findIndex (closeTo rnd threshold l)
        [{ price := JSNum.posInf, type := type }])) 0
      [({ price := JSNum.posInf, type := type } : SupportResistanceLevel)] = [] := by
  simp [arrayFilter, findIndex, closeTo, JSNum.subR, JSNum.divR, JSNum.sub, JSNum.neg,
    JSNum.add, JSNum.abs, JSNum.div, JSNum.round, JSNum.lt]

/-- A lone level whose price is zero fails its own proximity test, `0 / 0`
being `NaN`, and is removed. -/
theorem filter_single_zero (rnd : ℚ → JSNum) (hzero : rnd 0 = JSNum.fin 0)
    (threshold : JSNum) (type : LevelType) :
    arrayFilter (fun l index =>
      decide (some index = findIndex (closeTo rnd threshold l)
        [{ price := JSNum.fin 0, type := type }])) 0
      [({ price := JSNum.fin 0, type := type } : SupportResistanceLevel)] = [] := by
  simp [arrayFilter, findIndex, closeTo, JSNum.subR, JSNum.divR, JSNum.sub, JSNum.neg,
    JSNum.add, JSNum.abs, JSNum.div, JSNum.round, JSNum.lt, hzero]

theorem infinitePeak_result (rnd : ℚ → JSNum) (threshold : JSNum) :
    calculateSupportResistance rnd infinitePeak defaultPeriods threshold = [] := by
  unfold calculateSupportResistance
  rw [show collectLevels infinitePeak defaultPeriods =
    [{ price := JSNum.posInf, type := LevelType.resistance }] from
      peakCandles_collected 0 JSNum.posInf rfl]
  exact filter_single_infinite rnd threshold _

theorem zeroPeak_result (rnd : ℚ → JSNum) (hzero : rnd 0 = JSNum.fin 0) (threshold : JSNum) :
    calculateSupportResistance rnd zeroPeak defaultPeriods threshold = [] := by
  unfold calculateSupportResistance
  rw [show collectLevels zeroPeak defaultPeriods =
    [{ price := JSNum.fin 0, type := LevelType.resistance }] from
      peakCandles_collected (-15) (JSNum.fin 0) (by norm_num [JSNum.lt])]
  exact filter_single_zero rnd hzero threshold _

theorem shortPeak_result (rnd : ℚ → JSNum) (threshold : JSNum) :
    calculateSupportResistance rnd shortPeak defaultPeriods threshold = [] := by
  simp [calculateSupportResistance, collectLevels, loopIndices, shortPeak, candlesWithCloses,
    defaultPeriods, arrayFilter]

/-- Claim C6, counterexample: the closes 1, 2, 1 rise strictly to the peak at
index 1 and fall strictly after it, but the loop from `periods = 14` visits
no index and no level is returned; on closes that rise to a peak of
`Infinity` with 14 candles on each side the resistance is collected and then
removed by the filter, and so is a peak of 0 above negative closes. -/
theorem calculateSupportResistance_single_peak_counterexample :
    (shortPeak.map (fun c => c.close) = [JSNum.fin 1, JSNum.fin 2, JSNum.fin 1] ∧
      calculateSupportResistance roundDouble shortPeak defaultPeriods
        (defaultThreshold roundDouble) = []) ∧
    (collectLevels infinitePeak defaultPeriods =
        [{ price := JSNum.posInf, type := LevelType.resistance }] ∧
      calculateSupportResistance roundDouble infinitePeak defaultPeriods
        (defaultThreshold roundDouble) = []) ∧
    (collectLevels zeroPeak defaultPeriods =
        [{ price := JSNum.fin 0, type := LevelType.resistance }] ∧
      calculateSupportResistance roundDouble zeroPeak defaultPeriods
        (defaultThreshold roundDouble) = []) :=
  ⟨⟨by simp [shortPeak, candlesWithCloses, candleWithClose], shortPeak_result roundDouble _⟩,
    ⟨peakCandles_collected 0 JSNum.posInf rfl, infinitePeak_result roundDouble _⟩,
    ⟨peakCandles_collected (-15) (JSNum.fin 0) (by norm_num [JSNum.lt]),
      zeroPeak_result roundDouble roundDouble_zero _⟩⟩

/-- The method `findIndex` returns `i` exactly when element `i` satisfies the
predicate and no earlier element does. -/
theorem findIndex_eq_some_iff {α : Type} (p : α → Bool) (xs : List α) (i : Nat) :
    findIndex p xs = some i ↔
      (∃ x, xs[i]? = some x ∧ p x = true) ∧ ∀ t ∈ xs.take i, p t = false := by
  induction xs generalizing i with
  | nil => simp [findIndex]
  | cons y ys ih =>
      by_cases hy : p y = true
      · cases i with
        | zero => simp [findIndex, hy]
        | succ n =>
            simp only [findIndex, hy, if_true, List.take_succ_cons, List.mem_cons]
            constructor
            · intro h; simp at h
            · rintro ⟨_, h⟩
              have := h y (Or.inl rfl)
              rw [hy] at this
              exact absurd this (by simp)
      · have hy' : p y = false := by simpa using hy
        cases i with
        | zero => simp [findIndex, hy']
        | succ n =>
            simp only [findIndex, hy', Bool.false_eq_true, if_false, Option.map_eq_some',
              List.getElem?_cons_succ, List.take_succ_cons, List.mem_cons]
            constructor
            · rintro ⟨m, hm, hmn⟩
              have hmn' : m = n := by omega
              subst hmn'
              obtain ⟨hx, ht⟩ := (ih m).1 hm
              refine ⟨hx, ?_⟩
              rintro t (rfl | ht')
              · exact hy'
              · exact ht t ht'
            · rintro ⟨hx, ht⟩
              exact ⟨n, (ih n).2 ⟨hx, fun t ht' => ht t (Or.inr ht')⟩, rfl⟩

theorem collectLevels_price (data : List Candle) (periods : Nat)
    (lvl : SupportResistanceLevel) (h : lvl ∈ collectLevels data periods) :
    ∃ c ∈ data, lvl.price = c.close := by
  obtain ⟨i, _, hi⟩ := (mem_collectLevels data periods lvl).1 h
  obtain ⟨c, hc, hprice, _⟩ := (mem_levelsAt data periods i lvl).1 hi
  exact ⟨c, List.getElem?_mem hc, hprice⟩

/-- The final filter on finite closes: when every close is finite and not
zero and the threshold is positive, the output of
`calculateSupportResistance` is, in collection order, exactly the collected
levels for which no level collected earlier passes the proximity test
`|t.price - level.price| / level.price < threshold`, computed in doubles
with the price of the level under test as the divisor. -/
theorem calculateSupportResistance_keepFirst (rnd : ℚ → JSNum) (hzero : rnd 0 = JSNum.fin 0)
    (data : List Candle) (periods : Nat) (threshold : JSNum)
    (hfin : ∀ c ∈ data, ∃ q : ℚ, q ≠ 0 ∧ c.close = JSNum.fin q)
    (hthr : (JSNum.fin 0).lt threshold = true) :
    calculateSupportResistance rnd data periods threshold =
      keepFirstOfCluster rnd threshold (collectLevels data periods) := by
  unfold calculateSupportResistance keepFirstOfCluster
  apply arrayFilter_congr
  intro j x hx
  obtain ⟨c, hc, hprice⟩ := collectLevels_price data periods x (List.getElem?_mem hx)
  obtain ⟨q, hq, hcq⟩ := hfin c hc
  have hself : closeTo rnd threshold x x = true :=
    closeTo_self rnd hzero threshold hthr x q (by rw [hprice, hcq]) hq
  rw [Nat.zero_add]
  rw [Bool.eq_iff_iff, decide_eq_true_eq, List.all_eq_true]
  constructor
  · intro h t ht
    have := ((findIndex_eq_some_iff _ _ _).1 h.symm).2 t ht
    simpa using this
  · intro h
    symm
    apply (findIndex_eq_some_iff _ _ _).2
    refine ⟨⟨x, hx, hself⟩, fun t ht => ?_⟩
    simpa using h t ht

/-- The levels collected on the closes 1, 129, 1, 128, 1 with a window of
one. -/
theorem nearbyPeaks_collected :
    collectLevels nearbyPeaks 1 =
      [{ price := JSNum.fin 129, type := LevelType.resistance },
       { price := JSNum.fin 1, type := LevelType.support },
       { price := JSNum.fin 128, type := LevelType.resistance }] := by
  norm_num [collectLevels, loopIndices, levelsAt, slice, mathMin, mathMax, JSNum.min2,
    JSNum.max2, JSNum.isNaN, JSNum.gt, JSNum.lt, nearbyPeaks, candlesWithCloses,
    candleWithClose, List.range']

/-- The levels collected on the closes 1, 101, 1, 100, 1 with a window of
one. -/
theorem borderlinePeaks_collected :
    collectLevels borderlinePeaks 1 =
      [{ price := JSNum.fin 101, type := LevelType.resistance },
       { price := JSNum.fin 1, type := LevelType.support },
       { price := JSNum.fin 100, type := LevelType.resistance }] := by
  norm_num [collectLevels, loopIndices, levelsAt, slice, mathMin, mathMax, JSNum.min2,
    JSNum.max2, JSNum.isNaN, JSNum.gt, JSNum.lt, borderlinePeaks, candlesWithCloses,
    candleWithClose, List.range']

/-- The resistance at 128 is within one percent of the resistance at 129
collected before it, and is removed. -/
theorem nearbyPeaks_result (rnd : ℚ → JSNum) (hexact : RoundsIntegersExactly rnd)
    (h128 : rnd (1 / 128) = JSNum.fin (1 / 128))
    (hthr : rnd (1 / 100) = JSNum.fin (5764607523034235 / 576460752303423488)) :
    calculateSupportResistance rnd nearbyPeaks 1 (defaultThreshold rnd) =
      [{ price := JSNum.fin 129, type := LevelType.resistance },
       { price := JSNum.fin 1, type := LevelType.support }] := by
  have h0 : rnd 0 = JSNum.fin 0 := by simpa using hexact 0 (by norm_num)
  have h1 : rnd 1 = JSNum.fin 1 := by simpa using hexact 1 (by norm_num)
  have ha : rnd 128 = JSNum.fin 128 := by simpa using hexact 128 (by norm_num)
  unfold calculateSupportResistance
  rw [nearbyPeaks_collected, defaultThreshold_eq, hthr]
  norm_num [arrayFilter, findIndex, closeTo, JSNum.subR, JSNum.divR, JSNum.sub, JSNum.neg,
    JSNum.add, JSNum.abs, JSNum.div, JSNum.round, JSNum.lt, h0, h1, ha, h128]

/-- The resistance at 100 is kept after the resistance at 101: in doubles
`1 / 100` is the threshold `0.01` itself and not below it. -/
theorem borderlinePeaks_result (rnd : ℚ → JSNum) (hexact : RoundsIntegersExactly rnd)
    (h99 : rnd (99 / 100) = JSNum.fin (4458563631096791 / 4503599627370496))
    (hthr : rnd (1 / 100) = JSNum.fin (5764607523034235 / 576460752303423488)) :
    calculateSupportResistance rnd borderlinePeaks 1 (defaultThreshold rnd) =
      [{ price := JSNum.fin 101, type := LevelType.resistance },
       { price := JSNum.fin 1, type := LevelType.support },
       { price := JSNum.fin 100, type := LevelType.resistance }] := by
  have h0 : rnd 0 = JSNum.fin 0 := by simpa using hexact 0 (by norm_num)
  have h1 : rnd 1 = JSNum.fin 1 := by simpa using hexact 1 (by norm_num)
  have ha : rnd 100 = JSNum.fin 100 := by simpa using hexact 100 (by norm_num)
  have hb : rnd (-99) = JSNum.fin (-99) := by simpa using hexact (-99) (by norm_num)
  unfold calculateSupportResistance
  rw [borderlinePeaks_collected, defaultThreshold_eq, hthr]
  norm_num [arrayFilter, findIndex, closeTo, JSNum.subR, JSNum.divR, JSNum.sub, JSNum.neg,
    JSNum.add, JSNum.abs, JSNum.div, JSNum.round, JSNum.lt, h0, h1, ha, hb, h99, hthr]

/-- The number `1 / 128` is a double. -/
theorem roundDouble_128th : roundDouble (1 / 128) = JSNum.fin (1 / 128) := by
  have h := roundDouble_of_binade (1 / 128) (-7) 4503599627370496 (by norm_num)
    (by norm_num) (by norm_num)
    (roundHalfEven_of_lt_half _ 4503599627370496 (by norm_num) (by norm_num)) (by norm_num)
  rw [h]
  norm_num

/-- The double written `0.99`. -/
theorem roundDouble_99_100 :
    roundDouble (99 / 100) = JSNum.fin (4458563631096791 / 4503599627370496) := by
  have h := roundDouble_of_binade (99 / 100) (-1) 8917127262193582 (by norm_num)
    (by norm_num) (by norm_num)
    (roundHalfEven_of_lt_half _ 8917127262193582 (by norm_num) (by norm_num)) (by norm_num)
  rw [h]
  norm_num

theorem nearbyPeaks_nonzero :
    ∀ c ∈ nearbyPeaks, ∃ q : ℚ, q ≠ 0 ∧ c.close = JSNum.fin q := by
  intro c hc
  simp only [nearbyPeaks, candlesWithCloses, List.map_cons, List.map_nil, List.mem_cons,
    List.mem_singleton, List.not_mem_nil, or_false] at hc
  rcases hc with rfl | rfl | rfl | rfl | rfl
  · exact ⟨1, by norm_num, rfl⟩
  · exact ⟨129, by norm_num, rfl⟩
  · exact ⟨1, by norm_num, rfl⟩
  · exact ⟨128, by norm_num, rfl⟩
  · exact ⟨1, by norm_num, rfl⟩

/-- The filter at work in doubles: of the levels 129, 1, 128 collected on the
closes 1, 129, 1, 128, 1 the last is removed, and the result is the list of
the first levels of the clusters. -/
theorem nearbyPeaks_keepFirst :
    calculateSupportResistance roundDouble nearbyPeaks 1 (defaultThreshold roundDouble) =
      [{ price := JSNum.fin 129, type := LevelType.resistance },
       { price := JSNum.fin 1, type := LevelType.support }] ∧
    calculateSupportResistance roundDouble nearbyPeaks 1 (defaultThreshold roundDouble) =
      keepFirstOfCluster roundDouble (defaultThreshold roundDouble)
        (collectLevels nearbyPeaks 1) :=
  ⟨nearbyPeaks_result roundDouble roundDouble_exact roundDouble_128th roundDouble_hundredth,
    calculateSupportResistance_keepFirst roundDouble roundDouble_zero nearbyPeaks 1 _
      nearbyPeaks_nonzero (defaultThreshold_pos roundDouble roundDouble_hundredth)⟩

/-- In doubles the detector keeps the level 100 after the level 101. -/
theorem borderlinePeaks_double :
    calculateSupportResistance roundDouble borderlinePeaks 1 (defaultThreshold roundDouble) =
      [{ price := JSNum.fin 101, type := LevelType.resistance },
       { price := JSNum.fin 1, type := LevelType.support },
       { price := JSNum.fin 100, type := LevelType.resistance }] :=
  borderlinePeaks_result roundDouble roundDouble_exact roundDouble_99_100 roundDouble_hundredth

theorem infiniteClose_collected :
    collectLevels infiniteClose 1 =
      [{ price := JSNum.posInf, type := LevelType.resistance }] := by
  norm_num [collectLevels, loopIndices, levelsAt, slice, mathMin, mathMax, JSNum.min2,
    JSNum.max2, JSNum.isNaN, JSNum.gt, JSNum.lt, infiniteClose, candleWithClose, List.range']

theorem infiniteClose_result (rnd : ℚ → JSNum) (threshold : JSNum) :
    calculateSupportResistance rnd infiniteClose 1 threshold = [] := by
  unfold calculateSupportResistance
  rw [infiniteClose_collected]
  exact filter_single_infinite rnd threshold _

/-- Claim C7: the failing input. The closes 1, `Infinity`, 1 are positive and
the default threshold is positive; the loop collects one level, the
resistance at `Infinity`; no level was collected before it, so the claim
keeps it; the code removes it and returns nothing, because the level fails
the proximity test against itself (`|Infinity - Infinity| / Infinity` is
`NaN`) and `findIndex` returns `-1`. -/
theorem calculateSupportResistance_lone_level_removed :
    (∀ c ∈ infiniteClose, (JSNum.fin 0).lt c.close = true) ∧
    (JSNum.fin 0).lt (defaultThreshold roundDouble) = true ∧
    collectLevels infiniteClose 1 =
      [{ price := JSNum.posInf, type := LevelType.resistance }] ∧
    keepFirstOfCluster roundDouble (defaultThreshold roundDouble)
        (collectLevels infiniteClose 1) =
      [{ price := JSNum.posInf, type := LevelType.resistance }] ∧
    closeTo roundDouble (defaultThreshold roundDouble)
      { price := JSNum.posInf, type := LevelType.resistance }
      { price := JSNum.posInf, type := LevelType.resistance } = false ∧
    calculateSupportResistance roundDouble infiniteClose 1 (defaultThreshold roundDouble) =
      [] := by
  refine ⟨?_, defaultThreshold_pos roundDouble roundDouble_hundredth, infiniteClose_collected,
    ?_, ?_, infiniteClose_result roundDouble _⟩
  · simp [infiniteClose, candleWithClose, JSNum.lt]
  · rw [infiniteClose_collected]
    simp [keepFirstOfCluster, arrayFilter]
  · simp [closeTo, JSNum.subR, JSNum.divR, JSNum.sub, JSNum.neg, JSNum.add, JSNum.abs,
      JSNum.div, JSNum.round, JSNum.lt]

/-! ## The CSV normaliser -/

theorem JSNum.isFinite_imp_not_isNaN (x : JSNum) (h : x.isFinite = true) : x.isNaN = false := by
  cases x <;> simp_all [JSNum.isFinite, JSNum.isNaN]

/-- Claim C10 (amended): `parseCSV` skips the header row and returns, in the
original order and without deduplication, exactly one candle for each
remaining row none of whose open, high, low, close and volume cells (columns
3 to 7) parses to `NaN`; every other row is dropped silently. Rows whose five
cells parse to finite numbers are among the rows kept. On a header and five
data rows of which the second and the fourth have a non-numeric close, the
result is the three valid candles in order. -/
theorem parseCSV_spec :
    (∀ rows : List (List String),
      parseCSV rows = ((rows.drop 1).filter rowNumeric).map rowToCandle) ∧
    (∀ row : List String, rowFinite row = true → rowNumeric row = true) ∧
    parseCSV exampleTable =
      [rowToCandle ["1", "2024-01-01", "EURUSD", "1.10", "1.12", "1.09", "1.11", "100"],
       rowToCandle ["3", "2024-01-03", "EURUSD", "1.12", "1.14", "1.11", "1.13", "120"],
       rowToCandle ["5", "2024-01-05", "EURUSD", "1.14", "1.16", "1.13", "1.15", "140"]] := by
  refine ⟨?_, ?_, ?_⟩
  · intro rows
    unfold parseCSV
    rw [List.filter_map]
    rfl
  · intro row h
    simp only [rowFinite, Bool.and_eq_true] at h
    obtain ⟨⟨⟨⟨h1, h2⟩, h3⟩, h4⟩, h5⟩ := h
    simp [rowNumeric, JSNum.isFinite_imp_not_isNaN _ h1, JSNum.isFinite_imp_not_isNaN _ h2,
      JSNum.isFinite_imp_not_isNaN _ h3, JSNum.isFinite_imp_not_isNaN _ h4,
      JSNum.isFinite_imp_not_isNaN _ h5]
  · rfl

/-- Claim C10, counterexample: a data row whose high is the text `Infinity`
has a cell that does not parse to a finite number, yet `parseCSV` keeps it:
`parseFloat` gives `Infinity`, which passes the `isNaN` filter. -/
theorem parseCSV_finite_counterexample :
    ¬ (parseCSV infiniteHighTable =
      ((infiniteHighTable.drop 1).filter rowFinite).map rowToCandle) := by
  have h1 : parseCSV infiniteHighTable =
      [rowToCandle ["1", "2024-01-01", "EURUSD", "1.10", "Infinity", "1.09", "1.11", "100"]] := by
    rfl
  have h2 : ((infiniteHighTable.drop 1).filter rowFinite).map rowToCandle = [] := by
    rfl
  rw [h1, h2]
  simp

/-! ## The indicator engine -/

/-- The records of the array returned by a merged calculator are, in order,
the leading records of its argument: as many as the algorithm has results. -/
theorem runMerged_snd (callback : EnrichedCandle → IndicatorValue → EnrichedCandle)
    (algorithm : Algorithm) (heap : Heap) (data : List Nat) :
    (runMerged callback algorithm heap data).2 =
      data.take (algorithm (data.map heap)).length := by
  unfold runMerged
  simp only []
  generalize algorithm (data.map heap) = results
  induction data generalizing results with
  | nil => simp
  | cons r rs ih =>
      cases results with
      | nil => simp
      | cons v vs => simp [ih vs]

/-- A projection of the records that the callback leaves alone is the same
in the store after the fold of the callback as before. -/
theorem foldl_merge_proj {β : Type}
    (callback : EnrichedCandle → IndicatorValue → EnrichedCandle)
    (proj : EnrichedCandle → β) (hproj : ∀ d c, proj (callback d c) = proj d)
    (zipped : List (Nat × Option IndicatorValue)) (heap : Heap) (r : Nat) :
    proj ((zipped.foldl (fun h p =>
      match p.2 with
      | none => h
      | some c => Function.update h p.1 (callback (h p.1) c)) heap) r) = proj (heap r) := by
  induction zipped generalizing heap with
  | nil => rfl
  | cons p ps ih =>
      rw [List.foldl_cons, ih]
      cases hp : p.2 with
      | none => rfl
      | some c =>
          simp only []
          by_cases hr : r = p.1
          · subst hr
            rw [Function.update_same, hproj]
          · rw [Function.update_noteq hr]

/-- A projection that the callback leaves alone is the same on every record
after a merged calculator as before. -/
theorem runMerged_proj {β : Type}
    (callback : EnrichedCandle → IndicatorValue → EnrichedCandle)
    (proj : EnrichedCandle → β) (hproj : ∀ d c, proj (callback d c) = proj d)
    (algorithm : Algorithm) (heap : Heap) (data : List Nat) (r : Nat) :
    proj ((runMerged callback algorithm heap data).1 r) = proj (heap r) := by
  unfold runMerged
  exact foldl_merge_proj callback proj hproj _ heap r

/-- A record that no pair refers to is the same after the fold of the
callback as before. -/
theorem foldl_merge_of_not_mem
    (callback : EnrichedCandle → IndicatorValue → EnrichedCandle)
    (zipped : List (Nat × Option IndicatorValue)) (heap : Heap) (r : Nat)
    (hr : r ∉ zipped.map Prod.fst) :
    (zipped.foldl (fun h p =>
      match p.2 with
      | none => h
      | some c => Function.update h p.1 (callback (h p.1) c)) heap) r = heap r := by
  induction zipped generalizing heap with
  | nil => rfl
  | cons p ps ih =>
      simp only [List.map_cons, List.mem_cons, not_or] at hr
      rw [List.foldl_cons, ih _ hr.2]
      cases hp : p.2 with
      | none => rfl
      | some c => exact Function.update_noteq hr.1 _ _

/-- When the references are distinct, a record paired with a result `c` is
the callback applied to that record and `c` after the fold. -/
theorem foldl_merge_apply
    (callback : EnrichedCandle → IndicatorValue → EnrichedCandle)
    (zipped : List (Nat × Option IndicatorValue)) (heap : Heap) (r : Nat)
    (c : IndicatorValue) (hnodup : (zipped.map Prod.fst).Nodup)
    (hmem : (r, some c) ∈ zipped) :
    (zipped.foldl (fun h p =>
      match p.2 with
      | none => h
      | some c => Function.update h p.1 (callback (h p.1) c)) heap) r =
      callback (heap r) c := by
  induction zipped generalizing heap with
  | nil => simp at hmem
  | cons p ps ih =>
      simp only [List.map_cons, List.nodup_cons] at hnodup
      rw [List.foldl_cons]
      rcases List.mem_cons.1 hmem with hp | hps
      · subst hp
        rw [foldl_merge_of_not_mem callback ps _ r hnodup.1]
        exact Function.update_same _ _ _
      · rw [ih _ hnodup.2 hps]
        have hne : r ≠ p.1 := by
          intro h
          apply hnodup.1
          rw [← h]
          exact List.mem_map_of_mem Prod.fst hps
        cases hp : p.2 with
        | none => rfl
        | some c' =>
            simp only []
            rw [Function.update_noteq hne]

/-- The assignment made by a merged calculator: when the references of the
array are distinct and the algorithm has the result `c` for element `i`, the
record of element `i` is, after the call, the callback applied to it. -/
theorem runMerged_apply (callback : EnrichedCandle → IndicatorValue → EnrichedCandle)
    (algorithm : Algorithm) (heap : Heap) (data : List Nat) (i r : Nat) (c : IndicatorValue)
    (hnodup : data.Nodup) (hr : data[i]? = some r)
    (hc : (algorithm (data.map heap))[i]? = some (some c)) :
    (runMerged callback algorithm heap data).1 r = callback (heap r) c := by
  unfold runMerged
  simp only []
  apply foldl_merge_apply
  · have hpre : (data.zip (algorithm (data.map heap))).map Prod.fst <+: data := by
      have := runMerged_snd callback algorithm heap data
      unfold runMerged at this
      simp only [] at this
      rw [this]
      exact List.take_prefix _ _
    exact hnodup.sublist hpre.sublist
  · have hz : (data.zip (algorithm (data.map heap)))[i]? = some (r, some c) :=
      List.getElem?_zip_eq_some.2 ⟨hr, hc⟩
    exact List.getElem?_mem hz

/-- A projection that the callback leaves alone is the same on every record
after a call of the calculator as before. -/
theorem callCalculator_proj {β : Type} (calculator : Calculator)
    (proj : EnrichedCandle → β) (hproj : ∀ d c, proj (calculator.callback d c) = proj d)
    (heap : Heap) (data : List Nat) (r : Nat) :
    proj ((callCalculator calculator heap data).1 r) = proj (heap r) := by
  unfold callCalculator
  cases calculator.accessor with
  | none => rfl
  | some a => exact runMerged_proj calculator.callback proj hproj calculator.algorithm heap data r

/-- A projection that the callback leaves alone is the same on every record
after one block as before. -/
theorem indicatorStep_proj {β : Type} (enabled : Bool) (calculator : Calculator)
    (proj : EnrichedCandle → β) (hproj : ∀ d c, proj (calculator.callback d c) = proj d)
    (state : Heap × Except String (List Nat)) (r : Nat) :
    proj ((indicatorStep enabled calculator state).1 r) = proj (state.1 r) := by
  unfold indicatorStep
  cases enabled
  · rfl
  · simp only [if_true]
    cases state.2 with
    | error e => rfl
    | ok data => exact callCalculator_proj calculator proj hproj state.1 data r

/-- A block whose key is not enabled does nothing. -/
theorem indicatorStep_false (calculator : Calculator)
    (state : Heap × Except String (List Nat)) :
    indicatorStep false calculator state = state := rfl

/-- When one block ends with an array, it began with an array, of which the
new array is a prefix. -/
theorem indicatorStep_ok (enabled : Bool) (calculator : Calculator)
    (state : Heap × Except String (List Nat)) (out : List Nat)
    (h : (indicatorStep enabled calculator state).2 = Except.ok out) :
    ∃ data, state.2 = Except.ok data ∧ out <+: data := by
  unfold indicatorStep at h
  cases enabled
  · exact ⟨out, h, List.prefix_refl _⟩
  · simp only [if_true] at h
    cases hs : state.2 with
    | error e =>
        rw [hs] at h
        simp only [] at h
        rw [hs] at h
        exact absurd h (by simp)
    | ok data =>
        rw [hs] at h
        simp only [] at h
        unfold callCalculator at h
        cases ha : calculator.accessor with
        | none =>
            rw [ha] at h
            exact absurd h (by simp)
        | some a =>
            rw [ha] at h
            simp only [Except.ok.injEq] at h
            refine ⟨data, rfl, ?_⟩
            rw [← h, runMerged_snd]
            exact List.take_prefix _ _

/-- A block whose calculator has an accessor does not throw. -/
theorem indicatorStep_isOk (enabled : Bool) (calculator : Calculator)
    (hacc : calculator.accessor.isSome = true)
    (state : Heap × Except String (List Nat)) (hs : ∃ data, state.2 = Except.ok data) :
    ∃ out, (indicatorStep enabled calculator state).2 = Except.ok out := by
  obtain ⟨data, hd⟩ := hs
  unfold indicatorStep
  cases enabled
  · exact ⟨data, hd⟩
  · simp only [if_true]
    rw [hd]
    simp only []
    unfold callCalculator
    cases ha : calculator.accessor with
    | none =>
        rw [ha] at hacc
        exact absurd hacc (by simp)
    | some a => exact ⟨_, rfl⟩

/-- An enabled block whose calculator has no accessor throws. -/
theorem indicatorStep_throws (calculator : Calculator) (hacc : calculator.accessor = none)
    (state : Heap × Except String (List Nat)) (hs : ∃ data, state.2 = Except.ok data) :
    (indicatorStep true calculator state).2 =
      Except.error ("Set an accessor to " ++ calculator.typeName ++ " before calculating") := by
  obtain ⟨data, hd⟩ := hs
  unfold indicatorStep
  simp only [if_true]
  rw [hd]
  simp only []
  unfold callCalculator
  rw [hacc]

/-- The array returned, if one is returned, is a prefix of the data array. -/
theorem calculateIndicators_snd_initial (lib : IndicatorLibrary) (heap : Heap)
    (data : List Nat) (indicators : IndicatorConfig) (out : List Nat)
    (h : (calculateIndicators lib heap data indicators).2 = Except.ok out) :
    out <+: data := by
  unfold calculateIndicators at h
  simp only [] at h
  obtain ⟨d5, h5, p5⟩ := indicatorStep_ok _ _ _ _ h
  obtain ⟨d4, h4, p4⟩ := indicatorStep_ok _ _ _ _ h5
  obtain ⟨d3, h3, p3⟩ := indicatorStep_ok _ _ _ _ h4
  obtain ⟨d2, h2, p2⟩ := indicatorStep_ok _ _ _ _ h3
  obtain ⟨d1, h1, p1⟩ := indicatorStep_ok _ _ _ _ h2
  obtain ⟨d0, h0, p0⟩ := indicatorStep_ok _ _ _ _ h1
  simp only [Except.ok.injEq] at h0
  subst h0
  exact p5.trans (p4.trans (p3.trans (p2.trans (p1.trans p0))))

/-- The candle fields (date, open, high, low, close, volume) of every record
are the same after the call as before. -/
theorem calculateIndicators_candle (lib : IndicatorLibrary) (heap : Heap) (data : List Nat)
    (indicators : IndicatorConfig) (r : Nat) :
    ((calculateIndicators lib heap data indicators).1 r).candle = (heap r).candle := by
  unfold calculateIndicators
  simp only []
  iterate 6 refine (indicatorStep_proj _ _ (fun d => d.candle) (by intros; rfl) _ r).trans ?_
  rfl

/-- With the key `atr` enabled the call throws, whatever the library, the
store, the data and the other keys are: the five blocks before it do not
throw, and the calculator of `atr` has no accessor. -/
theorem calculateIndicators_atr_throws (lib : IndicatorLibrary) (heap : Heap)
    (data : List Nat) (indicators : IndicatorConfig)
    (hatr : isEnabled indicators IndicatorKey.atr = true) :
    (calculateIndicators lib heap data indicators).2 =
      Except.error "Set an accessor to ATR before calculating" := by
  unfold calculateIndicators
  simp only []
  rw [hatr]
  have hmsg : "Set an accessor to " ++ "ATR" ++ " before calculating" =
      "Set an accessor to ATR before calculating" := by decide
  refine (indicatorStep_throws _ rfl _ ?_).trans (congrArg Except.error hmsg)
  refine indicatorStep_isOk _ _ (by rfl) _ ?_
  refine indicatorStep_isOk _ _ (by rfl) _ ?_
  refine indicatorStep_isOk _ _ (by rfl) _ ?_
  refine indicatorStep_isOk _ _ (by rfl) _ ?_
  refine indicatorStep_isOk _ _ (by rfl) _ ?_
  exact ⟨data, rfl⟩

/-- Claim C11: the failing input. On twenty candle records, with the
configuration that enables `atr`, `calculateIndicators` returns no sequence:
the call of the `atr` calculator, the only one built without
`.accessor(...)`, throws `Set an accessor to ATR before calculating`. The
same holds with the empty data array. -/
theorem calculateIndicators_atr_fails :
    isEnabled atrOnly IndicatorKey.atr = true ∧
    (calculateIndicators sampleLibrary risingHeap twentyCandles atrOnly).2 =
      Except.error "Set an accessor to ATR before calculating" ∧
    (calculateIndicators sampleLibrary risingHeap [] atrOnly).2 =
      Except.error "Set an accessor to ATR before calculating" ∧
    ¬ ∃ out : List Nat,
      (calculateIndicators sampleLibrary risingHeap twentyCandles atrOnly).2 =
        Except.ok out ∧ out.length = twentyCandles.length :=
  ⟨by decide,
    calculateIndicators_atr_throws sampleLibrary risingHeap twentyCandles atrOnly (by decide),
    calculateIndicators_atr_throws sampleLibrary risingHeap [] atrOnly (by decide),
    by
      rintro ⟨out, h, _⟩
      rw [calculateIndicators_atr_throws sampleLibrary risingHeap twentyCandles atrOnly
        (by decide)] at h
      exact absurd h (by simp)⟩

/-- Claim C13: for every library, store, data array and configuration, an
indicator whose key is false or absent writes nothing: its derived field is
the same on every record after the call as before, and element `i` of the
output is the record of element `i` of the input. Only the six recognised
keys are read: configurations that agree on them give the same result. With
no recognised key enabled the output is the input array and the store is
unchanged. -/
theorem calculateIndicators_disabled (lib : IndicatorLibrary) (heap : Heap)
    (data : List Nat) (indicators : IndicatorConfig) :
    (∀ key : IndicatorKey, isEnabled indicators key = false →
      ∀ r, key.field ((calculateIndicators lib heap data indicators).1 r) =
        key.field (heap r)) ∧
    (∀ out : List Nat, (calculateIndicators lib heap data indicators).2 = Except.ok out →
      ∀ i r : Nat, out[i]? = some r → data[i]? = some r) ∧
    (∀ indicators' : IndicatorConfig,
      (∀ key : IndicatorKey, isEnabled indicators' key = isEnabled indicators key) →
      calculateIndicators lib heap data indicators' =
        calculateIndicators lib heap data indicators) ∧
    ((∀ key : IndicatorKey, isEnabled indicators key = false) →
      calculateIndicators lib heap data indicators = (heap, Except.ok data)) := by
  refine ⟨?_, ?_, ?_, ?_⟩
  · intro key hkey r
    cases key with
    | sma =>
        simp only [IndicatorKey.field]
        unfold calculateIndicators
        simp only [hkey, indicatorStep_false]
        iterate 5 refine (indicatorStep_proj _ _ (fun d => d.sma20) (by intros; rfl) _ r).trans ?_
        rfl
    | ema =>
        simp only [IndicatorKey.field]
        unfold calculateIndicators
        simp only [hkey, indicatorStep_false]
        iterate 5 refine (indicatorStep_proj _ _ (fun d => d.ema50) (by intros; rfl) _ r).trans ?_
        rfl
    | bb =>
        simp only [IndicatorKey.field]
        unfold calculateIndicators
        simp only [hkey, indicatorStep_false]
        iterate 5 refine (indicatorStep_proj _ _ (fun d => d.bb) (by intros; rfl) _ r).trans ?_
        rfl
    | rsi =>
        simp only [IndicatorKey.field]
        unfold calculateIndicators
        simp only [hkey, indicatorStep_false]
        iterate 5 refine (indicatorStep_proj _ _ (fun d => d.rsi) (by intros; rfl) _ r).trans ?_
        rfl
    | macd =>
        simp only [IndicatorKey.field]
        unfold calculateIndicators
        simp only [hkey, indicatorStep_false]
        iterate 5 refine (indicatorStep_proj _ _ (fun d => d.macd) (by intros; rfl) _ r).trans ?_
        rfl
    | atr =>
        simp only [IndicatorKey.field]
        unfold calculateIndicators
        simp only [hkey, indicatorStep_false]
        iterate 5 refine (indicatorStep_proj _ _ (fun d => d.atr) (by intros; rfl) _ r).trans ?_
        rfl
  · intro out hout i r h
    have hp := calculateIndicators_snd_initial lib heap data indicators out hout
    have hlt : i < out.length := by
      by_contra hlen
      have hn : out[i]? = none := List.getElem?_eq_none (by omega)
      rw [hn] at h
      exact absurd h (by simp)
    obtain ⟨t, rfl⟩ := hp
    rw [List.getElem?_append_left hlt]
    exact h
  · intro indicators' h
    unfold calculateIndicators
    simp only [h]
  · intro h
    unfold calculateIndicators
    simp only [h, indicatorStep_false]

/-- Claim C13, witness: with only the simple moving average enabled the
field `ema50` of every record is untouched, and an unknown key changes
nothing. -/
theorem calculateIndicators_disabled_witness :
    (∀ r, IndicatorKey.ema.field
        ((calculateIndicators sampleLibrary risingHeap twentyCandles smaOnly).1 r) =
      IndicatorKey.ema.field (risingHeap r)) ∧
    calculateIndicators sampleLibrary risingHeap twentyCandles smaAndUnknown =
      calculateIndicators sampleLibrary risingHeap twentyCandles smaOnly ∧
    calculateIndicators sampleLibrary risingHeap twentyCandles [("vwap", true)] =
      (risingHeap, Except.ok twentyCandles) :=
  ⟨(calculateIndicators_disabled sampleLibrary risingHeap twentyCandles smaOnly).1
      IndicatorKey.ema (by decide),
    (calculateIndicators_disabled sampleLibrary risingHeap twentyCandles smaOnly).2.2.1
      smaAndUnknown (by intro key; cases key <;> decide),
    (calculateIndicators_disabled sampleLibrary risingHeap twentyCandles
      [("vwap", true)]).2.2.2 (by intro key; cases key <;> decide)⟩

/-- With the simple moving average enabled, the result of the algorithm for
element `i` is assigned to the field `sma20` of the record that element `i`
of the input array refers to. -/
theorem calculateIndicators_writes_sma20 (lib : IndicatorLibrary) (heap : Heap)
    (data : List Nat) (indicators : IndicatorConfig) (i r : Nat) (c : IndicatorValue)
    (hsma : isEnabled indicators IndicatorKey.sma = true) (hnodup : data.Nodup)
    (hr : data[i]? = some r)
    (hc : (lib.sma 20 (fun d => d.candle.close) (data.map heap))[i]? = some (some c)) :
    ((calculateIndicators lib heap data indicators).1 r).sma20 = some c := by
  unfold calculateIndicators
  simp only []
  iterate 5 refine (indicatorStep_proj _ _ (fun d => d.sma20) (by intros; rfl) _ r).trans ?_
  rw [hsma]
  unfold indicatorStep callCalculator
  simp only [if_true]
  rw [runMerged_apply _ _ heap data i r c hnodup hr hc]

/-- The trailing mean of the closes 1 to 20 at the last index is 10.5. -/
theorem trailingMean_twenty :
    (sampleLibrary.sma 20 (fun d => d.candle.close) (twentyCandles.map risingHeap))[19]? =
      some (some (IndicatorValue.number (21 / 2))) := by
  simp [sampleLibrary, trailingMean, twentyCandles, List.range_succ, risingHeap,
    candleWithClose, JSNum.toRat]
  norm_num

/-- Claim C12, failing input: twenty plain candles with closes 1 to 20 and
the simple moving average enabled. Before the call the last input record has
no field `sma20`; after the call the same record carries `sma20 = 10.5`. -/
theorem calculateIndicators_mutates_input :
    twentyCandles[19]? = some 19 ∧
    (risingHeap 19).sma20 = none ∧
    ((calculateIndicators sampleLibrary risingHeap twentyCandles smaOnly).1 19).sma20 =
      some (IndicatorValue.number (21 / 2)) ∧
    (calculateIndicators sampleLibrary risingHeap twentyCandles smaOnly).1 19 ≠
      risingHeap 19 := by
  have h19 : twentyCandles[19]? = some 19 := by
    simp [twentyCandles]
  have hw := calculateIndicators_writes_sma20 sampleLibrary risingHeap twentyCandles smaOnly
    19 19 (IndicatorValue.number (21 / 2)) (by decide) (List.nodup_range 20) h19
    trailingMean_twenty
  refine ⟨h19, rfl, hw, ?_⟩
  intro h
  rw [h] at hw
  simp [risingHeap] at hw

end FinancialData
